import Mathlib

/-! Call distribution and agent-pool synchronisation.

A shallow embedding of the distributor service of the call-center repository
(`internal/distributor/service.go`, `pkg/database/kafka.go`, `models/*.go`).

The service talks to three outside systems.  Each one is an explicit piece of
state, and every command sent to it either succeeds or returns an error taken
from a script of upcoming outcomes carried by that state, so that the error
branches of the Go code are part of the embedding:

* the Redis list `available_agents` (the agent pool),
* the Kafka producer for the `assigned_calls` topic,
* the relational table of `AssignedCall` rows.

A Go `error` is an `Option String` (`none` is `nil`).  Output written with
`fmt.Printf` goes to standard output only and is not modelled.
-/

namespace CallCenter

/-! ## Data model (`models/agent_auth.go`, `models/call_request.go`) -/

/-- Go `error`: `none` is `nil`, `some msg` an error with that message. -/
abbrev GoError := Option String

/-- Record `models.Agent`; times are seconds on an abstract clock. -/
structure Agent where
  ID : String
  Name : String
  Password : String
  IsAdmin : Bool
  IsActive : Bool
  CreatedAt : Nat
  UpdatedAt : Nat
  DeletedAt : Option Nat
  deriving DecidableEq, Repr

/-- Record `models.IncomingCall`. -/
structure IncomingCall where
  CallID : String
  CustomerNumber : String
  Timestamp : Nat
  deriving DecidableEq, Repr

/-- Record `models.AssignedCall`. -/
structure AssignedCall where
  ID : Nat
  CallID : String
  CustomerNumber : String
  Timestamp : Nat
  AssignedAgentID : String
  Status : String
  Notes : String
  CreatedAt : Nat
  UpdatedAt : Nat
  DeletedAt : Option Nat
  deriving DecidableEq, Repr

/-! ## Redis: the list stored under the key `available_agents` -/

/-- State of the Redis client as the distributor sees it: the content of the
list `available_agents` (head first) and the outcomes of the commands still to
come (`some e`: the command fails with error `e` and changes nothing; `none`
or an exhausted script: the command reaches the server). -/
structure Redis where
  available_agents : List String
  faults : List (Option String)
  deriving DecidableEq, Repr

/-- Every command still to come reaches the server. -/
def Redis.healthy (r : Redis) : Prop := ∀ e ∈ r.faults, e = none

instance (r : Redis) : Decidable r.healthy := by
  unfold Redis.healthy; infer_instance

/-- Outcome scripted for the next command. -/
def Redis.nextFault (r : Redis) : Option String := r.faults.head?.join

/-- The client state once the next command has been issued. -/
def Redis.advance (r : Redis) : Redis := { r with faults := r.faults.tail }

/-- Command `LRANGE available_agents 0 -1`: the whole list. -/
def Redis.LRange (r : Redis) : Except String (List String) × Redis :=
  match r.nextFault with
  | some e => (.error e, r.advance)
  | none => (.ok r.available_agents, r.advance)

/-- Command `LPOP available_agents`: removes and returns the head; on an empty
list the client reports the error `redis: nil`. -/
def Redis.LPop (r : Redis) : Except String String × Redis :=
  match r.nextFault with
  | some e => (.error e, r.advance)
  | none =>
    match r.available_agents with
    | [] => (.error "redis: nil", r.advance)
    | a :: rest => (.ok a, { r.advance with available_agents := rest })

/-- Command `RPUSH available_agents v₁ … vₙ`: appends the values at the tail and
returns the new length; the server rejects a call without values. -/
def Redis.RPush (r : Redis) (values : List String) : Except String Nat × Redis :=
  match r.nextFault with
  | some e => (.error e, r.advance)
  | none =>
    match values with
    | [] => (.error "ERR wrong number of arguments for rpush command", r.advance)
    | _ :: _ =>
      (.ok (r.available_agents ++ values).length,
        { r.advance with available_agents := r.available_agents ++ values })

/-- Command `LREM available_agents 0 v`: removes every element equal to `v` and
returns how many were removed. -/
def Redis.LRem (r : Redis) (value : String) : Except String Nat × Redis :=
  match r.nextFault with
  | some e => (.error e, r.advance)
  | none =>
    (.ok (r.available_agents.count value),
      { r.advance with available_agents := r.available_agents.filter (fun a => a != value) })

/-! ## Kafka producer (`pkg/database/kafka.go`) -/

/-- A `sarama.ProducerMessage` carrying an assigned call.  The value is the
record itself: `json.Marshal` does not fail on the records the service builds
and the encoding keeps every field the record exports. -/
structure ProducerMessage where
  Topic : String
  Key : String
  Value : AssignedCall
  deriving DecidableEq, Repr

/-- State of the synchronous producer: the messages the broker has accepted (in
order), every `SendMessage` call made so far with its outcome, and the outcomes
of the calls still to come. -/
structure KafkaProducer where
  accepted : List ProducerMessage
  sendLog : List (ProducerMessage × GoError)
  faults : List (Option String)
  deriving DecidableEq, Repr

/-- Every `SendMessage` call still to come is accepted by the broker. -/
def KafkaProducer.healthy (p : KafkaProducer) : Prop := ∀ e ∈ p.faults, e = none

instance (p : KafkaProducer) : Decidable p.healthy := by
  unfold KafkaProducer.healthy; infer_instance

/-- Method `SendMessage` of the synchronous producer. -/
def KafkaProducer.SendMessage (p : KafkaProducer) (msg : ProducerMessage) :
    GoError × KafkaProducer :=
  match p.faults.head?.join with
  | some e =>
    (some e, { p with sendLog := p.sendLog ++ [(msg, some e)], faults := p.faults.tail })
  | none =>
    (none, { accepted := p.accepted ++ [msg], sendLog := p.sendLog ++ [(msg, none)],
             faults := p.faults.tail })

/-- Function `(*KafkaProducer).PublishAssignedCall`. -/
def PublishAssignedCall (p : KafkaProducer) (call : AssignedCall) : GoError × KafkaProducer :=
  let msg : ProducerMessage := { Topic := "assigned_calls", Key := call.CallID, Value := call }
  match p.SendMessage msg with
  | (some err, p1) => (some err, p1)
  | (none, p1) => (none, p1)

/-! ## System of record: the table of assigned calls -/

/-- State of the relational store: the rows of the `assigned_calls` table, every
insert attempted so far with its outcome, the next value of the primary-key
sequence, and the outcomes of the statements still to come. -/
structure DB where
  assigned_calls : List AssignedCall
  createLog : List (AssignedCall × GoError)
  nextID : Nat
  faults : List (Option String)
  deriving DecidableEq, Repr

/-- Call `db.Create(&assignedCall)`: inserts the row unless the statement fails
or a row with the same `call_id` exists (unique index on `call_id`).  The stored
row gets a fresh primary key and its creation and update times. -/
def DB.Create (d : DB) (now : Nat) (row : AssignedCall) : GoError × DB :=
  match d.faults.head?.join with
  | some e =>
    (some e, { d with createLog := d.createLog ++ [(row, some e)], faults := d.faults.tail })
  | none =>
    if d.assigned_calls.any (fun c => c.CallID == row.CallID) then
      let e := "ERROR: duplicate key value violates unique constraint (SQLSTATE 23505)"
      (some e, { d with createLog := d.createLog ++ [(row, some e)], faults := d.faults.tail })
    else
      (none,
        { assigned_calls :=
            d.assigned_calls ++ [{ row with ID := d.nextID, CreatedAt := now, UpdatedAt := now }],
          createLog := d.createLog ++ [(row, none)],
          nextID := d.nextID + 1,
          faults := d.faults.tail })

/-! ## The distributor service (`internal/distributor/service.go`) -/

/-- Everything the `distributorService` holds or reaches: the Redis client, the
producer, the store and the wall clock read by `time.Now()`. -/
structure World where
  redis : Redis
  kafkaProducer : KafkaProducer
  db : DB
  now : Nat
  deriving DecidableEq, Repr

/-- Method `assignAgent`: round-robin, pop the head of the pool and push it back
at the tail; the empty string means that no agent was obtained. -/
def assignAgent (r : Redis) : String × Redis :=
  match r.LRange with
  | (.error _, r1) => ("", r1)
  | (.ok agents, r1) =>
    if agents.length = 0 then ("", r1)
    else
      match r1.LPop with
      | (.error _, r2) => ("", r2)
      | (.ok agent, r2) => (agent, (r2.RPush [agent]).2)

/-- Method `processIncomingCall`. -/
def processIncomingCall (w : World) (call : IncomingCall) : GoError × World :=
  match assignAgent w.redis with
  | (agentID, r1) =>
    if agentID = "" then (none, { w with redis := r1 })
    else
      let assignedCall : AssignedCall :=
        { ID := 0, CallID := call.CallID, CustomerNumber := call.CustomerNumber,
          Timestamp := w.now, AssignedAgentID := agentID, Status := "assigned",
          Notes := "", CreatedAt := 0, UpdatedAt := 0, DeletedAt := none }
      match PublishAssignedCall w.kafkaProducer assignedCall with
      | (some err, p1) => (some err, { w with redis := r1, kafkaProducer := p1 })
      | (none, p1) =>
        (none, { w with redis := r1, kafkaProducer := p1,
                        db := (w.db.Create w.now assignedCall).2 })

/-- The assigned-call record that `processIncomingCall` builds for a call, an
agent and a reading of the clock. -/
def newAssignedCall (call : IncomingCall) (agentID : String) (now : Nat) : AssignedCall :=
  { ID := 0, CallID := call.CallID, CustomerNumber := call.CustomerNumber,
    Timestamp := now, AssignedAgentID := agentID, Status := "assigned",
    Notes := "", CreatedAt := 0, UpdatedAt := 0, DeletedAt := none }

/-- The message that carries `newAssignedCall` on the `assigned_calls` topic. -/
def assignedEvent (call : IncomingCall) (agentID : String) (now : Nat) : ProducerMessage :=
  { Topic := "assigned_calls", Key := call.CallID, Value := newAssignedCall call agentID now }

/-- The events the broker accepted while one call was processed: what
`processIncomingCall` added to the topic. -/
def publishedEvents (w : World) (call : IncomingCall) : List ProducerMessage :=
  (processIncomingCall w call).2.kafkaProducer.accepted.drop w.kafkaProducer.accepted.length

/-- The publish attempts made while one call was processed, each with its
outcome: what `processIncomingCall` added to the log of `SendMessage` calls. -/
def publishAttempts (w : World) (call : IncomingCall) : List (ProducerMessage × GoError) :=
  (processIncomingCall w call).2.kafkaProducer.sendLog.drop w.kafkaProducer.sendLog.length

/-- The inserts attempted while one call was processed, each with its outcome:
what `processIncomingCall` added to the log of `Create` calls. -/
def persistAttempts (w : World) (call : IncomingCall) : List (AssignedCall × GoError) :=
  (processIncomingCall w call).2.db.createLog.drop w.db.createLog.length

/-- The consumer loop over the inbound-call stream (`ConsumeClaim` in
`pkg/database/kafka.go` with the distributor's callback): the calls are handed to
`processIncomingCall` one after another, an error returned for one call is
printed and the loop goes on.  The results are returned in call order. -/
def processIncomingCalls (w : World) : List IncomingCall → List GoError × World
  | [] => ([], w)
  | call :: rest =>
    match processIncomingCall w call with
    | (err, w1) =>
      match processIncomingCalls w1 rest with
      | (errs, w2) => (err :: errs, w2)

/-- Repeated `assignAgent`: the agents returned by `n` successive calls, in
order, and the Redis state afterwards. -/
def assignAgents (r : Redis) : Nat → List String × Redis
  | 0 => ([], r)
  | n + 1 =>
    match assignAgent r with
    | (agent, r1) =>
      match assignAgents r1 n with
      | (agents, r2) => (agent :: agents, r2)

/-! ### Agent-change events -/

/-- Position of the first `:` of a key: the text before it and the text after
it, or `none` when the key has no `:`. -/
def cutAtColon : List Char → Option (List Char × List Char)
  | [] => none
  | c :: cs =>
    if c = ':' then some ([], cs)
    else
      match cutAtColon cs with
      | none => none
      | some (before, after) => some (c :: before, after)

/-- Go `strings.SplitN(key, ":", 2)`: the key cut at its first `:`, or the key
alone when it has none. -/
def SplitN (key : String) : List String :=
  match cutAtColon key.data with
  | none => [key]
  | some (before, after) => [String.mk before, String.mk after]

/-- Method `handleAgentCreation`. -/
def handleAgentCreation (r : Redis) (agent : Agent) : GoError × Redis :=
  if !agent.IsActive then (none, r)
  else
    match r.LRange with
    | (.error err, r1) => (some ("failed to read from Redis: " ++ err), r1)
    | (.ok agents, r1) =>
      if agents.any (fun existingAgent => existingAgent == agent.ID) then (none, r1)
      else
        match r1.RPush [agent.ID] with
        | (.error err, r2) => (some ("failed to add agent to Redis: " ++ err), r2)
        | (.ok _, r2) => (none, r2.LRange.2)

/-- Method `handleAgentDeletion`. -/
def handleAgentDeletion (r : Redis) (agent : Agent) : GoError × Redis :=
  match r.LRem agent.ID with
  | (.error err, r1) => (some ("failed to remove agent from Redis: " ++ err), r1)
  | (.ok _, r1) => (none, r1.LRange.2)

/-- Method `handleAgentChange`.  The decoder `json.Unmarshal` into a
`models.Agent` belongs to the Go standard library and is a parameter. -/
def handleAgentChange (unmarshal : List UInt8 → Except String Agent)
    (r : Redis) (key : String) (value : List UInt8) : GoError × Redis :=
  match SplitN key with
  | [action, _] =>
    match unmarshal value with
    | .error _ => (none, r)
    | .ok agent =>
      if action = "create_agent" then handleAgentCreation r agent
      else if action = "delete_agent" then handleAgentDeletion r agent
      else (none, r)
  | _ => (none, r)

/-- A raw message of the `agent_changes` topic. -/
structure ConsumerMessage where
  Key : String
  Value : List UInt8
  deriving DecidableEq, Repr

/-- Method `agentChangeHandler.ConsumeClaim`: every message of the claim goes
through `handleAgentChange`; an error is printed and the loop goes on. -/
def ConsumeClaim (unmarshal : List UInt8 → Except String Agent)
    (r : Redis) : List ConsumerMessage → Redis
  | [] => r
  | message :: rest =>
    ConsumeClaim unmarshal (handleAgentChange unmarshal r message.Key message.Value).2 rest

/-! ### Agent-change events as the specification describes them -/

/-- The action of an agent-change event. -/
inductive Action where
  | create
  | delete
  deriving DecidableEq, Repr

/-- The tag that starts the key of an agent-change message. -/
def Action.tag : Action → String
  | .create => "create_agent"
  | .delete => "delete_agent"

/-- An agent-change event: an action and a snapshot of the agent. -/
structure AgentChangeEvent where
  action : Action
  agent : Agent
  deriving DecidableEq, Repr

/-- The raw message `m` is a well-formed encoding of the event `ev`: its key is
the action tag, a `:` and any text, and its payload decodes to the snapshot. -/
def Encodes (unmarshal : List UInt8 → Except String Agent) (m : ConsumerMessage)
    (ev : AgentChangeEvent) : Prop :=
  (∃ rest : String, m.Key = ev.action.tag ++ ":" ++ rest) ∧ unmarshal m.Value = .ok ev.agent

/-- The last event of the sequence that concerns the agent id `x`, if any. -/
def lastSeen (evs : List AgentChangeEvent) (x : String) : Option AgentChangeEvent :=
  (evs.filter (fun ev => ev.agent.ID == x)).getLast?

/-- The last-seen action for the agent id `x` was a create with
`is_active = true` (and so no delete for `x` came after it). -/
def lastSeenActiveCreate (evs : List AgentChangeEvent) (x : String) : Bool :=
  match lastSeen evs x with
  | some ev => ev.action == Action.create && ev.agent.IsActive
  | none => false

/-- A create event whose snapshot has `is_active = false`. -/
def AgentChangeEvent.inactiveCreate (ev : AgentChangeEvent) : Bool :=
  ev.action == Action.create && !ev.agent.IsActive

/-! ### Sample states -/

/-- An agent snapshot with the given id and activity flag. -/
def sampleAgent (id : String) (isActive : Bool) : Agent :=
  { ID := id, Name := "Ada", Password := "", IsAdmin := false, IsActive := isActive,
    CreatedAt := 1, UpdatedAt := 1, DeletedAt := none }

/-- A stand-in for the JSON decoder in examples: the payload `[1, n]` is the
active agent with id `n` in decimal, `[0, n]` the same agent marked inactive,
anything else is not an agent document. -/
def sampleUnmarshal : List UInt8 → Except String Agent
  | [1, n] => .ok (sampleAgent (toString n.toNat) true)
  | [0, n] => .ok (sampleAgent (toString n.toNat) false)
  | _ => .error "invalid character looking for beginning of value"


/-- A world without scripted failures: the given pool, an empty topic, an empty
table, the clock at 100. -/
def quietWorld (pool : List String) : World :=
  { redis := { available_agents := pool, faults := [] },
    kafkaProducer := { accepted := [], sendLog := [], faults := [] },
    db := { assigned_calls := [], createLog := [], nextID := 1, faults := [] },
    now := 100 }

/-- A world like `quietWorld` whose broker and store follow the given scripts of
outcomes. -/
def scriptedWorld (pool : List String) (sendFaults dbFaults : List (Option String)) : World :=
  { redis := { available_agents := pool, faults := [] },
    kafkaProducer := { accepted := [], sendLog := [], faults := sendFaults },
    db := { assigned_calls := [], createLog := [], nextID := 1, faults := dbFaults },
    now := 100 }

/-- The inbound call with the given id, from customer "555". -/
def sampleCall (callID : String) : IncomingCall :=
  { CallID := callID, CustomerNumber := "555", Timestamp := 99 }

/-! ## Bootstrap sync (`cmd/distributor/main.go`) -/

/-- Command `DEL available_agents`: drops the list and returns how many keys were
removed. -/
def Redis.Del (r : Redis) : Except String Nat × Redis :=
  match r.nextFault with
  | some e => (.error e, r.advance)
  | none =>
    (.ok (if r.available_agents.length = 0 then 0 else 1),
      { r.advance with available_agents := [] })

/-- The `agents` table of the system of record as the distributor reads it: its
rows in the order a query returns them, and the outcomes of the queries still to
come. -/
structure AgentTable where
  rows : List Agent
  faults : List (Option String)
  deriving DecidableEq, Repr

/-- Query `db.Where("is_active = ?", true).Find(&agents)`: the rows marked
active that are not soft-deleted. -/
def AgentTable.FindActive (d : AgentTable) : Except String (List Agent) × AgentTable :=
  match d.faults.head?.join with
  | some e => (.error e, { d with faults := d.faults.tail })
  | none =>
    (.ok (d.rows.filter (fun a => a.IsActive && a.DeletedAt.isNone)),
      { d with faults := d.faults.tail })

/-- Function `syncAgentsToRedis`. -/
def syncAgentsToRedis (db : AgentTable) (rdb : Redis) : GoError × AgentTable × Redis :=
  match db.FindActive with
  | (.error err, db1) => (some ("failed to fetch agents: " ++ err), db1, rdb)
  | (.ok agents, db1) =>
    if agents.length = 0 then (none, db1, rdb)
    else
      match rdb.Del with
      | (.error err, r1) => (some ("failed to clear Redis list: " ++ err), db1, r1)
      | (.ok _, r1) =>
        let agentIDs := agents.map (fun agent => agent.ID)
        match r1.RPush agentIDs with
        | (.error err, r2) => (some ("failed to push agents to Redis: " ++ err), db1, r2)
        | (.ok _, r2) => (none, db1, r2)

/-! ## Interleaving of the assignment engine and the synchroniser

`assignAgent` issues up to three store commands, and the synchroniser runs in
another goroutine on the same list.  The state below records how far a call of
`assignAgent` has come, so that a deletion can be scheduled between any two of
its commands. -/

/-- How far a call of `assignAgent` has come. -/
inductive AssignPhase where
  /-- No call is in progress; the next command is the `LRANGE` of a new call. -/
  | idle
  /-- The `LRANGE` returned a non-empty list; the next command is the `LPOP`. -/
  | ranged
  /-- The `LPOP` returned this agent; the next command is the `RPUSH` of it. -/
  | popped (agent : String)
  deriving DecidableEq, Repr

/-- The shared list together with the progress of the assignment engine. -/
structure Interleaved where
  redis : Redis
  phase : AssignPhase
  deriving DecidableEq, Repr

/-- The assignment engine issues its next store command. -/
def engineStep (s : Interleaved) : Interleaved :=
  match s.phase with
  | .idle =>
    match s.redis.LRange with
    | (.error _, r1) => { redis := r1, phase := .idle }
    | (.ok agents, r1) =>
      if agents.length = 0 then { redis := r1, phase := .idle }
      else { redis := r1, phase := .ranged }
  | .ranged =>
    match s.redis.LPop with
    | (.error _, r1) => { redis := r1, phase := .idle }
    | (.ok agent, r1) => { redis := r1, phase := .popped agent }
  | .popped agent => { redis := (s.redis.RPush [agent]).2, phase := .idle }

/-- One scheduling decision: the engine issues its next command, or the
synchroniser processes a delete event for an agent (`handleAgentDeletion`: the
`LREM` and the read of the list for the log, which does not change the list). -/
inductive PoolStep where
  | engine
  | remove (agent : Agent)
  deriving DecidableEq, Repr

/-- Effect of one scheduling decision. -/
def poolStep (s : Interleaved) : PoolStep → Interleaved
  | .engine => engineStep s
  | .remove agent => { s with redis := (handleAgentDeletion s.redis agent).2 }

/-- Effect of a schedule, first decision first. -/
def runSchedule (s : Interleaved) : List PoolStep → Interleaved
  | [] => s
  | step :: rest => runSchedule (poolStep s step) rest

/-- The agent `x` is neither pooled nor held by an assignment between its pop
and its push. -/
def absentFrom (x : String) (s : Interleaved) : Prop :=
  x ∉ s.redis.available_agents ∧ s.phase ≠ AssignPhase.popped x

/-! ## Delivery bridge (`internal/customeragent/handler.go`, `pkg/database/kafka.go`) -/

/-- A JSON frame written to an agent's connection: the `fiber.Map` values that
`WebSocketHandler` builds. -/
inductive WsMessage where
  /-- The frame `{"type": "connected", "message": …}`. -/
  | connected (message : String)
  /-- The frame `{"type": "new_call", "data": call}`. -/
  | new_call (data : AssignedCall)
  /-- The frame `{"error": …}`. -/
  | error (text : String)
  deriving DecidableEq, Repr

/-- State of one WebSocket connection: the frames the peer received (in order),
every `WriteJSON` call made so far with its outcome, the outcomes of the writes
still to come that reach the network, and the write error the connection keeps:
once a write has failed, the connection returns that error for every later
write without touching the network. -/
structure WsConn where
  written : List WsMessage
  writeLog : List (WsMessage × GoError)
  faults : List (Option String)
  writeErr : GoError
  deriving DecidableEq, Repr

/-- No write has failed so far and every write still to come succeeds. -/
def WsConn.healthy (c : WsConn) : Prop := c.writeErr = none ∧ ∀ e ∈ c.faults, e = none

instance (c : WsConn) : Decidable c.healthy := by
  unfold WsConn.healthy; infer_instance

/-- Method `WriteJSON` of the connection. -/
def WsConn.WriteJSON (c : WsConn) (msg : WsMessage) : GoError × WsConn :=
  match c.writeErr with
  | some e => (some e, { c with writeLog := c.writeLog ++ [(msg, some e)] })
  | none =>
    match c.faults.head?.join with
    | some e =>
      (some e, { c with writeLog := c.writeLog ++ [(msg, some e)], faults := c.faults.tail,
                        writeErr := some e })
    | none =>
      (none, { c with written := c.written ++ [msg], writeLog := c.writeLog ++ [(msg, none)],
                      faults := c.faults.tail })

/-- The callback that `WebSocketHandler` hands to `ConsumeAssignedCalls`: relay
the call if it is assigned to this agent, skip it otherwise; a failed write is
printed and nil is returned all the same. -/
def WebSocketHandler.onAssignedCall (agentID : String) (c : WsConn) (call : AssignedCall) :
    GoError × WsConn :=
  if call.AssignedAgentID = agentID then
    match c.WriteJSON (WsMessage.new_call call) with
    | (some _, c1) => (none, c1)
    | (none, c1) => (none, c1)
  else (none, c)

/-- The consumer group in which `WebSocketHandler` reads the `assigned_calls`
topic for a connection of the agent `agentID`. -/
def WebSocketHandler.groupID (agentID : String) : String := "ws-" ++ agentID

/-- A live connection as `WebSocketHandler` receives it: the connection object,
told apart from every other by `conn`, and the agent id taken from the token. -/
structure BridgeConnection where
  conn : Nat
  agentID : String
  deriving DecidableEq, Repr

/-- The consumer group in which the bridge of a connection reads. -/
def BridgeConnection.groupID (b : BridgeConnection) : String :=
  WebSocketHandler.groupID b.agentID

/-- Body of the loop of `consumerGroupHandler.ConsumeClaim` for one message
value: decode it as an assigned call first, then as an inbound call; a callback
that is nil is not called, an error it returns is printed.  The two decoders are
`json.Unmarshal` into the two record types. -/
def consumerGroupHandler.consumeMessage {σ : Type}
    (unmarshalAssigned : List UInt8 → Except String AssignedCall)
    (unmarshalIncoming : List UInt8 → Except String IncomingCall)
    (processIncoming : Option (σ → IncomingCall → GoError × σ))
    (processAssigned : Option (σ → AssignedCall → GoError × σ))
    (s : σ) (value : List UInt8) : σ :=
  let asIncoming : σ :=
    match unmarshalIncoming value with
    | .ok incomingCall =>
      if incomingCall.CallID ≠ "" then
        match processIncoming with
        | some f => (f s incomingCall).2
        | none => s
      else s
    | .error _ => s
  match unmarshalAssigned value with
  | .ok assignedCall =>
    if assignedCall.AssignedAgentID ≠ "" then
      match processAssigned with
      | some f => (f s assignedCall).2
      | none => s
    else asIncoming
  | .error _ => asIncoming

/-- Method `consumerGroupHandler.ConsumeClaim`: the messages of the claim, in
order. -/
def consumerGroupHandler.ConsumeClaim {σ : Type}
    (unmarshalAssigned : List UInt8 → Except String AssignedCall)
    (unmarshalIncoming : List UInt8 → Except String IncomingCall)
    (processIncoming : Option (σ → IncomingCall → GoError × σ))
    (processAssigned : Option (σ → AssignedCall → GoError × σ)) :
    σ → List (List UInt8) → σ
  | s, [] => s
  | s, value :: rest =>
    consumerGroupHandler.ConsumeClaim unmarshalAssigned unmarshalIncoming processIncoming
      processAssigned
      (consumerGroupHandler.consumeMessage unmarshalAssigned unmarshalIncoming processIncoming
        processAssigned s value)
      rest

/-- The delivery bridge of one connection: `ConsumeAssignedCalls` with the
callback of `WebSocketHandler`, over the message values the subscription reads.
Only the assigned-call callback is set. -/
def deliveryBridge
    (unmarshalAssigned : List UInt8 → Except String AssignedCall)
    (unmarshalIncoming : List UInt8 → Except String IncomingCall)
    (agentID : String) (c : WsConn) (values : List (List UInt8)) : WsConn :=
  consumerGroupHandler.ConsumeClaim unmarshalAssigned unmarshalIncoming none
    (some (WebSocketHandler.onAssignedCall agentID)) c values

/-- The writes the bridge attempted while it consumed the given messages, each
with its outcome: what it added to the log of `WriteJSON` calls. -/
def bridgeWrites
    (unmarshalAssigned : List UInt8 → Except String AssignedCall)
    (unmarshalIncoming : List UInt8 → Except String IncomingCall)
    (agentID : String) (c : WsConn) (values : List (List UInt8)) : List (WsMessage × GoError) :=
  (deliveryBridge unmarshalAssigned unmarshalIncoming agentID c values).writeLog.drop
    c.writeLog.length

/-! ## Agent-change producer (`internal/customeragent/handler.go`) -/

/-- State of the producer of the customer-agent API: the raw messages the broker
has accepted on its topic and the outcomes of the sends still to come. -/
structure RawProducer where
  topic : String
  accepted : List ConsumerMessage
  faults : List (Option String)
  deriving DecidableEq, Repr

/-- Function `(*KafkaProducer).PublishMessage`. -/
def PublishMessage (p : RawProducer) (key : String) (value : List UInt8) :
    GoError × RawProducer :=
  match p.faults.head?.join with
  | some e => (some e, { p with faults := p.faults.tail })
  | none =>
    (none, { p with accepted := p.accepted ++ [{ Key := key, Value := value }],
                    faults := p.faults.tail })

/-- The publish step of `CreateAgent` for the agent just registered: skipped
without a producer, and a failed publish is only printed.  The encoder
`json.Marshal` of an agent is a parameter. -/
def CreateAgent.publish (marshal : Agent → List UInt8) (kafkaProducer : Option RawProducer)
    (agent : Agent) : Option RawProducer :=
  match kafkaProducer with
  | none => none
  | some p => some (PublishMessage p ("create_agent:" ++ agent.ID) (marshal agent)).2

/-- The publish step of `DeleteAgent` for the agent just marked inactive. -/
def DeleteAgent.publish (marshal : Agent → List UInt8) (kafkaProducer : Option RawProducer)
    (agent : Agent) : Option RawProducer :=
  match kafkaProducer with
  | none => none
  | some p => some (PublishMessage p ("delete_agent:" ++ agent.ID) (marshal agent)).2

/-! ### The table under its unique index, and more sample values -/

/-- Every statement still to come reaches the table. -/
def DB.healthy (d : DB) : Prop := ∀ e ∈ d.faults, e = none

instance (d : DB) : Decidable d.healthy := by
  unfold DB.healthy; infer_instance

/-- The error `db.Create` returns when the unique index on `call_id` rejects a
row. -/
def duplicateKeyError : String :=
  "ERROR: duplicate key value violates unique constraint (SQLSTATE 23505)"

/-- An assigned call with the given call id and agent id. -/
def sampleAssigned (callID agentID : String) : AssignedCall :=
  { ID := 0, CallID := callID, CustomerNumber := "555", Timestamp := 100,
    AssignedAgentID := agentID, Status := "assigned", Notes := "",
    CreatedAt := 0, UpdatedAt := 0, DeletedAt := none }

/-- A stand-in for the JSON decoder of assigned calls in examples: the payload
`[c, a]` is the call with id `c` for the agent with id `a`, both in decimal, and
the agent byte 0 stands for the empty agent id. -/
def sampleUnmarshalAssigned : List UInt8 → Except String AssignedCall
  | [c, a] =>
    .ok (sampleAssigned (toString c.toNat) (if a = 0 then "" else toString a.toNat))
  | _ => .error "unexpected end of JSON input"

/-- A stand-in for the JSON decoder of inbound calls in examples: the same
payloads, read as inbound calls. -/
def sampleUnmarshalIncoming : List UInt8 → Except String IncomingCall
  | [c, _] => .ok { CallID := toString c.toNat, CustomerNumber := "555", Timestamp := 100 }
  | _ => .error "unexpected end of JSON input"

/-- A connection on which nothing was written and every write succeeds. -/
def quietConn : WsConn := { written := [], writeLog := [], faults := [], writeErr := none }

/-! ## Completing a call (`internal/customeragent/service.go`) -/

/-- The table satisfies its primary key and its unique index on `call_id`: no
two rows share an `id`, no two rows share a `call_id`. -/
def DB.wellKeyed (d : DB) : Prop :=
  (d.assigned_calls.map (fun c => c.ID)).Nodup ∧
  (d.assigned_calls.map (fun c => c.CallID)).Nodup

instance (d : DB) : Decidable d.wellKeyed := by
  unfold DB.wellKeyed; infer_instance

/-- Query `db.Where("call_id = ?", callID).First(&call)`: the row with that
`call_id` that is not soft-deleted, or the error `record not found`.  The rows
of the table are kept in primary-key order, the order of `First`. -/
def DB.First (d : DB) (callID : String) : Except String AssignedCall × DB :=
  match d.faults.head?.join with
  | some e => (.error e, { d with faults := d.faults.tail })
  | none =>
    match d.assigned_calls.find? (fun c => c.CallID == callID && c.DeletedAt.isNone) with
    | some call => (.ok call, { d with faults := d.faults.tail })
    | none => (.error "record not found", { d with faults := d.faults.tail })

/-- Call `db.Save(&call)`: a record without primary key is inserted; otherwise
every column of the row with that primary key is overwritten with the record
and the update time is set.  Returns the record as `Save` leaves it. -/
def DB.Save (d : DB) (now : Nat) (call : AssignedCall) : Except String AssignedCall × DB :=
  if call.ID = 0 then
    match d.Create now call with
    | (some e, d1) => (.error e, d1)
    | (none, d1) =>
      (.ok { call with ID := d.nextID, CreatedAt := now, UpdatedAt := now }, d1)
  else
    match d.faults.head?.join with
    | some e => (.error e, { d with faults := d.faults.tail })
    | none =>
      (.ok { call with UpdatedAt := now },
        { d with
          assigned_calls := d.assigned_calls.map (fun c =>
            if c.ID = call.ID ∧ c.DeletedAt.isNone then { call with UpdatedAt := now } else c),
          faults := d.faults.tail })

/-- Method `CompleteCall`; `now` is the reading of `time.Now()`.  The notes of
the request are not stored. -/
def CompleteCall (d : DB) (now : Nat) (callID agentID notes status : String) :
    Except String AssignedCall × DB :=
  match d.First callID with
  | (.error _, d1) => (.error "call not found", d1)
  | (.ok call, d1) =>
    if call.AssignedAgentID ≠ agentID then
      (.error "unauthorized: call not assigned to you", d1)
    else
      let call1 : AssignedCall := { call with Status := status }
      let call2 : AssignedCall := if notes ≠ "" then call1 else call1
      let call3 : AssignedCall := { call2 with Timestamp := now }
      match d1.Save now call3 with
      | (.error err, d2) => (.error err, d2)
      | (.ok saved, d2) => (.ok saved, d2)

/-! ## Agent ids (`internal/customeragent/service.go`) -/

/-- A UUID of `github.com/google/uuid`: sixteen bytes. -/
structure UUID where
  bytes : List UInt8
  size : bytes.length = 16

/-- The UUID is one that `uuid.New()` can return: random bytes with the version
nibble 4 and the variant bits `10`. -/
def UUID.isV4 (u : UUID) : Bool :=
  (u.bytes.getD 6 0).toNat / 16 == 4 && (u.bytes.getD 8 0).toNat / 64 == 2

/-- The lower-case hexadecimal digit of a number below 16. -/
def hexDigit (n : Nat) : Char := "0123456789abcdef".data.getD n '0'

/-- Go `hex.Encode`: two lower-case hexadecimal digits per byte. -/
def hexEncode : List UInt8 → List Char
  | [] => []
  | b :: bs => hexDigit (b.toNat / 16) :: hexDigit (b.toNat % 16) :: hexEncode bs

/-- Method `UUID.String`: the form `xxxxxxxx-xxxx-xxxx-xxxx-xxxxxxxxxxxx`. -/
def UUID.String (u : UUID) : String :=
  String.mk
    (hexEncode (u.bytes.take 4) ++ '-' ::
      (hexEncode ((u.bytes.drop 4).take 2) ++ '-' ::
        (hexEncode ((u.bytes.drop 6).take 2) ++ '-' ::
          (hexEncode ((u.bytes.drop 8).take 2) ++ '-' ::
            hexEncode (u.bytes.drop 10)))))

/-- Function `generateAgentID`: the first six bytes of the text of a fresh UUID;
the UUID that `uuid.New()` returns is the argument.  The text is ASCII, so the
byte slice `id[:6]` is the first six characters. -/
def generateAgentID (id : UUID) : String :=
  String.mk (id.String.data.take 6)

/-- A version-4 UUID whose text is `a3f1c2d4-5e6f-4708-9abc-def012345678`. -/
def sampleUUID : UUID :=
  { bytes := [0xa3, 0xf1, 0xc2, 0xd4, 0x5e, 0x6f, 0x47, 0x08,
              0x9a, 0xbc, 0xde, 0xf0, 0x12, 0x34, 0x56, 0x78],
    size := rfl }

/-- The agent ids a connection can be opened for.  `WebSocketHandler` receives
the agent id of a verified token; `Login` mints a token for the id of a stored
agent, which `RegisterAgent` took from `generateAgentID`, and
`GenerateAdminToken` mints one for "admin". -/
def tokenAgentID (agentID : String) : Prop :=
  agentID = "admin" ∨ ∃ id : UUID, agentID = generateAgentID id

/-- A stand-in for the JSON decoder of assigned calls in examples with generated
agent ids: the payload `[c, 1]` is the call with id `c` for the agent whose id
was generated from `sampleUUID`, the payload `[c, a]` with another `a` the call
for the agent with the decimal id `a`. -/
def sampleUnmarshalGenerated : List UInt8 → Except String AssignedCall
  | [c, a] =>
    .ok (sampleAssigned (toString c.toNat)
      (if a = 1 then generateAgentID sampleUUID else toString a.toNat))
  | _ => .error "unexpected end of JSON input"

/-- A table that holds the one assigned call "c1" of the agent "a1", stamped
at time 100. -/
def sampleTable : DB :=
  { assigned_calls :=
      [{ ID := 1, CallID := "c1", CustomerNumber := "555", Timestamp := 100,
         AssignedAgentID := "a1", Status := "assigned", Notes := "",
         CreatedAt := 100, UpdatedAt := 100, DeletedAt := none }],
    createLog := [], nextID := 2, faults := [] }

/-! ## Round-robin assignment -/

theorem Redis.healthy_advance {r : Redis} (h : r.healthy) : r.advance.healthy := by
  intro e he
  exact h e (List.mem_of_mem_tail he)

theorem Redis.nextFault_of_healthy {r : Redis} (h : r.healthy) : r.nextFault = none := by
  unfold Redis.nextFault
  cases hf : r.faults with
  | nil => rfl
  | cons e es =>
    have : e = none := h e (by simp [hf])
    simp [this]

theorem Redis.LRange_healthy {r : Redis} (h : r.healthy) :
    r.LRange = (.ok r.available_agents, r.advance) := by
  simp [Redis.LRange, Redis.nextFault_of_healthy h]

theorem Redis.LPop_healthy {r : Redis} (h : r.healthy) {a : String} {t : List String}
    (hp : r.available_agents = a :: t) :
    r.LPop = (.ok a, { r.advance with available_agents := t }) := by
  simp [Redis.LPop, Redis.nextFault_of_healthy h, hp]

theorem Redis.RPush_healthy {r : Redis} (h : r.healthy) (a : String) :
    r.RPush [a] = (.ok (r.available_agents ++ [a]).length,
      { r.advance with available_agents := r.available_agents ++ [a] }) := by
  simp [Redis.RPush, Redis.nextFault_of_healthy h]

theorem Redis.LRem_healthy {r : Redis} (h : r.healthy) (a : String) :
    r.LRem a = (.ok (r.available_agents.count a),
      { r.advance with available_agents := r.available_agents.filter (fun b => b != a) }) := by
  simp [Redis.LRem, Redis.nextFault_of_healthy h]

theorem Redis.healthy_of_faults {r r1 : Redis} (h : r.healthy) (hf : r1.faults = r.faults) :
    r1.healthy := by
  intro e he
  exact h e (hf ▸ he)

/-- On a healthy store `assignAgent` rotates a non-empty pool by one place and
returns its former head, after three commands. -/
theorem assignAgent_cons {r : Redis} (hr : r.healthy) {a : String} {t : List String}
    (hp : r.available_agents = a :: t) :
    assignAgent r = (a, { available_agents := t ++ [a], faults := r.faults.tail.tail.tail }) := by
  have h1 : r.advance.healthy := Redis.healthy_advance hr
  have hp1 : r.advance.available_agents = a :: t := hp
  have h2 : ({ r.advance.advance with available_agents := t } : Redis).healthy :=
    Redis.healthy_of_faults (Redis.healthy_advance h1) rfl
  have hne : ¬ (a :: t).length = 0 := by simp
  simp only [assignAgent, Redis.LRange_healthy hr, hp, hne, if_false, Redis.LPop_healthy h1 hp1,
    Redis.RPush_healthy h2]
  simp [Redis.advance]

theorem Redis.healthy_tail3 {r : Redis} (h : r.healthy) (l : List String) :
    ({ available_agents := l, faults := r.faults.tail.tail.tail } : Redis).healthy :=
  Redis.healthy_of_faults (Redis.healthy_advance (Redis.healthy_advance (Redis.healthy_advance h))) rfl

/-- With an empty pool, or when the first command fails, `assignAgent` obtains
no agent and leaves the list as it is. -/
theorem assignAgent_nil {r : Redis} (hp : r.available_agents = []) :
    (assignAgent r).1 = "" ∧ (assignAgent r).2.available_agents = [] := by
  unfold assignAgent Redis.LRange
  cases r.nextFault <;> simp [hp, Redis.advance]

theorem KafkaProducer.SendMessage_healthy {p : KafkaProducer} (h : p.healthy)
    (msg : ProducerMessage) :
    p.SendMessage msg =
      (none,
        { accepted := p.accepted ++ [msg],
          sendLog := p.sendLog ++ [(msg, none)],
          faults := p.faults.tail }) := by
  have hf : p.faults.head?.join = none := by
    cases hf : p.faults with
    | nil => rfl
    | cons e es =>
      have : e = none := h e (by simp [hf])
      simp [this]
  simp only [KafkaProducer.SendMessage, hf]

/-- One call on a healthy store and producer with a non-empty pool whose head is
a non-empty id: the call goes to the head, the event is accepted, the pool is
rotated and the row is handed to the store. -/
theorem processIncomingCall_ok {w : World} (hr : w.redis.healthy)
    (hk : w.kafkaProducer.healthy) {a : String} {t : List String}
    (hp : w.redis.available_agents = a :: t) (ha : a ≠ "") (call : IncomingCall) :
    processIncomingCall w call =
      (none,
        { redis := { available_agents := t ++ [a], faults := w.redis.faults.tail.tail.tail },
          kafkaProducer :=
            { accepted := w.kafkaProducer.accepted ++ [assignedEvent call a w.now],
              sendLog := w.kafkaProducer.sendLog ++ [(assignedEvent call a w.now, none)],
              faults := w.kafkaProducer.faults.tail },
          db := (w.db.Create w.now (newAssignedCall call a w.now)).2,
          now := w.now }) := by
  simp only [processIncomingCall, assignAgent_cons hr hp, ha, if_false, PublishAssignedCall,
    KafkaProducer.SendMessage_healthy hk]
  rfl

theorem KafkaProducer.healthy_of_faults_tail {p p1 : KafkaProducer} (h : p.healthy)
    (hf : p1.faults = p.faults.tail) : p1.healthy := by
  intro e he
  exact h e (List.mem_of_mem_tail (hf ▸ he))

/-- As many calls as the pool has leading non-empty ids `p1`: the calls go to
`p1` in order, all return nil, the pool `p1 ++ p2` ends as `p2 ++ p1`. -/
theorem processIncomingCalls_round (calls : List IncomingCall) :
    ∀ (w : World) (p1 p2 : List String), w.redis.healthy → w.kafkaProducer.healthy →
      w.redis.available_agents = p1 ++ p2 → calls.length = p1.length →
      (∀ a ∈ p1, a ≠ "") →
      (processIncomingCalls w calls).1 = List.replicate calls.length none ∧
      (processIncomingCalls w calls).2.redis.available_agents = p2 ++ p1 ∧
      (processIncomingCalls w calls).2.kafkaProducer.accepted =
        w.kafkaProducer.accepted ++
          List.zipWith (fun c a => assignedEvent c a w.now) calls p1 ∧
      (processIncomingCalls w calls).2.kafkaProducer.sendLog =
        w.kafkaProducer.sendLog ++
          (List.zipWith (fun c a => assignedEvent c a w.now) calls p1).map
            (fun m => (m, none)) := by
  induction calls with
  | nil =>
    intro w p1 p2 _ _ hp hl _
    have : p1 = [] := List.length_eq_zero.mp hl.symm
    subst this
    simp [processIncomingCalls, hp]
  | cons call rest ih =>
    intro w p1 p2 hr hk hp hl hne
    cases p1 with
    | nil => simp at hl
    | cons a p1 =>
      have ha : a ≠ "" := hne a (List.mem_cons_self _ _)
      have s1 := processIncomingCall_ok hr hk (t := p1 ++ p2) (by simpa using hp) ha call
      have hr1 : (processIncomingCall w call).2.redis.healthy := by
        rw [s1]; exact Redis.healthy_tail3 hr _
      have hk1 : (processIncomingCall w call).2.kafkaProducer.healthy := by
        rw [s1]; exact KafkaProducer.healthy_of_faults_tail hk rfl
      have hp1 : (processIncomingCall w call).2.redis.available_agents = p1 ++ (p2 ++ [a]) := by
        rw [s1]; simp
      have hrec := ih (processIncomingCall w call).2 p1 (p2 ++ [a]) hr1 hk1 hp1
        (by simpa using hl) (fun b hb => hne b (List.mem_cons_of_mem _ hb))
      obtain ⟨i1, i2, i3, i4⟩ := hrec
      have hnow : (processIncomingCall w call).2.now = w.now := by rw [s1]
      have hacc : (processIncomingCall w call).2.kafkaProducer.accepted =
          w.kafkaProducer.accepted ++ [assignedEvent call a w.now] := by rw [s1]
      have hlog : (processIncomingCall w call).2.kafkaProducer.sendLog =
          w.kafkaProducer.sendLog ++ [(assignedEvent call a w.now, none)] := by rw [s1]
      have hfst : (processIncomingCall w call).1 = none := by rw [s1]
      rw [hnow, hacc] at i3
      rw [hnow, hlog] at i4
      simp only [processIncomingCalls]
      refine ⟨?_, ?_, ?_, ?_⟩
      · simp [i1, hfst, List.replicate_succ]
      · simp [i2]
      · simp [i3]
      · simp [i4]

/-- Calls of `assignAgent` compose: `i + m` calls are `i` calls followed by `m`. -/
theorem assignAgents_add (i m : Nat) : ∀ r : Redis,
    assignAgents r (i + m) =
      ((assignAgents r i).1 ++ (assignAgents (assignAgents r i).2 m).1,
        (assignAgents (assignAgents r i).2 m).2) := by
  induction i with
  | zero => intro r; simp [assignAgents]
  | succ i ih =>
    intro r
    have e : i + 1 + m = (i + m) + 1 := by omega
    rw [e]
    simp only [assignAgents]
    rw [ih (assignAgent r).2]
    simp

/-- As many assignments as the pool has leading entries `p1`: they go to `p1` in
order and the pool `p1 ++ p2` becomes `p2 ++ p1`; the store stays healthy. -/
theorem assignAgents_prefix (p1 : List String) : ∀ (r : Redis) (p2 : List String),
    r.healthy → r.available_agents = p1 ++ p2 →
    (assignAgents r p1.length).1 = p1 ∧
    (assignAgents r p1.length).2.available_agents = p2 ++ p1 ∧
    (assignAgents r p1.length).2.healthy := by
  induction p1 with
  | nil => intro r p2 hr hp; simp [assignAgents, hp, hr]
  | cons a p1 ih =>
    intro r p2 hr hp
    have e1 := assignAgent_cons hr (t := p1 ++ p2) (by simpa using hp)
    have hr1 := Redis.healthy_tail3 hr ((p1 ++ p2) ++ [a])
    obtain ⟨i1, i2, i3⟩ := ih _ (p2 ++ [a]) hr1 (by simp)
    simp only [List.length_cons, assignAgents, e1]
    exact ⟨by rw [i1], by rw [i2]; simp, i3⟩

/-- After any number of assignments on a healthy store the pool is a rearrangement
of the initial pool and the store is healthy. -/
theorem assignAgents_perm (k : Nat) : ∀ r : Redis, r.healthy →
    (assignAgents r k).2.available_agents.Perm r.available_agents ∧
    (assignAgents r k).2.healthy ∧ (assignAgents r k).1.length = k := by
  induction k with
  | zero => intro r hr; exact ⟨List.Perm.refl _, hr, rfl⟩
  | succ k ih =>
    intro r hr
    cases hp : r.available_agents with
    | nil =>
      have h0 : ∀ (j : Nat) (r0 : Redis), r0.healthy → r0.available_agents = [] →
          (assignAgents r0 j).2.available_agents = [] ∧ (assignAgents r0 j).2.healthy ∧
          (assignAgents r0 j).1.length = j := by
        intro j
        induction j with
        | zero => intro r0 h0 hp0; exact ⟨hp0, h0, rfl⟩
        | succ j ihj =>
          intro r0 h0 hp0
          have e : assignAgent r0 = ("", r0.advance) := by
            simp [assignAgent, Redis.LRange_healthy h0, hp0]
          simp only [assignAgents, e]
          obtain ⟨j1, j2, j3⟩ := ihj r0.advance (Redis.healthy_advance h0) hp0
          exact ⟨j1, j2, by simp [j3]⟩
      obtain ⟨j1, j2, j3⟩ := h0 (k + 1) r hr hp
      exact ⟨by rw [j1], j2, j3⟩
    | cons a t =>
      have e1 := assignAgent_cons hr hp
      have hr1 := Redis.healthy_tail3 hr (t ++ [a])
      obtain ⟨i1, i2, i3⟩ := ih _ hr1
      simp only [assignAgents, e1]
      refine ⟨i1.trans ?_, i2, by simp [i3]⟩
      exact (List.perm_append_comm : (t ++ [a]).Perm ([a] ++ t))

theorem assignAgents_one (r : Redis) : (assignAgents r 1).1 = [(assignAgent r).1] := rfl

/-- Shape of the first `i + n + 1` assignments on a healthy store with a pool of
`n ≥ 1` entries: `i` assignments, then one full round `h :: q` that rearranges
the pool, then `h` again. -/
theorem assignAgents_round_shape (r : Redis) (hr : r.healthy)
    (hne : r.available_agents ≠ []) (i : Nat) :
    ∃ (l1 : List String) (h : String) (q : List String),
      l1.length = i ∧ (h :: q).Perm r.available_agents ∧
      (assignAgents r (i + r.available_agents.length + 1)).1 = l1 ++ (h :: q ++ [h]) := by
  obtain ⟨hperm, hri, hlen⟩ := assignAgents_perm i r hr
  cases hq : (assignAgents r i).2.available_agents with
  | nil =>
    rw [hq] at hperm
    exact absurd (List.Perm.nil_eq hperm).symm hne
  | cons h q =>
    rw [hq] at hperm
    refine ⟨(assignAgents r i).1, h, q, hlen, hperm, ?_⟩
    have hn : r.available_agents.length = (h :: q).length := hperm.length_eq.symm
    obtain ⟨p1, p2, p3⟩ := assignAgents_prefix (h :: q) (assignAgents r i).2 [] hri (by simp [hq])
    have e1 := assignAgent_cons p3 (a := h) (t := q) (by simpa using p2)
    have e2 : (assignAgents (assignAgents (assignAgents r i).2 (h :: q).length).2 1).1 = [h] := by
      rw [assignAgents_one, e1]
    rw [Nat.add_assoc, assignAgents_add i, hn, assignAgents_add (h :: q).length 1]
    simp only [p1, e2]

/-- What `assignAgent` returns on a pool `h :: t`, whatever the store answers:
the head `h`, or the empty string. -/
theorem assignAgent_head (r : Redis) {h : String} {t : List String}
    (hp : r.available_agents = h :: t) :
    (assignAgent r).1 = "" ∨ (assignAgent r).1 = h := by
  unfold assignAgent Redis.LRange
  cases r.nextFault with
  | some e => left; rfl
  | none =>
    simp only [hp, List.length_cons, Nat.add_one_ne_zero, if_false]
    unfold Redis.LPop
    cases r.advance.nextFault with
    | some e => left; rfl
    | none =>
      have : r.advance.available_agents = h :: t := hp
      simp [this]

/-- The outcome of an insert is appended to the log of inserts; a failed insert
leaves the table as it was. -/
theorem DB.Create_log (d : DB) (now : Nat) (row : AssignedCall) :
    (d.Create now row).2.createLog = d.createLog ++ [(row, (d.Create now row).1)] ∧
    ((d.Create now row).1 ≠ none → (d.Create now row).2.assigned_calls = d.assigned_calls) := by
  unfold DB.Create
  cases d.faults.head?.join with
  | some e => simp
  | none =>
    by_cases hdup : d.assigned_calls.any (fun c => c.CallID == row.CallID) = true
    · simp only [hdup, if_true]; simp
    · simp only [hdup]; simp

/-- The three ways in which `processIncomingCall` can end on a pool `h :: t`:
no agent obtained (nothing sent, nothing inserted); the publish rejected with an
error `e` (returned, nothing inserted); the publish accepted (nil returned, one
insert attempted). -/
theorem processIncomingCall_cases (w : World) (call : IncomingCall) {h : String}
    {t : List String} (hp : w.redis.available_agents = h :: t) :
    ((processIncomingCall w call).1 = none ∧
      (processIncomingCall w call).2.kafkaProducer = w.kafkaProducer ∧
      (processIncomingCall w call).2.db = w.db) ∨
    (∃ e, (processIncomingCall w call).1 = some e ∧
      (processIncomingCall w call).2.kafkaProducer.accepted = w.kafkaProducer.accepted ∧
      (processIncomingCall w call).2.kafkaProducer.sendLog =
        w.kafkaProducer.sendLog ++ [(assignedEvent call h w.now, some e)] ∧
      (processIncomingCall w call).2.db = w.db) ∨
    ((processIncomingCall w call).1 = none ∧
      (processIncomingCall w call).2.kafkaProducer.accepted =
        w.kafkaProducer.accepted ++ [assignedEvent call h w.now] ∧
      (processIncomingCall w call).2.kafkaProducer.sendLog =
        w.kafkaProducer.sendLog ++ [(assignedEvent call h w.now, none)] ∧
      (processIncomingCall w call).2.db =
        (w.db.Create w.now (newAssignedCall call h w.now)).2) := by
  have hh := assignAgent_head w.redis hp
  unfold processIncomingCall
  rcases ha : assignAgent w.redis with ⟨agentID, r1⟩
  rw [ha] at hh
  simp only at hh
  by_cases h0 : agentID = ""
  · left
    simp [h0]
  · have hA : agentID = h := hh.resolve_left h0
    subst hA
    right
    simp only [h0, if_false, PublishAssignedCall, KafkaProducer.SendMessage]
    cases w.kafkaProducer.faults.head?.join with
    | some e =>
      left
      exact ⟨e, rfl, rfl, rfl, rfl⟩
    | none =>
      right
      exact ⟨rfl, rfl, rfl, rfl⟩

/-- The three endings of `processIncomingCall` on a pool `h :: t`, read off the
logs of the call: what it returned, the publish attempts, the accepted events,
the insert attempts. -/
theorem processIncomingCall_logs (w : World) (call : IncomingCall) {h : String}
    {t : List String} (hp : w.redis.available_agents = h :: t) :
    ((processIncomingCall w call).1 = none ∧ publishAttempts w call = [] ∧
      publishedEvents w call = [] ∧ persistAttempts w call = [] ∧
      (processIncomingCall w call).2.db = w.db) ∨
    (∃ e, (processIncomingCall w call).1 = some e ∧
      publishAttempts w call = [(assignedEvent call h w.now, some e)] ∧
      publishedEvents w call = [] ∧ persistAttempts w call = [] ∧
      (processIncomingCall w call).2.db = w.db) ∨
    ((processIncomingCall w call).1 = none ∧
      publishAttempts w call = [(assignedEvent call h w.now, none)] ∧
      publishedEvents w call = [assignedEvent call h w.now] ∧
      persistAttempts w call =
        [(newAssignedCall call h w.now, (w.db.Create w.now (newAssignedCall call h w.now)).1)] ∧
      (processIncomingCall w call).2.db =
        (w.db.Create w.now (newAssignedCall call h w.now)).2) := by
  unfold publishAttempts publishedEvents persistAttempts
  rcases processIncomingCall_cases w call hp with ⟨c1, c2, c3⟩ | ⟨e, c1, c2, c3, c4⟩ |
    ⟨c1, c2, c3, c4⟩
  · left
    rw [c2, c3]
    simp [c1]
  · right; left
    refine ⟨e, c1, ?_, ?_, ?_, c4⟩
    · rw [c3, List.drop_left]
    · rw [c2]; simp
    · rw [c4]; simp
  · right; right
    refine ⟨c1, ?_, ?_, ?_, c4⟩
    · rw [c3, List.drop_left]
    · rw [c2, List.drop_left]
    · rw [c4, (DB.Create_log _ _ _).1, List.drop_left]

/-- When the store commands succeed, the head of the pool is a non-empty id and
the broker rejects the next send with `e`, the call makes the publish attempt
and it is logged as failed with `e`. -/
theorem processIncomingCall_rejected {w : World} (hr : w.redis.healthy) {a : String}
    {t : List String} (hp : w.redis.available_agents = a :: t) (ha : a ≠ "")
    {e : String} (hk : w.kafkaProducer.faults.head?.join = some e) (call : IncomingCall) :
    (assignedEvent call a w.now, some e) ∈ publishAttempts w call := by
  unfold publishAttempts
  simp only [processIncomingCall, assignAgent_cons hr hp, ha, if_false, PublishAssignedCall,
    KafkaProducer.SendMessage, hk]
  rw [List.drop_left]
  exact List.mem_singleton.mpr rfl

/-- When the store commands and the publish succeed and the head of the pool is a
non-empty id, the call attempts exactly the insert of the record it published,
and the outcome logged is the answer of the table. -/
theorem processIncomingCall_insert_attempt {w : World} (hr : w.redis.healthy)
    (hk : w.kafkaProducer.healthy) {a : String} {t : List String}
    (hp : w.redis.available_agents = a :: t) (ha : a ≠ "") (call : IncomingCall) :
    persistAttempts w call =
      [(newAssignedCall call a w.now, (w.db.Create w.now (newAssignedCall call a w.now)).1)] := by
  unfold persistAttempts
  rw [processIncomingCall_ok hr hk hp ha call]
  simp only
  rw [(DB.Create_log _ _ _).1, List.drop_left]

/-! ## Agent-change handling -/

theorem cutAtColon_append (a rest : List Char) (ha : ':' ∉ a) :
    cutAtColon (a ++ ':' :: rest) = some (a, rest) := by
  induction a with
  | nil => simp [cutAtColon]
  | cons c cs ih =>
    have hc : c ≠ ':' := fun h => ha (by simp [h])
    have hcs : ':' ∉ cs := fun h => ha (List.mem_cons_of_mem _ h)
    simp [cutAtColon, hc, ih hcs]

/-- A key made of an action tag, a `:` and any text is cut into the tag and the
text, whatever the text holds. -/
theorem SplitN_tag (action : Action) (rest : String) :
    SplitN (action.tag ++ ":" ++ rest) = [action.tag, rest] := by
  have h : (action.tag ++ ":" ++ rest).data = action.tag.data ++ ':' :: rest.data := by
    simp [String.data_append]
  have hc : ':' ∉ action.tag.data := by
    cases action <;> decide
  unfold SplitN
  rw [h, cutAtColon_append _ _ hc]

/-- On a healthy store the creation of an active agent returns nil and appends
the id unless the pool holds it; the store stays healthy. -/
theorem handleAgentCreation_active {r : Redis} (hr : r.healthy) (agent : Agent)
    (ha : agent.IsActive = true) :
    (handleAgentCreation r agent).1 = none ∧
    (handleAgentCreation r agent).2.available_agents =
      (if agent.ID ∈ r.available_agents then r.available_agents
        else r.available_agents ++ [agent.ID]) ∧
    (handleAgentCreation r agent).2.healthy := by
  have h1 : r.advance.healthy := Redis.healthy_advance hr
  unfold handleAgentCreation
  simp only [ha, Bool.not_true, Bool.false_eq_true, if_false, Redis.LRange_healthy hr]
  by_cases hx : agent.ID ∈ r.available_agents
  · have hany : r.available_agents.any (fun existingAgent => existingAgent == agent.ID) = true := by
      simpa using hx
    simp only [hany, if_true, hx]
    exact ⟨trivial, rfl, h1⟩
  · have hany : ¬ r.available_agents.any (fun existingAgent => existingAgent == agent.ID) = true := by
      simpa using hx
    have h2 : ({ r.advance.advance with
        available_agents := r.advance.available_agents ++ [agent.ID] } : Redis).healthy :=
      Redis.healthy_of_faults (Redis.healthy_advance h1) rfl
    simp only [hany, if_false, hx, Redis.RPush_healthy h1, Redis.LRange_healthy h2]
    exact ⟨rfl, rfl, Redis.healthy_advance h2⟩

/-- The creation of an inactive agent returns nil and issues no command. -/
theorem handleAgentCreation_inactive (r : Redis) (agent : Agent)
    (ha : agent.IsActive = false) : handleAgentCreation r agent = (none, r) := by
  simp [handleAgentCreation, ha]

/-- On a healthy store a deletion returns nil and removes every occurrence of the
id; the store stays healthy. -/
theorem handleAgentDeletion_healthy {r : Redis} (hr : r.healthy) (agent : Agent) :
    (handleAgentDeletion r agent).1 = none ∧
    (handleAgentDeletion r agent).2.available_agents =
      r.available_agents.filter (fun a => a != agent.ID) ∧
    (handleAgentDeletion r agent).2.healthy := by
  have h2 : ({ r.advance with
      available_agents := r.available_agents.filter (fun a => a != agent.ID) } : Redis).healthy :=
    Redis.healthy_of_faults (Redis.healthy_advance hr) rfl
  unfold handleAgentDeletion
  simp only [Redis.LRem_healthy hr, Redis.LRange_healthy h2]
  exact ⟨trivial, rfl, Redis.healthy_advance h2⟩

/-- A well-formed event is dispatched on its action tag. -/
theorem handleAgentChange_tag (unmarshal : List UInt8 → Except String Agent) (r : Redis)
    (action : Action) (rest : String) (value : List UInt8) (agent : Agent)
    (hv : unmarshal value = .ok agent) :
    handleAgentChange unmarshal r (action.tag ++ ":" ++ rest) value =
      match action with
      | .create => handleAgentCreation r agent
      | .delete => handleAgentDeletion r agent := by
  unfold handleAgentChange
  rw [SplitN_tag]
  simp only [hv]
  cases action
  · simp [Action.tag]
  · have : ¬ "delete_agent" = "create_agent" := by decide
    simp [Action.tag, this]

/-- Membership in the pool after one well-formed event on a healthy store: an
event for another agent, or a create with `is_active = false`, changes nothing
for `x`; otherwise `x` is pooled exactly when the event is a create. -/
theorem handleAgentChange_mem (unmarshal : List UInt8 → Except String Agent) {r : Redis}
    (hr : r.healthy) {m : ConsumerMessage} {ev : AgentChangeEvent}
    (he : Encodes unmarshal m ev) (x : String) :
    (x ∈ (handleAgentChange unmarshal r m.Key m.Value).2.available_agents ↔
      if ev.agent.ID = x ∧ ev.inactiveCreate = false then ev.action = Action.create
      else x ∈ r.available_agents) ∧
    (handleAgentChange unmarshal r m.Key m.Value).2.healthy := by
  obtain ⟨⟨rest, hk⟩, hv⟩ := he
  rw [hk, handleAgentChange_tag unmarshal r ev.action rest m.Value ev.agent hv]
  rcases ev with ⟨action, agent⟩
  cases action with
  | create =>
    cases ha : agent.IsActive with
    | false =>
      simp [handleAgentCreation_inactive r agent ha, AgentChangeEvent.inactiveCreate, ha, hr]
    | true =>
      obtain ⟨_, h2, h3⟩ := handleAgentCreation_active hr agent ha
      refine ⟨?_, h3⟩
      simp only [h2, AgentChangeEvent.inactiveCreate, ha]
      by_cases hx : agent.ID = x
      · subst hx
        by_cases hm : agent.ID ∈ r.available_agents <;> simp [hm]
      · by_cases hm : agent.ID ∈ r.available_agents
        · simp [hm, hx]
        · have hx1 : ¬ x = agent.ID := fun h => hx h.symm
          simp [hm, hx, hx1]
  | delete =>
    obtain ⟨_, h2, h3⟩ := handleAgentDeletion_healthy hr agent
    refine ⟨?_, h3⟩
    simp only [h2, AgentChangeEvent.inactiveCreate]
    by_cases hx : agent.ID = x
    · subst hx
      simp
    · have hx1 : ¬ x = agent.ID := fun h => hx h.symm
      simp [hx, hx1]

theorem lastSeen_cons (ev : AgentChangeEvent) (evs : List AgentChangeEvent) (x : String) :
    lastSeen (ev :: evs) x =
      match lastSeen evs x with
      | some e => some e
      | none => if ev.agent.ID = x then some ev else none := by
  unfold lastSeen
  by_cases hx : ev.agent.ID = x
  · have hb : (ev.agent.ID == x) = true := by simpa using hx
    simp only [List.filter_cons, hb, if_true]
    rw [List.getLast?_cons]
    cases hl : (evs.filter (fun ev => ev.agent.ID == x)).getLast? with
    | none => simp [hx, List.getLast?_eq_none_iff.mp hl]
    | some e => rfl
  · have hb : (ev.agent.ID == x) = false := by simpa using hx
    simp only [List.filter_cons, hb, Bool.false_eq_true, if_false]
    cases hl : (evs.filter (fun ev => ev.agent.ID == x)).getLast? <;> simp [hx]

theorem lastSeen_mem {evs : List AgentChangeEvent} {x : String} {e : AgentChangeEvent}
    (h : lastSeen evs x = some e) : e ∈ evs := by
  unfold lastSeen at h
  exact (List.mem_filter.mp (List.mem_of_getLast?_eq_some h)).1

/-- Membership in the pool after a sequence of well-formed events on a healthy
store, from any initial pool: decided by the last event for `x` that is not a
create with `is_active = false`; without such an event `x` is pooled exactly
when it was at the start. -/
theorem ConsumeClaim_mem (unmarshal : List UInt8 → Except String Agent) (x : String) :
    ∀ (msgs : List ConsumerMessage) (evs : List AgentChangeEvent) (r : Redis), r.healthy →
      List.Forall₂ (Encodes unmarshal) msgs evs →
      (x ∈ (ConsumeClaim unmarshal r msgs).available_agents ↔
        match lastSeen (evs.filter (fun ev => !ev.inactiveCreate)) x with
        | some e => e.action = Action.create
        | none => x ∈ r.available_agents) := by
  intro msgs
  induction msgs with
  | nil =>
    intro evs r _ hf
    cases hf
    simp [ConsumeClaim, lastSeen]
  | cons m ms ih =>
    intro evs r hr hf
    cases hf with
    | cons he hrest =>
      rename_i ev evs
      obtain ⟨h1, h2⟩ := handleAgentChange_mem unmarshal hr he x
      have hrec := ih evs _ h2 hrest
      simp only [ConsumeClaim]
      rw [hrec]
      by_cases hic : ev.inactiveCreate = true
      · have hflt : (ev :: evs).filter (fun ev => !ev.inactiveCreate) =
            evs.filter (fun ev => !ev.inactiveCreate) := by
          simp [List.filter_cons, hic]
        have hne : ¬ (ev.agent.ID = x ∧ ev.inactiveCreate = false) := by simp [hic]
        rw [hflt]
        rw [if_neg hne] at h1
        cases lastSeen (evs.filter (fun ev => !ev.inactiveCreate)) x with
        | none => simpa using h1
        | some e => rfl
      · have hic0 : ev.inactiveCreate = false := by simpa using hic
        have hflt : (ev :: evs).filter (fun ev => !ev.inactiveCreate) =
            ev :: evs.filter (fun ev => !ev.inactiveCreate) := by
          simp [List.filter_cons, hic0]
        rw [hflt, lastSeen_cons]
        cases lastSeen (evs.filter (fun ev => !ev.inactiveCreate)) x with
        | some e => rfl
        | none =>
          simp only
          rw [h1]
          by_cases hx : ev.agent.ID = x
          · simp [hx, hic0]
          · simp [hx]

/-! ## Claims on the assignment engine -/

/-- C1: on a store whose commands succeed, for every non-empty pool `h :: t`,
`assignAgent` returns the head `h` and leaves the pool equal to `t ++ [h]`.  In
particular from the pool `[a1, a2]` the first call gets `a1` and the pool becomes
`[a2, a1]`, the second gets `a2` and the pool becomes `[a1, a2]`; with the ids
"a1" and "a2" of the end-to-end scenario, `processIncomingCall` publishes for any
calls `c1` and `c2` the events assigning `c1` to "a1" and then `c2` to "a2". -/
theorem C1_assignAgent_returns_head_and_requeues (r : Redis) (h : String) (t : List String)
    (hr : r.healthy) (hp : r.available_agents = h :: t) :
    ((assignAgent r).1 = h ∧ (assignAgent r).2.available_agents = t ++ [h]) ∧
    (∀ a1 a2 : String, h = a1 → t = [a2] →
      ((assignAgent r).1 = a1 ∧ (assignAgent r).2.available_agents = [a2, a1]) ∧
      ((assignAgent (assignAgent r).2).1 = a2 ∧
        (assignAgent (assignAgent r).2).2.available_agents = [a1, a2])) ∧
    (∀ (w : World) (c1 c2 : IncomingCall), w.redis = r → w.kafkaProducer.healthy →
      h = "a1" → t = ["a2"] →
      ((processIncomingCall w c1).2.kafkaProducer.accepted =
          w.kafkaProducer.accepted ++ [assignedEvent c1 "a1" w.now] ∧
        (processIncomingCall w c1).2.redis.available_agents = ["a2", "a1"]) ∧
      ((processIncomingCall (processIncomingCall w c1).2 c2).2.kafkaProducer.accepted =
          w.kafkaProducer.accepted ++
            [assignedEvent c1 "a1" w.now, assignedEvent c2 "a2" w.now] ∧
        (processIncomingCall (processIncomingCall w c1).2 c2).2.redis.available_agents =
          ["a1", "a2"])) := by
  have e1 := assignAgent_cons hr hp
  refine ⟨by simp [e1], ?_, ?_⟩
  · intro a1 a2 h1 h2
    subst h1 h2
    have hr1 := Redis.healthy_tail3 hr ([a2] ++ [h])
    have e2 := assignAgent_cons (t := [h]) hr1 rfl
    rw [e1, e2]
    simp
  · intro w c1 c2 hw hk h1 h2
    subst hw h1 h2
    have s1 := processIncomingCall_ok hr hk hp (by decide) c1
    have hr1 := Redis.healthy_tail3 hr (["a2"] ++ ["a1"])
    have hk1 : (processIncomingCall w c1).2.kafkaProducer.healthy := by
      rw [s1]
      intro e he
      exact hk e (List.mem_of_mem_tail he)
    have s2 := processIncomingCall_ok (w := (processIncomingCall w c1).2) (a := "a2")
      (t := ["a1"]) (by rw [s1]; exact hr1) hk1 (by rw [s1]; rfl) (by decide) c2
    rw [s2]
    rw [s1]
    simp

/-- Witness for C1: the pool `["a1", "a2"]` on a store without failures. -/
theorem C1_witness :
    (({ available_agents := ["a1", "a2"], faults := [] } : Redis).healthy ∧
      ({ available_agents := ["a1", "a2"], faults := [] } : Redis).available_agents
        = "a1" :: ["a2"]) ∧
    (assignAgent { available_agents := ["a1", "a2"], faults := [] }).1 = "a1" ∧
    (assignAgent { available_agents := ["a1", "a2"], faults := [] }).2.available_agents
      = ["a2", "a1"] :=
  ⟨⟨by decide, rfl⟩,
    (C1_assignAgent_returns_head_and_requeues { available_agents := ["a1", "a2"], faults := [] }
      "a1" ["a2"] (by decide) rfl).1⟩

/-- C4: with an empty pool `processIncomingCall` returns nil, makes no publish
attempt (so no assigned-call event), makes no insert (so no persisted record)
and leaves the pool empty, whatever the store answers. -/
theorem C4_empty_pool_drops_call (w : World) (call : IncomingCall)
    (hp : w.redis.available_agents = []) :
    (processIncomingCall w call).1 = none ∧
    (processIncomingCall w call).2.kafkaProducer = w.kafkaProducer ∧
    (processIncomingCall w call).2.db = w.db ∧
    (processIncomingCall w call).2.redis.available_agents = [] := by
  have h := assignAgent_nil hp
  unfold processIncomingCall
  rcases hr : assignAgent w.redis with ⟨agentID, r1⟩
  rw [hr] at h
  obtain ⟨h1, h2⟩ := h
  simp only at h1 h2
  simp [h1, h2]

/-- Witness for C4: one call against the empty pool of a quiet world. -/
theorem C4_witness :
    (quietWorld []).redis.available_agents = [] ∧
    (processIncomingCall (quietWorld []) (sampleCall "c1")).1 = none ∧
    (processIncomingCall (quietWorld []) (sampleCall "c1")).2.kafkaProducer.accepted = [] ∧
    (processIncomingCall (quietWorld []) (sampleCall "c1")).2.db.assigned_calls = [] :=
  have h := C4_empty_pool_drops_call (quietWorld []) (sampleCall "c1") rfl
  ⟨rfl, h.1, by rw [h.2.1]; rfl, by rw [h.2.2.1]; rfl⟩

/-- C2, as stated, fails on a pool that holds the empty id: `assignAgent` returns
the head "" and `processIncomingCall` reads it as "no agent", so with N = 1, the
pool `[""]` and one inbound call no event is published and no publish is even
attempted, although every store command succeeds. -/
theorem C2_counterexample_empty_id :
    (quietWorld [""]).redis.healthy ∧ (quietWorld [""]).kafkaProducer.healthy ∧
    (quietWorld [""]).redis.available_agents.length = 1 ∧
    (processIncomingCalls (quietWorld [""]) [sampleCall "c1"]).1 = [none] ∧
    (processIncomingCalls (quietWorld [""]) [sampleCall "c1"]).2.kafkaProducer.accepted = [] ∧
    (processIncomingCalls (quietWorld [""]) [sampleCall "c1"]).2.kafkaProducer.sendLog = [] ∧
    (processIncomingCalls (quietWorld [""]) [sampleCall "c1"]).2.redis.available_agents
      = [""] := by
  decide

/-- C2 (amended): for every N ≥ 1 and every pool `[a1 … aN]` of non-empty ids,
N inbound calls processed one after another by `processIncomingCall`, with the
store commands and the publishes succeeding, all return nil and publish exactly
N assigned-call events, one per call in call order, whose `assigned_agent_id`
values are `a1, …, aN` in that order; the pool ends equal to `[a1 … aN]`. -/
theorem C2_round_robin_over_nonempty_ids (w : World) (calls : List IncomingCall)
    (hr : w.redis.healthy) (hk : w.kafkaProducer.healthy)
    (_hN : 1 ≤ w.redis.available_agents.length)
    (hlen : calls.length = w.redis.available_agents.length)
    (hne : ∀ a ∈ w.redis.available_agents, a ≠ "") :
    (processIncomingCalls w calls).1 = List.replicate calls.length none ∧
    (processIncomingCalls w calls).2.kafkaProducer.accepted =
      w.kafkaProducer.accepted ++
        List.zipWith (fun c a => assignedEvent c a w.now) calls w.redis.available_agents ∧
    (processIncomingCalls w calls).2.kafkaProducer.sendLog =
      w.kafkaProducer.sendLog ++
        (List.zipWith (fun c a => assignedEvent c a w.now) calls w.redis.available_agents).map
          (fun m => (m, none)) ∧
    (List.zipWith (fun c a => assignedEvent c a w.now) calls w.redis.available_agents).length
      = w.redis.available_agents.length ∧
    (List.zipWith (fun c a => assignedEvent c a w.now) calls w.redis.available_agents).map
      (fun m => m.Value.AssignedAgentID) = w.redis.available_agents ∧
    (List.zipWith (fun c a => assignedEvent c a w.now) calls w.redis.available_agents).map
      (fun m => m.Value.CallID) = calls.map (fun c => c.CallID) ∧
    (processIncomingCalls w calls).2.redis.available_agents = w.redis.available_agents := by
  obtain ⟨h1, h2, h3, h4⟩ := processIncomingCalls_round calls w w.redis.available_agents []
    hr hk (by simp) hlen hne
  refine ⟨h1, h3, h4, by simp [hlen], ?_, ?_, by simpa using h2⟩
  · clear h1 h2 h3 h4 hr hk hne
    generalize w.redis.available_agents = pool at hlen
    induction calls generalizing pool with
    | nil => simpa using hlen.symm
    | cons c cs ih =>
      cases pool with
      | nil => simp at hlen
      | cons a pool =>
        simp only [List.zipWith_cons_cons, List.map_cons, assignedEvent, newAssignedCall]
        rw [List.cons.injEq]
        refine ⟨rfl, ?_⟩
        have := ih pool (by simpa using hlen)
        simpa [assignedEvent, newAssignedCall] using this
  · clear h1 h2 h3 h4 hr hk hne
    generalize w.redis.available_agents = pool at hlen
    induction calls generalizing pool with
    | nil => simp
    | cons c cs ih =>
      cases pool with
      | nil => simp at hlen
      | cons a pool =>
        simp only [List.zipWith_cons_cons, List.map_cons, assignedEvent]
        rw [List.cons.injEq]
        refine ⟨rfl, ?_⟩
        have := ih pool (by simpa using hlen)
        simpa [assignedEvent] using this

/-- Witness for C2 (amended): two calls against the pool `["a1", "a2"]`. -/
theorem C2_witness :
    ((quietWorld ["a1", "a2"]).redis.healthy ∧ (quietWorld ["a1", "a2"]).kafkaProducer.healthy ∧
      1 ≤ (quietWorld ["a1", "a2"]).redis.available_agents.length ∧
      [sampleCall "c1", sampleCall "c2"].length
        = (quietWorld ["a1", "a2"]).redis.available_agents.length ∧
      (∀ a ∈ (quietWorld ["a1", "a2"]).redis.available_agents, a ≠ "")) ∧
    (processIncomingCalls (quietWorld ["a1", "a2"])
        [sampleCall "c1", sampleCall "c2"]).2.kafkaProducer.accepted =
      [assignedEvent (sampleCall "c1") "a1" 100, assignedEvent (sampleCall "c2") "a2" 100] ∧
    (processIncomingCalls (quietWorld ["a1", "a2"])
        [sampleCall "c1", sampleCall "c2"]).2.redis.available_agents = ["a1", "a2"] :=
  have h := C2_round_robin_over_nonempty_ids (quietWorld ["a1", "a2"])
    [sampleCall "c1", sampleCall "c2"] (by decide) (by decide) (by decide) rfl (by decide)
  ⟨⟨by decide, by decide, by decide, rfl, by decide⟩, h.2.1, h.2.2.2.2.2.2⟩

/-- On a store whose commands succeed and whose pool is not empty, every call of
`assignAgent` in a run returns a pooled id. -/
theorem assignAgents_mem (k : Nat) : ∀ r : Redis, r.healthy → r.available_agents ≠ [] →
    ∀ x ∈ (assignAgents r k).1, x ∈ r.available_agents := by
  induction k with
  | zero => intro r _ _ x hx; simp [assignAgents] at hx
  | succ k ih =>
    intro r hr hne x hx
    cases hp : r.available_agents with
    | nil => exact absurd hp hne
    | cons a t =>
      have e1 := assignAgent_cons hr hp
      simp only [assignAgents, e1] at hx
      rcases List.mem_cons.mp hx with h | h
      · rw [h]; exact List.mem_cons_self _ _
      · have h1 := ih _ (Redis.healthy_tail3 hr (t ++ [a])) (by simp) x h
        simp only [List.mem_append, List.mem_singleton] at h1
        rcases h1 with h1 | h1
        · exact List.mem_cons_of_mem _ h1
        · rw [h1]; exact List.mem_cons_self _ _

/-- C3, as stated, fails in two ways.  When the `RPush` that requeues the agent
fails (its result is not looked at), the agent leaves the pool: from the pool
`["a", "b"]` four calls of `assignAgent` return a, b, b, b, so "b" is assigned
again before "a".  And a pooled empty id is read as "no agent" by
`processIncomingCall`: from the pool `["a", ""]` the calls "c1", "c2", "c3" lead
to the results a, "", a of `assignAgent`, and the only two events published
assign "c1" and "c3" to "a", with no call assigned to the other pooled id in
between. -/
theorem C3_counterexample_failed_requeue_and_empty_id :
    (assignAgents { available_agents := ["a", "b"],
                    faults := [none, none, some "connection refused"] } 4).1 =
      ["a", "b", "b", "b"] ∧
    (assignAgents { available_agents := ["a", "b"],
                    faults := [none, none, some "connection refused"] } 4).2.available_agents =
      ["b"] ∧
    (assignAgents (quietWorld ["a", ""]).redis 3).1 = ["a", "", "a"] ∧
    (processIncomingCalls (quietWorld ["a", ""])
        [sampleCall "c1", sampleCall "c2", sampleCall "c3"]).2.kafkaProducer.accepted =
      [assignedEvent (sampleCall "c1") "a" 100, assignedEvent (sampleCall "c3") "a" 100] := by
  decide

/-- C3 (amended): on a store whose commands succeed, with a pool of n ≥ 1
pairwise-distinct non-empty ids and no other pool mutation, look at the
assignment number `i` in any run of `assignAgent` calls.  Every call in the run
returns a non-empty pooled id, so it assigns a call.  The n assignments from
number `i` on go to n different agents, each pooled agent exactly once; so the
agent of assignment `i` is not assigned again during the next n - 1 assignments,
in which every other pooled agent is assigned exactly once; and assignment
`i + n` goes to the agent of assignment `i` again. -/
theorem C3_same_agent_again_after_full_round (r : Redis) (i : Nat) (hr : r.healthy)
    (hnd : r.available_agents.Nodup) (hne : r.available_agents ≠ [])
    (hid : ∀ a ∈ r.available_agents, a ≠ "") :
    (∀ x ∈ (assignAgents r (i + r.available_agents.length + 1)).1,
      x ∈ r.available_agents ∧ x ≠ "") ∧
    (((assignAgents r (i + r.available_agents.length + 1)).1.drop i).take
        r.available_agents.length).Perm r.available_agents ∧
    (∃ a ∈ r.available_agents,
      (assignAgents r (i + r.available_agents.length + 1)).1[i]? = some a ∧
      (∀ j, i < j → j < i + r.available_agents.length →
        (assignAgents r (i + r.available_agents.length + 1)).1[j]? ≠ some a) ∧
      (∀ b ∈ r.available_agents, b ≠ a →
        (((assignAgents r (i + r.available_agents.length + 1)).1.drop (i + 1)).take
          (r.available_agents.length - 1)).count b = 1) ∧
      (assignAgents r (i + r.available_agents.length + 1)).1[i + r.available_agents.length]?
        = some a) := by
  refine ⟨fun x hx => ?_, ?_⟩
  · have hm := assignAgents_mem _ r hr hne x hx
    exact ⟨hm, hid x hm⟩
  obtain ⟨l1, h, q, hl, hperm, hs⟩ := assignAgents_round_shape r hr hne i
  have hn : r.available_agents.length = q.length + 1 := by
    simpa using hperm.length_eq.symm
  have hndq : (h :: q).Nodup := hperm.nodup_iff.mpr hnd
  have hhq : h ∉ q := (List.nodup_cons.mp hndq).1
  rw [hs, hn]
  subst hl
  refine ⟨?_, h, hperm.subset (List.mem_cons_self _ _), ?_, ?_, ?_, ?_⟩
  · rw [List.drop_left]
    have : (h :: q ++ [h]).take (q.length + 1) = h :: q := by
      rw [List.take_append_of_le_length (by simp)]
      exact List.take_of_length_le (by simp)
    rw [this]
    exact hperm
  · rw [List.getElem?_append_right (by omega)]
    simp
  · intro j hj1 hj2 hj
    rw [List.getElem?_append_right (by omega)] at hj
    obtain ⟨k, rfl⟩ : ∃ k, j = l1.length + (k + 1) := ⟨j - l1.length - 1, by omega⟩
    have hk : k < q.length := by omega
    simp only [Nat.add_sub_cancel_left, List.cons_append, List.getElem?_cons_succ] at hj
    rw [List.getElem?_append_left hk] at hj
    exact hhq (List.getElem?_mem hj)
  · intro b hb hbh
    have hbq : b ∈ q := by
      rcases List.mem_cons.mp (hperm.symm.subset hb) with hb1 | hb1
      · exact absurd hb1 hbh
      · exact hb1
    have e : (l1 ++ (h :: q ++ [h])).drop (l1.length + 1) = q ++ [h] := by
      rw [← List.drop_drop, List.drop_left]
      rfl
    rw [e, Nat.add_sub_cancel, List.take_left]
    exact List.count_eq_one_of_mem (List.nodup_cons.mp hndq).2 hbq
  · rw [List.getElem?_append_right (by omega)]
    simp

/-- Witness for C3 (amended): the pool `["a1", "a2", "a3"]` observed from
assignment 1 on. -/
theorem C3_witness :
    (({ available_agents := ["a1", "a2", "a3"], faults := [] } : Redis).healthy ∧
      ({ available_agents := ["a1", "a2", "a3"], faults := [] } : Redis).available_agents.Nodup ∧
      ({ available_agents := ["a1", "a2", "a3"], faults := [] } : Redis).available_agents ≠ [] ∧
      (∀ a ∈ ({ available_agents := ["a1", "a2", "a3"], faults := [] } : Redis).available_agents,
        a ≠ "")) ∧
    (((assignAgents { available_agents := ["a1", "a2", "a3"], faults := [] } (1 + 3 + 1)).1.drop
      1).take 3).Perm ["a1", "a2", "a3"] :=
  ⟨⟨by decide, by decide, by decide, by decide⟩,
    (C3_same_agent_again_after_full_round { available_agents := ["a1", "a2", "a3"], faults := [] }
      1 (by decide) (by decide) (by decide) (by decide)).2.1⟩

/-- C5: whatever the store and the broker answer, every event that
`processIncomingCall` publishes for an inbound call processed against a
non-empty pool `h :: t` is on the topic `assigned_calls`, keyed by the call id,
and carries the call's `call_id` and `customer_number`, the status "assigned"
and as `assigned_agent_id` the head `h` of the pool as it was before the
assignment; at most one event is published, and exactly this one when the store
commands and the publish succeed and `h` is not the empty id. -/
theorem C5_published_event_matches_call_and_head (w : World) (call : IncomingCall)
    (h : String) (t : List String) (hp : w.redis.available_agents = h :: t) :
    (∀ m ∈ publishedEvents w call,
      m.Topic = "assigned_calls" ∧ m.Key = call.CallID ∧
      m.Value.CallID = call.CallID ∧ m.Value.CustomerNumber = call.CustomerNumber ∧
      m.Value.Status = "assigned" ∧ m.Value.AssignedAgentID = h ∧
      m.Value.AssignedAgentID ∈ w.redis.available_agents ∧
      w.redis.available_agents.head? = some m.Value.AssignedAgentID) ∧
    (publishedEvents w call).length ≤ 1 ∧
    (w.redis.healthy → w.kafkaProducer.healthy → h ≠ "" →
      publishedEvents w call = [assignedEvent call h w.now]) := by
  refine ⟨?_, ?_, ?_⟩
  · intro m hm
    have hm1 : m = assignedEvent call h w.now := by
      rcases processIncomingCall_logs w call hp with ⟨_, _, c3, _⟩ | ⟨e, _, _, c3, _⟩ |
        ⟨_, _, c3, _⟩
      · rw [c3] at hm; simp at hm
      · rw [c3] at hm; simp at hm
      · rw [c3] at hm; simpa using hm
    subst hm1
    simp [assignedEvent, newAssignedCall, hp]
  · rcases processIncomingCall_logs w call hp with ⟨_, _, c3, _⟩ | ⟨e, _, _, c3, _⟩ |
      ⟨_, _, c3, _⟩ <;> simp [c3]
  · intro hr hk hne
    unfold publishedEvents
    rw [processIncomingCall_ok hr hk hp hne call, List.drop_left]

/-- Witness for C5: the call "c1" against the pool `["a1", "a2"]`. -/
theorem C5_witness :
    (quietWorld ["a1", "a2"]).redis.available_agents = "a1" :: ["a2"] ∧
    publishedEvents (quietWorld ["a1", "a2"]) (sampleCall "c1") =
      [assignedEvent (sampleCall "c1") "a1" (quietWorld ["a1", "a2"]).now] :=
  ⟨rfl, (C5_published_event_matches_call_and_head (quietWorld ["a1", "a2"]) (sampleCall "c1")
    "a1" ["a2"] rfl).2.2 (by decide) (by decide) (by decide)⟩

/-- C6: for an inbound call processed against a non-empty pool `h :: t`, if a
publish of the assigned-call event fails with an error `e`, then
`processIncomingCall` returns `e`, the failed attempt is the only publish
attempt of the call (no retry), no event reaches the topic, and no insert into
the table of assigned calls is attempted (the store is left as it was). -/
theorem C6_publish_failure_is_returned_without_retry (w : World) (call : IncomingCall)
    (h : String) (t : List String) (m : ProducerMessage) (e : String)
    (hp : w.redis.available_agents = h :: t)
    (hfail : (m, some e) ∈ publishAttempts w call) :
    (processIncomingCall w call).1 = some e ∧
    publishAttempts w call = [(assignedEvent call h w.now, some e)] ∧
    publishedEvents w call = [] ∧
    persistAttempts w call = [] ∧
    (processIncomingCall w call).2.db = w.db := by
  rcases processIncomingCall_logs w call hp with ⟨_, c2, _⟩ | ⟨e1, c1, c2, c3, c4, c5⟩ |
    ⟨_, c2, _⟩
  · rw [c2] at hfail; simp at hfail
  · rw [c2] at hfail
    have he : e = e1 := by
      have := congrArg Prod.snd (List.mem_singleton.mp hfail)
      simpa using this
    subst he
    exact ⟨c1, c2, c3, c4, c5⟩
  · rw [c2] at hfail; simp at hfail

/-- Witness for C6: the broker rejects the publish of the call "c1". -/
theorem C6_witness :
    ((scriptedWorld ["a1", "a2"] [some "kafka: broker not available"] []).redis.available_agents
        = "a1" :: ["a2"] ∧
      (assignedEvent (sampleCall "c1") "a1" 100, some "kafka: broker not available") ∈
        publishAttempts (scriptedWorld ["a1", "a2"] [some "kafka: broker not available"] [])
          (sampleCall "c1")) ∧
    (processIncomingCall (scriptedWorld ["a1", "a2"] [some "kafka: broker not available"] [])
      (sampleCall "c1")).1 = some "kafka: broker not available" :=
  ⟨⟨rfl, by decide⟩,
    (C6_publish_failure_is_returned_without_retry
      (scriptedWorld ["a1", "a2"] [some "kafka: broker not available"] []) (sampleCall "c1")
      "a1" ["a2"] (assignedEvent (sampleCall "c1") "a1" 100) "kafka: broker not available"
      rfl (by decide)).1⟩

/-- C7: for an inbound call processed against a non-empty pool `h :: t` whose
publish succeeds, if the insert of the AssignedCall fails with an error `e`,
then `processIncomingCall` still returns nil, the successful publish is the only
publish attempt and put exactly one event on the topic, the failed insert is the
only insert attempt (no retry), and the table is left as it was. -/
theorem C7_persistence_failure_is_swallowed (w : World) (call : IncomingCall)
    (h : String) (t : List String) (m : ProducerMessage) (row : AssignedCall) (e : String)
    (hp : w.redis.available_agents = h :: t)
    (hpub : (m, none) ∈ publishAttempts w call)
    (hdb : (row, some e) ∈ persistAttempts w call) :
    (processIncomingCall w call).1 = none ∧
    publishAttempts w call = [(assignedEvent call h w.now, none)] ∧
    publishedEvents w call = [assignedEvent call h w.now] ∧
    persistAttempts w call = [(newAssignedCall call h w.now, some e)] ∧
    (processIncomingCall w call).2.db.assigned_calls = w.db.assigned_calls := by
  rcases processIncomingCall_logs w call hp with ⟨_, c2, _⟩ | ⟨e1, _, c2, _⟩ |
    ⟨c1, c2, c3, c4, c5⟩
  · rw [c2] at hpub; simp at hpub
  · rw [c2] at hpub; simp at hpub
  · rw [c4] at hdb
    have he : (w.db.Create w.now (newAssignedCall call h w.now)).1 = some e := by
      have := (List.mem_singleton.mp hdb)
      exact (congrArg Prod.snd this).symm
    refine ⟨c1, c2, c3, by rw [c4, he], ?_⟩
    rw [c5]
    exact (DB.Create_log _ _ _).2 (by rw [he]; simp)

/-- Witness for C7: the publish of the call "c1" is accepted and the store
rejects the insert. -/
theorem C7_witness :
    ((scriptedWorld ["a1", "a2"] [] [some "db: connection refused"]).redis.available_agents
        = "a1" :: ["a2"] ∧
      (assignedEvent (sampleCall "c1") "a1" 100, none) ∈
        publishAttempts (scriptedWorld ["a1", "a2"] [] [some "db: connection refused"])
          (sampleCall "c1") ∧
      (newAssignedCall (sampleCall "c1") "a1" 100, some "db: connection refused") ∈
        persistAttempts (scriptedWorld ["a1", "a2"] [] [some "db: connection refused"])
          (sampleCall "c1")) ∧
    (processIncomingCall (scriptedWorld ["a1", "a2"] [] [some "db: connection refused"])
      (sampleCall "c1")).1 = none :=
  ⟨⟨rfl, by decide, by decide⟩,
    (C7_persistence_failure_is_swallowed
      (scriptedWorld ["a1", "a2"] [] [some "db: connection refused"]) (sampleCall "c1")
      "a1" ["a2"] (assignedEvent (sampleCall "c1") "a1" 100)
      (newAssignedCall (sampleCall "c1") "a1" 100) "db: connection refused"
      rfl (by decide) (by decide)).1⟩

/-! ## Claims on the agent state synchroniser -/

/-- C8, as stated, fails when a store command fails: `handleAgentChange` then
returns the wrapped error, not nil, and leaves the pool as it was.  On the pool
`["7"]`: the create of the active agent "9" with the `LRange` failing, the same
create with the `RPush` failing, and the delete of the agent "7" with the `LRem`
failing. -/
theorem C8_counterexample_store_command_fails :
    handleAgentChange sampleUnmarshal
        { available_agents := ["7"], faults := [some "connection refused"] }
        "create_agent:9" [1, 9] =
      (some "failed to read from Redis: connection refused",
        { available_agents := ["7"], faults := [] }) ∧
    handleAgentChange sampleUnmarshal
        { available_agents := ["7"], faults := [none, some "connection refused"] }
        "create_agent:9" [1, 9] =
      (some "failed to add agent to Redis: connection refused",
        { available_agents := ["7"], faults := [] }) ∧
    handleAgentChange sampleUnmarshal
        { available_agents := ["7"], faults := [some "connection refused"] }
        "delete_agent:7" [1, 7] =
      (some "failed to remove agent from Redis: connection refused",
        { available_agents := ["7"], faults := [] }) := by
  decide

/-- C8 (amended): on a store whose commands succeed, for every key `action:rest`
(any `rest`), every payload that decodes to an agent with id `x`, and every pool
`p`, `handleAgentChange` returns nil and leaves the pool as follows: for
`create_agent` with `is_active = true`, `p` if `x` occurs in `p` and `p ++ [x]`
otherwise; for `create_agent` with `is_active = false`, `p`; for `delete_agent`,
whatever `is_active` is, `p` without any occurrence of `x`. -/
theorem C8_agent_change_effect_on_pool (unmarshal : List UInt8 → Except String Agent)
    (r : Redis) (rest : String) (value : List UInt8) (agent : Agent) (x : String)
    (hr : r.healthy) (hv : unmarshal value = .ok agent) (hx : agent.ID = x) :
    (agent.IsActive = true →
      (handleAgentChange unmarshal r ("create_agent:" ++ rest) value).1 = none ∧
      (handleAgentChange unmarshal r ("create_agent:" ++ rest) value).2.available_agents =
        (if x ∈ r.available_agents then r.available_agents else r.available_agents ++ [x])) ∧
    (agent.IsActive = false →
      (handleAgentChange unmarshal r ("create_agent:" ++ rest) value).1 = none ∧
      (handleAgentChange unmarshal r ("create_agent:" ++ rest) value).2.available_agents =
        r.available_agents) ∧
    ((handleAgentChange unmarshal r ("delete_agent:" ++ rest) value).1 = none ∧
      (handleAgentChange unmarshal r ("delete_agent:" ++ rest) value).2.available_agents =
        r.available_agents.filter (fun a => a ≠ x) ∧
      x ∉ (handleAgentChange unmarshal r ("delete_agent:" ++ rest) value).2.available_agents) := by
  have kc : "create_agent:" ++ rest = Action.create.tag ++ ":" ++ rest := by
    rw [show Action.create.tag ++ ":" = "create_agent:" from by decide]
  have kd : "delete_agent:" ++ rest = Action.delete.tag ++ ":" ++ rest := by
    rw [show Action.delete.tag ++ ":" = "delete_agent:" from by decide]
  rw [kc, kd, handleAgentChange_tag unmarshal r Action.create rest value agent hv,
    handleAgentChange_tag unmarshal r Action.delete rest value agent hv]
  subst hx
  refine ⟨?_, ?_, ?_⟩
  · intro ha
    obtain ⟨h1, h2, _⟩ := handleAgentCreation_active hr agent ha
    exact ⟨h1, h2⟩
  · intro ha
    simp [handleAgentCreation_inactive r agent ha]
  · obtain ⟨h1, h2, _⟩ := handleAgentDeletion_healthy hr agent
    have e : r.available_agents.filter (fun a => a != agent.ID) =
        r.available_agents.filter (fun a => decide (a ≠ agent.ID)) := by
      congr 1
      funext a
      by_cases h : a = agent.ID <;> simp [h]
    refine ⟨h1, by rw [h2, e], ?_⟩
    simp only [h2]
    simp

/-- Witness for C8 (amended): the active agent "9" is created while the pool is `["7"]`. -/
theorem C8_witness :
    (({ available_agents := ["7"], faults := [] } : Redis).healthy ∧
      sampleUnmarshal [1, 9] = .ok (sampleAgent "9" true) ∧
      (sampleAgent "9" true).ID = "9" ∧ (sampleAgent "9" true).IsActive = true) ∧
    (handleAgentChange sampleUnmarshal { available_agents := ["7"], faults := [] }
      ("create_agent:" ++ "9") [1, 9]).2.available_agents = ["7"] ++ ["9"] :=
  ⟨⟨by decide, rfl, rfl, rfl⟩,
    ((C8_agent_change_effect_on_pool sampleUnmarshal { available_agents := ["7"], faults := [] }
      "9" [1, 9] (sampleAgent "9" true) "9" (by decide) rfl rfl).1 rfl).2⟩

/-- C9, as stated, fails when a create with `is_active = false` follows a create
with `is_active = true` for the same agent: the second event is a no-op, so the
agent "7" stays in the pool although its last-seen action is not a create with
`is_active = true`. -/
theorem C9_counterexample_inactive_create_after_active :
    List.Forall₂ (Encodes sampleUnmarshal)
      [{ Key := "create_agent:7", Value := [1, 7] }, { Key := "create_agent:7", Value := [0, 7] }]
      [{ action := Action.create, agent := sampleAgent "7" true },
        { action := Action.create, agent := sampleAgent "7" false }] ∧
    "7" ∈ (ConsumeClaim sampleUnmarshal { available_agents := [], faults := [] }
      [{ Key := "create_agent:7", Value := [1, 7] },
        { Key := "create_agent:7", Value := [0, 7] }]).available_agents ∧
    lastSeenActiveCreate
      [{ action := Action.create, agent := sampleAgent "7" true },
        { action := Action.create, agent := sampleAgent "7" false }] "7" = false := by
  refine ⟨?_, by decide, by decide⟩
  exact List.Forall₂.cons ⟨⟨"7", by decide⟩, rfl⟩
    (List.Forall₂.cons ⟨⟨"7", by decide⟩, rfl⟩ List.Forall₂.nil)

/-- C9 (amended): starting from an empty pool on a store whose commands succeed,
after `handleAgentChange` has processed any finite sequence of well-formed
create/delete events, an id is in the pool exactly when the last-seen action for
that agent, creates with `is_active = false` left out of the sequence, was a
create with `is_active = true`.  When the sequence holds no create with
`is_active = false`, this is the set of agents whose last-seen action was a
create with `is_active = true`. -/
theorem C9_pool_is_set_of_last_effective_active_creates
    (unmarshal : List UInt8 → Except String Agent) (r : Redis)
    (msgs : List ConsumerMessage) (evs : List AgentChangeEvent) (x : String)
    (hr : r.healthy) (h0 : r.available_agents = [])
    (hf : List.Forall₂ (Encodes unmarshal) msgs evs) :
    (x ∈ (ConsumeClaim unmarshal r msgs).available_agents ↔
      lastSeenActiveCreate (evs.filter (fun ev => !ev.inactiveCreate)) x = true) ∧
    ((∀ ev ∈ evs, ev.inactiveCreate = false) →
      (x ∈ (ConsumeClaim unmarshal r msgs).available_agents ↔
        lastSeenActiveCreate evs x = true)) := by
  have main : x ∈ (ConsumeClaim unmarshal r msgs).available_agents ↔
      lastSeenActiveCreate (evs.filter (fun ev => !ev.inactiveCreate)) x = true := by
    rw [ConsumeClaim_mem unmarshal x msgs evs r hr hf]
    unfold lastSeenActiveCreate
    cases hl : lastSeen (evs.filter (fun ev => !ev.inactiveCreate)) x with
    | none => simp [h0]
    | some e =>
      have he : e.inactiveCreate = false := by
        have := (List.mem_filter.mp (lastSeen_mem hl)).2
        simpa using this
      simp only [AgentChangeEvent.inactiveCreate] at he
      cases hact : e.action with
      | create =>
        rw [hact] at he
        have : e.agent.IsActive = true := by simpa using he
        simp [this]
      | delete => simp [hact]
  refine ⟨main, ?_⟩
  intro hall
  have hflt : evs.filter (fun ev => !ev.inactiveCreate) = evs := by
    rw [List.filter_eq_self]
    intro ev hev
    simp [hall ev hev]
  rw [hflt] at main
  exact main

/-- Witness for C9 (amended): agent "7" is created and deleted, agent "8" is
created; the theorem puts "8" in the pool. -/
theorem C9_witness :
    (({ available_agents := [], faults := [] } : Redis).healthy ∧
      ({ available_agents := [], faults := [] } : Redis).available_agents = [] ∧
      List.Forall₂ (Encodes sampleUnmarshal)
        [{ Key := "create_agent:7", Value := [1, 7] }, { Key := "delete_agent:7", Value := [1, 7] },
          { Key := "create_agent:8", Value := [1, 8] }]
        [{ action := Action.create, agent := sampleAgent "7" true },
          { action := Action.delete, agent := sampleAgent "7" true },
          { action := Action.create, agent := sampleAgent "8" true }]) ∧
    "8" ∈ (ConsumeClaim sampleUnmarshal { available_agents := [], faults := [] }
      [{ Key := "create_agent:7", Value := [1, 7] }, { Key := "delete_agent:7", Value := [1, 7] },
        { Key := "create_agent:8", Value := [1, 8] }]).available_agents :=
  have hf : List.Forall₂ (Encodes sampleUnmarshal)
      [{ Key := "create_agent:7", Value := [1, 7] }, { Key := "delete_agent:7", Value := [1, 7] },
        { Key := "create_agent:8", Value := [1, 8] }]
      [{ action := Action.create, agent := sampleAgent "7" true },
        { action := Action.delete, agent := sampleAgent "7" true },
        { action := Action.create, agent := sampleAgent "8" true }] :=
    List.Forall₂.cons ⟨⟨"7", by decide⟩, rfl⟩
      (List.Forall₂.cons ⟨⟨"7", by decide⟩, rfl⟩
        (List.Forall₂.cons ⟨⟨"8", by decide⟩, rfl⟩ List.Forall₂.nil))
  ⟨⟨by decide, rfl, hf⟩,
    (C9_pool_is_set_of_last_effective_active_creates sampleUnmarshal
      { available_agents := [], faults := [] } _ _ "8" (by decide) rfl hf).1.mpr (by decide)⟩

/-- C10, as stated, fails when the store does not answer: with the `LRange` of
both applications failing, the create event for the active agent "9", applied
twice to the pool `["7"]`, returns an error each time and leaves the pool
without any occurrence of "9". -/
theorem C10_counterexample_store_command_fails :
    (handleAgentChange sampleUnmarshal
        { available_agents := ["7"],
          faults := [some "connection refused", some "connection refused"] }
        "create_agent:9" [1, 9]).1 = some "failed to read from Redis: connection refused" ∧
    (handleAgentChange sampleUnmarshal
      (handleAgentChange sampleUnmarshal
        { available_agents := ["7"],
          faults := [some "connection refused", some "connection refused"] }
        "create_agent:9" [1, 9]).2 "create_agent:9" [1, 9]).1 =
      some "failed to read from Redis: connection refused" ∧
    (handleAgentChange sampleUnmarshal
      (handleAgentChange sampleUnmarshal
        { available_agents := ["7"],
          faults := [some "connection refused", some "connection refused"] }
        "create_agent:9" [1, 9]).2 "create_agent:9" [1, 9]).2.available_agents = ["7"] ∧
    (handleAgentChange sampleUnmarshal
      (handleAgentChange sampleUnmarshal
        { available_agents := ["7"],
          faults := [some "connection refused", some "connection refused"] }
        "create_agent:9" [1, 9]).2 "create_agent:9" [1, 9]).2.available_agents.count "9" = 0 := by
  decide

/-- C10 (amended): on a store whose commands succeed, for every pool in which no
id occurs more than once and every create event with `is_active = true` for the agent id
`x`, applying the same event twice with `handleAgentChange` leaves the pool
with exactly one occurrence of `x` (both applications return nil). -/
theorem C10_same_create_twice_one_occurrence (unmarshal : List UInt8 → Except String Agent)
    (r : Redis) (rest : String) (value : List UInt8) (agent : Agent) (x : String)
    (hr : r.healthy) (hnd : r.available_agents.Nodup)
    (hv : unmarshal value = .ok agent) (hx : agent.ID = x) (ha : agent.IsActive = true) :
    (handleAgentChange unmarshal r ("create_agent:" ++ rest) value).1 = none ∧
    (handleAgentChange unmarshal
      (handleAgentChange unmarshal r ("create_agent:" ++ rest) value).2
      ("create_agent:" ++ rest) value).1 = none ∧
    (handleAgentChange unmarshal
      (handleAgentChange unmarshal r ("create_agent:" ++ rest) value).2
      ("create_agent:" ++ rest) value).2.available_agents.count x = 1 := by
  have kc : "create_agent:" ++ rest = Action.create.tag ++ ":" ++ rest := by
    rw [show Action.create.tag ++ ":" = "create_agent:" from by decide]
  rw [kc]
  simp only [handleAgentChange_tag unmarshal _ Action.create rest value agent hv]
  subst hx
  obtain ⟨a1, a2, a3⟩ := handleAgentCreation_active hr agent ha
  obtain ⟨b1, b2, _⟩ := handleAgentCreation_active a3 agent ha
  refine ⟨a1, b1, ?_⟩
  rw [b2, a2]
  by_cases hm : agent.ID ∈ r.available_agents
  · simp only [hm, if_true]
    exact List.count_eq_one_of_mem hnd hm
  · have hc : r.available_agents.count agent.ID = 0 := List.count_eq_zero_of_not_mem hm
    simp [hm, hc]

/-- Witness for C10 (amended): the create event for the active agent "9" is applied twice
to the pool `["7"]`. -/
theorem C10_witness :
    (({ available_agents := ["7"], faults := [] } : Redis).healthy ∧
      ({ available_agents := ["7"], faults := [] } : Redis).available_agents.Nodup ∧
      sampleUnmarshal [1, 9] = .ok (sampleAgent "9" true) ∧
      (sampleAgent "9" true).ID = "9" ∧ (sampleAgent "9" true).IsActive = true) ∧
    (handleAgentChange sampleUnmarshal
      (handleAgentChange sampleUnmarshal { available_agents := ["7"], faults := [] }
        ("create_agent:" ++ "9") [1, 9]).2
      ("create_agent:" ++ "9") [1, 9]).2.available_agents.count "9" = 1 :=
  ⟨⟨by decide, by decide, rfl, rfl, rfl⟩,
    (C10_same_create_twice_one_occurrence sampleUnmarshal
      { available_agents := ["7"], faults := [] } "9" [1, 9] (sampleAgent "9" true) "9"
      (by decide) (by decide) rfl rfl rfl).2.2⟩

/-! ## Store commands under any script of outcomes -/

theorem Redis.LRange_cases (r : Redis) :
    (∃ e, r.LRange = (.error e, r.advance)) ∨ r.LRange = (.ok r.available_agents, r.advance) := by
  unfold Redis.LRange
  cases r.nextFault with
  | some e => exact Or.inl ⟨e, rfl⟩
  | none => exact Or.inr rfl

theorem Redis.LPop_cases (r : Redis) :
    (∃ e, r.LPop = (.error e, r.advance)) ∨
    (∃ a t, r.available_agents = a :: t ∧
      r.LPop = (.ok a, { r.advance with available_agents := t })) := by
  unfold Redis.LPop
  cases r.nextFault with
  | some e => exact Or.inl ⟨e, rfl⟩
  | none =>
    cases hp : r.available_agents with
    | nil => exact Or.inl ⟨_, rfl⟩
    | cons a t => exact Or.inr ⟨a, t, rfl, rfl⟩

theorem Redis.RPush_cases (r : Redis) (values : List String) :
    (∃ e, r.RPush values = (.error e, r.advance)) ∨
    (∃ n, r.RPush values =
      (.ok n, { r.advance with available_agents := r.available_agents ++ values })) := by
  unfold Redis.RPush
  cases r.nextFault with
  | some e => exact Or.inl ⟨e, rfl⟩
  | none =>
    cases values with
    | nil => exact Or.inl ⟨_, rfl⟩
    | cons v vs => exact Or.inr ⟨_, rfl⟩

theorem Redis.LRem_cases (r : Redis) (value : String) :
    (∃ e, r.LRem value = (.error e, r.advance)) ∨
    (∃ n, r.LRem value =
      (.ok n, { r.advance with
        available_agents := r.available_agents.filter (fun a => a != value) })) := by
  unfold Redis.LRem
  cases r.nextFault with
  | some e => exact Or.inl ⟨e, rfl⟩
  | none => exact Or.inr ⟨_, rfl⟩

theorem Redis.Del_cases (r : Redis) :
    (∃ e, r.Del = (.error e, r.advance)) ∨
    (∃ n, r.Del = (.ok n, { r.advance with available_agents := [] })) := by
  unfold Redis.Del
  cases r.nextFault with
  | some e => exact Or.inl ⟨e, rfl⟩
  | none => exact Or.inr ⟨_, rfl⟩

theorem Redis.LRange_pool (r : Redis) : r.LRange.2.available_agents = r.available_agents := by
  rcases r.LRange_cases with ⟨e, h⟩ | h <;> rw [h] <;> rfl

/-- The pool after `assignAgent`, whatever the store answers: unchanged, or
without its head, or rotated by one place. -/
theorem assignAgent_pool_cases (r : Redis) :
    (assignAgent r).2.available_agents = r.available_agents ∨
    ∃ a t, r.available_agents = a :: t ∧
      ((assignAgent r).2.available_agents = t ∨
        (assignAgent r).2.available_agents = t ++ [a]) := by
  unfold assignAgent
  rcases r.LRange_cases with ⟨e, h⟩ | h
  · rw [h]; exact Or.inl rfl
  · rw [h]
    by_cases h0 : r.available_agents.length = 0
    · simp only [h0, if_true]; exact Or.inl rfl
    · simp only [h0, if_false]
      rcases r.advance.LPop_cases with ⟨e, h1⟩ | ⟨a, t, hp, h1⟩
      · rw [h1]; exact Or.inl rfl
      · rw [h1]
        refine Or.inr ⟨a, t, hp, ?_⟩
        simp only
        rcases Redis.RPush_cases { r.advance.advance with available_agents := t } [a] with
          ⟨e, h2⟩ | ⟨n, h2⟩
        · rw [h2]; exact Or.inl rfl
        · rw [h2]; exact Or.inr rfl

/-- The pool after `handleAgentCreation`, whatever the store answers: unchanged,
or extended by the id, which it did not hold. -/
theorem handleAgentCreation_pool_cases (r : Redis) (agent : Agent) :
    (handleAgentCreation r agent).2.available_agents = r.available_agents ∨
    (agent.ID ∉ r.available_agents ∧
      (handleAgentCreation r agent).2.available_agents = r.available_agents ++ [agent.ID]) := by
  unfold handleAgentCreation
  by_cases ha : agent.IsActive = true
  · simp only [ha, Bool.not_true, Bool.false_eq_true, if_false]
    rcases r.LRange_cases with ⟨e, h⟩ | h
    · rw [h]; exact Or.inl rfl
    · rw [h]
      by_cases hx : agent.ID ∈ r.available_agents
      · have hany : r.available_agents.any (fun existingAgent => existingAgent == agent.ID)
            = true := by simpa using hx
        simp only [hany, if_true]
        exact Or.inl rfl
      · have hany : ¬ r.available_agents.any (fun existingAgent => existingAgent == agent.ID)
            = true := by simpa using hx
        simp only [hany, if_false]
        rcases r.advance.RPush_cases [agent.ID] with ⟨e, h2⟩ | ⟨n, h2⟩
        · rw [h2]; exact Or.inl rfl
        · rw [h2]
          refine Or.inr ⟨hx, ?_⟩
          simp only [Bool.false_eq_true, if_false, Redis.LRange_pool]
          rfl
  · have ha0 : agent.IsActive = false := by simpa using ha
    simp only [ha0, Bool.not_false, if_true]
    exact Or.inl trivial

/-- The pool after `handleAgentDeletion`, whatever the store answers: unchanged,
or without any occurrence of the id. -/
theorem handleAgentDeletion_pool_cases (r : Redis) (agent : Agent) :
    ((handleAgentDeletion r agent).1 ≠ none ∧
      (handleAgentDeletion r agent).2.available_agents = r.available_agents) ∨
    ((handleAgentDeletion r agent).1 = none ∧
      (handleAgentDeletion r agent).2.available_agents =
        r.available_agents.filter (fun a => a != agent.ID)) := by
  unfold handleAgentDeletion
  rcases r.LRem_cases agent.ID with ⟨e, h⟩ | ⟨n, h⟩
  · rw [h]; exact Or.inl ⟨by simp, rfl⟩
  · rw [h]
    refine Or.inr ⟨rfl, ?_⟩
    simp only
    rw [Redis.LRange_pool]

/-- What `handleAgentChange` does depends on the key and the payload only: it
skips the event, or hands one decoded agent to the creation or to the deletion. -/
theorem handleAgentChange_kind (unmarshal : List UInt8 → Except String Agent)
    (key : String) (value : List UInt8) :
    (∀ r, handleAgentChange unmarshal r key value = (none, r)) ∨
    (∃ agent, ∀ r, handleAgentChange unmarshal r key value = handleAgentCreation r agent) ∨
    (∃ agent, ∀ r, handleAgentChange unmarshal r key value = handleAgentDeletion r agent) := by
  unfold handleAgentChange
  rcases SplitN key with _ | ⟨a, _ | ⟨b, _ | ⟨c, l⟩⟩⟩
  · exact Or.inl (fun _ => rfl)
  · exact Or.inl (fun _ => rfl)
  · cases unmarshal value with
    | error e => exact Or.inl (fun _ => rfl)
    | ok agent =>
      by_cases h1 : a = "create_agent"
      · exact Or.inr (Or.inl ⟨agent, fun r => by simp [h1]⟩)
      · by_cases h2 : a = "delete_agent"
        · exact Or.inr (Or.inr ⟨agent, fun r => by simp [h1, h2]⟩)
        · exact Or.inl (fun r => by simp [h1, h2])
  · exact Or.inl (fun _ => rfl)

theorem cutAtColon_none (l : List Char) (h : ':' ∉ l) : cutAtColon l = none := by
  induction l with
  | nil => rfl
  | cons c cs ih =>
    have hc : c ≠ ':' := fun e => h (by simp [e])
    have hcs : ':' ∉ cs := fun e => h (List.mem_cons_of_mem _ e)
    simp [cutAtColon, hc, ih hcs]

/-- A key whose text before the first `:` is `action` is cut into `action` and
the rest. -/
theorem SplitN_action (action rest : String) (h : ':' ∉ action.data) :
    SplitN (action ++ ":" ++ rest) = [action, rest] := by
  have hd : (action ++ ":" ++ rest).data = action.data ++ ':' :: rest.data := by
    simp [String.data_append]
  unfold SplitN
  rw [hd, cutAtColon_append _ _ h]

/-- The pool after `syncAgentsToRedis`, whatever the table and the store answer:
unchanged, or empty, or the ids of the active agents in query order. -/
theorem syncAgentsToRedis_pool_cases (db : AgentTable) (rdb : Redis) :
    (syncAgentsToRedis db rdb).2.2.available_agents = rdb.available_agents ∨
    (syncAgentsToRedis db rdb).2.2.available_agents = [] ∨
    (syncAgentsToRedis db rdb).2.2.available_agents =
      (db.rows.filter (fun a => a.IsActive && a.DeletedAt.isNone)).map (fun agent => agent.ID) := by
  unfold syncAgentsToRedis AgentTable.FindActive
  cases db.faults.head?.join with
  | some e => exact Or.inl rfl
  | none =>
    simp only
    by_cases h0 : (db.rows.filter (fun a => a.IsActive && a.DeletedAt.isNone)).length = 0
    · simp only [h0, if_true]; exact Or.inl trivial
    · simp only [h0, if_false]
      rcases rdb.Del_cases with ⟨e, h⟩ | ⟨n, h⟩
      · rw [h]; exact Or.inl rfl
      · rw [h]
        simp only
        rcases Redis.RPush_cases { rdb.advance with available_agents := [] }
          ((db.rows.filter (fun a => a.IsActive && a.DeletedAt.isNone)).map
            (fun agent => agent.ID)) with ⟨e, h2⟩ | ⟨m, h2⟩
        · rw [h2]; exact Or.inr (Or.inl rfl)
        · rw [h2]; exact Or.inr (Or.inr (by simp))

/-- On a table and a store that answer, with at least one active agent, the
bootstrap returns nil and the pool becomes the ids of the active agents in query
order, whatever it held. -/
theorem syncAgentsToRedis_rebuild (db : AgentTable) (rdb : Redis)
    (hdb : db.faults.head?.join = none) (hr : rdb.healthy)
    (hne : db.rows.filter (fun a => a.IsActive && a.DeletedAt.isNone) ≠ []) :
    (syncAgentsToRedis db rdb).1 = none ∧
    (syncAgentsToRedis db rdb).2.2.available_agents =
      (db.rows.filter (fun a => a.IsActive && a.DeletedAt.isNone)).map (fun agent => agent.ID) := by
  have h0 : ¬ (db.rows.filter (fun a => a.IsActive && a.DeletedAt.isNone)).length = 0 := by
    intro h; exact hne (List.length_eq_zero.mp h)
  have hd : rdb.Del = (.ok (if rdb.available_agents.length = 0 then 0 else 1),
      { rdb.advance with available_agents := [] }) := by
    simp [Redis.Del, Redis.nextFault_of_healthy hr]
  have h1 : ({ rdb.advance with available_agents := [] } : Redis).healthy :=
    Redis.healthy_of_faults (Redis.healthy_advance hr) rfl
  have hp : ∀ ids : List String, ids ≠ [] →
      Redis.RPush { rdb.advance with available_agents := [] } ids =
        (.ok ids.length,
          { available_agents := ids, faults := rdb.advance.faults.tail }) := by
    intro ids hids
    cases ids with
    | nil => exact absurd rfl hids
    | cons v vs =>
      have hf := Redis.nextFault_of_healthy h1
      simp only [Redis.RPush, hf]
      simp [Redis.advance]
  have hids : (db.rows.filter (fun a => a.IsActive && a.DeletedAt.isNone)).map
      (fun agent => agent.ID) ≠ [] := fun h => hne (List.map_eq_nil_iff.mp h)
  unfold syncAgentsToRedis AgentTable.FindActive
  simp only [hdb, h0, if_false, hd, hp _ hids]
  exact ⟨trivial, trivial⟩

/-! ## Claims on redelivery, the pool invariant and malformed events -/

/-- C11, as stated, fails when a store command fails on the first delivery only:
with the first `LRange` failing, the create event for the active agent "9"
processed once leaves the pool `["7"]` as it is, and processed twice leaves
`["7", "9"]`. -/
theorem C11_counterexample_first_delivery_fails :
    (handleAgentChange sampleUnmarshal
        { available_agents := ["7"], faults := [some "connection refused"] }
        "create_agent:9" [1, 9]).2.available_agents = ["7"] ∧
    (handleAgentChange sampleUnmarshal
      (handleAgentChange sampleUnmarshal
        { available_agents := ["7"], faults := [some "connection refused"] }
        "create_agent:9" [1, 9]).2 "create_agent:9" [1, 9]).2.available_agents =
      ["7", "9"] := by
  decide

/-- C11 (amended): on a store whose commands succeed, for every agent-change
event (any key, any payload) and every pool, processing the event twice in a row with
`handleAgentChange` leaves the pool as processing it once does. -/
theorem C11_agent_change_redelivery_is_idempotent
    (unmarshal : List UInt8 → Except String Agent) (r : Redis) (key : String)
    (value : List UInt8) (hr : r.healthy) :
    (handleAgentChange unmarshal (handleAgentChange unmarshal r key value).2
      key value).2.available_agents =
    (handleAgentChange unmarshal r key value).2.available_agents := by
  rcases handleAgentChange_kind unmarshal key value with h | ⟨agent, h⟩ | ⟨agent, h⟩
  · simp only [h]
  · simp only [h]
    by_cases ha : agent.IsActive = true
    · obtain ⟨_, a2, a3⟩ := handleAgentCreation_active hr agent ha
      obtain ⟨_, b2, _⟩ := handleAgentCreation_active a3 agent ha
      rw [b2]
      have hm : agent.ID ∈ (handleAgentCreation r agent).2.available_agents := by
        rw [a2]
        by_cases hx : agent.ID ∈ r.available_agents <;> simp [hx]
      simp [hm]
    · have ha0 : agent.IsActive = false := by simpa using ha
      simp only [handleAgentCreation_inactive _ agent ha0]
  · simp only [h]
    obtain ⟨_, a2, a3⟩ := handleAgentDeletion_healthy hr agent
    obtain ⟨_, b2, _⟩ := handleAgentDeletion_healthy a3 agent
    rw [b2, a2, List.filter_filter]
    simp

/-- Witness for C11 (amended): the create event for the active agent "9", delivered twice
to the pool `["7"]`. -/
theorem C11_witness :
    ({ available_agents := ["7"], faults := [] } : Redis).healthy ∧
    (handleAgentChange sampleUnmarshal
      (handleAgentChange sampleUnmarshal { available_agents := ["7"], faults := [] }
        "create_agent:9" [1, 9]).2 "create_agent:9" [1, 9]).2.available_agents =
    (handleAgentChange sampleUnmarshal { available_agents := ["7"], faults := [] }
      "create_agent:9" [1, 9]).2.available_agents :=
  ⟨by decide,
    C11_agent_change_redelivery_is_idempotent sampleUnmarshal
      { available_agents := ["7"], faults := [] } "create_agent:9" [1, 9] (by decide)⟩

/-- C12: if no id occurs more than once in the pool, the same holds after
`assignAgent`, after `handleAgentChange` on any event, and after
`syncAgentsToRedis` when the active agents have distinct ids; this holds
whatever the store and the table answer to the commands of the operation. -/
theorem C12_multiplicity_invariant_is_preserved
    (unmarshal : List UInt8 → Except String Agent) (r : Redis) (key : String)
    (value : List UInt8) (db : AgentTable) (hnd : r.available_agents.Nodup) :
    (assignAgent r).2.available_agents.Nodup ∧
    (handleAgentChange unmarshal r key value).2.available_agents.Nodup ∧
    (((db.rows.filter (fun a => a.IsActive && a.DeletedAt.isNone)).map
        (fun agent => agent.ID)).Nodup →
      (syncAgentsToRedis db r).2.2.available_agents.Nodup) := by
  refine ⟨?_, ?_, ?_⟩
  · rcases assignAgent_pool_cases r with h | ⟨a, t, hp, h | h⟩
    · rw [h]; exact hnd
    · rw [h]; rw [hp] at hnd; exact (List.nodup_cons.mp hnd).2
    · rw [h]; rw [hp] at hnd
      exact (List.perm_append_comm : (t ++ [a]).Perm ([a] ++ t)).nodup_iff.mpr hnd
  · rcases handleAgentChange_kind unmarshal key value with h | ⟨agent, h⟩ | ⟨agent, h⟩
    · rw [h]; exact hnd
    · rw [h]
      rcases handleAgentCreation_pool_cases r agent with h1 | ⟨hx, h1⟩
      · rw [h1]; exact hnd
      · rw [h1]
        exact List.Nodup.append hnd (List.nodup_singleton _) (by simpa using hx)
    · rw [h]
      rcases handleAgentDeletion_pool_cases r agent with ⟨_, h1⟩ | ⟨_, h1⟩
      · rw [h1]; exact hnd
      · rw [h1]; exact hnd.filter _
  · intro hids
    rcases syncAgentsToRedis_pool_cases db r with h | h | h
    · rw [h]; exact hnd
    · rw [h]; exact List.nodup_nil
    · rw [h]; exact hids

/-- Witness for C12: the pool `["7", "8"]` before an assignment, before the
creation of the agent "9", and before a bootstrap from a table with the active
agents "1" and "2". -/
theorem C12_witness :
    ({ available_agents := ["7", "8"], faults := [] } : Redis).available_agents.Nodup ∧
    (assignAgent { available_agents := ["7", "8"], faults := [] }).2.available_agents.Nodup ∧
    (handleAgentChange sampleUnmarshal { available_agents := ["7", "8"], faults := [] }
      "create_agent:9" [1, 9]).2.available_agents.Nodup ∧
    (syncAgentsToRedis { rows := [sampleAgent "1" true, sampleAgent "2" true], faults := [] }
      { available_agents := ["7", "8"], faults := [] }).2.2.available_agents.Nodup :=
  have h := C12_multiplicity_invariant_is_preserved sampleUnmarshal
    { available_agents := ["7", "8"], faults := [] } "create_agent:9" [1, 9]
    { rows := [sampleAgent "1" true, sampleAgent "2" true], faults := [] } (by decide)
  ⟨by decide, h.1, h.2.1, h.2.2 (by decide)⟩

/-- C14: a malformed agent-change event is skipped: `handleAgentChange` returns
nil and issues no store command, so the pool is unchanged.  This holds when the
key has no `:`, when the payload does not decode to an agent, and when the text
before the first `:` of the key is neither `create_agent` nor `delete_agent`. -/
theorem C14_malformed_agent_change_is_skipped
    (unmarshal : List UInt8 → Except String Agent) (r : Redis) (key : String)
    (value : List UInt8) :
    (':' ∉ key.data → handleAgentChange unmarshal r key value = (none, r)) ∧
    ((∃ e, unmarshal value = .error e) → handleAgentChange unmarshal r key value = (none, r)) ∧
    (∀ action rest : String, key = action ++ ":" ++ rest → ':' ∉ action.data →
      action ≠ "create_agent" → action ≠ "delete_agent" →
      handleAgentChange unmarshal r key value = (none, r)) := by
  refine ⟨?_, ?_, ?_⟩
  · intro h
    simp [handleAgentChange, SplitN, cutAtColon_none _ h]
  · rintro ⟨e, he⟩
    unfold handleAgentChange
    rcases SplitN key with _ | ⟨a, _ | ⟨b, _ | ⟨c, l⟩⟩⟩ <;> simp [he]
  · intro action rest hk hc h1 h2
    subst hk
    unfold handleAgentChange
    rw [SplitN_action action rest hc]
    cases unmarshal value <;> simp [h1, h2]

/-- Witness for C14: a key without `:`, a payload that is no agent document, and
the unknown action `update_agent`, each against the pool `["7"]`. -/
theorem C14_witness :
    (':' ∉ "create_agent".data ∧
      (∃ e, sampleUnmarshal [5] = .error e) ∧
      ("update_agent:9" = "update_agent" ++ ":" ++ "9" ∧ ':' ∉ "update_agent".data ∧
        "update_agent" ≠ "create_agent" ∧ "update_agent" ≠ "delete_agent")) ∧
    handleAgentChange sampleUnmarshal { available_agents := ["7"], faults := [] }
      "create_agent" [1, 9] = (none, { available_agents := ["7"], faults := [] }) ∧
    handleAgentChange sampleUnmarshal { available_agents := ["7"], faults := [] }
      "create_agent:9" [5] = (none, { available_agents := ["7"], faults := [] }) ∧
    handleAgentChange sampleUnmarshal { available_agents := ["7"], faults := [] }
      "update_agent:9" [1, 9] = (none, { available_agents := ["7"], faults := [] }) :=
  ⟨⟨by decide, ⟨_, rfl⟩, by decide, by decide, by decide, by decide⟩,
    (C14_malformed_agent_change_is_skipped sampleUnmarshal
      { available_agents := ["7"], faults := [] } "create_agent" [1, 9]).1 (by decide),
    (C14_malformed_agent_change_is_skipped sampleUnmarshal
      { available_agents := ["7"], faults := [] } "create_agent:9" [5]).2.1 ⟨_, rfl⟩,
    (C14_malformed_agent_change_is_skipped sampleUnmarshal
      { available_agents := ["7"], faults := [] } "update_agent:9" [1, 9]).2.2
      "update_agent" "9" (by decide) (by decide) (by decide) (by decide)⟩

/-- C15 (the code at the failing input): with no active agent in the table, the
bootstrap returns nil before it clears the list, so the prior pool `["7", "8"]`
survives it, although the agent "7" is marked inactive and "8" is unknown. -/
theorem C15_bootstrap_keeps_stale_pool_without_active_agents :
    syncAgentsToRedis { rows := [sampleAgent "7" false], faults := [] }
        { available_agents := ["7", "8"], faults := [] } =
      (none, { rows := [sampleAgent "7" false], faults := [] },
        { available_agents := ["7", "8"], faults := [] }) ∧
    ({ rows := [sampleAgent "7" false], faults := [] } : AgentTable).FindActive.1 = .ok [] :=
  ⟨rfl, rfl⟩

/-! ## Claims on interleaved pool mutation -/

/-- Without interleaving, three engine steps on a healthy store with a non-empty
pool are one call of `assignAgent`. -/
theorem engineStep_three {r : Redis} (hr : r.healthy) {a : String} {t : List String}
    (hp : r.available_agents = a :: t) :
    runSchedule { redis := r, phase := .idle } [.engine, .engine, .engine] =
      { redis := (assignAgent r).2, phase := .idle } := by
  have h1 : r.advance.healthy := Redis.healthy_advance hr
  have hp1 : r.advance.available_agents = a :: t := hp
  have hne : ¬ (a :: t).length = 0 := by simp
  simp only [runSchedule, poolStep, engineStep, assignAgent, Redis.LRange_healthy hr, hp, hne,
    if_false, Redis.LPop_healthy h1 hp1]

theorem absentFrom_engineStep {x : String} {s : Interleaved} (h : absentFrom x s) :
    absentFrom x (engineStep s) := by
  obtain ⟨hx, hph⟩ := h
  unfold engineStep
  cases hs : s.phase with
  | idle =>
    simp only
    rcases s.redis.LRange_cases with ⟨e, h1⟩ | h1
    · rw [h1]; exact ⟨hx, by simp⟩
    · rw [h1]
      by_cases h0 : s.redis.available_agents.length = 0
      · simp only [h0, if_true]; exact ⟨hx, by simp⟩
      · simp only [h0, if_false]; exact ⟨hx, by simp⟩
  | ranged =>
    simp only
    rcases s.redis.LPop_cases with ⟨e, h1⟩ | ⟨a, t, hp, h1⟩
    · rw [h1]; exact ⟨hx, by simp⟩
    · rw [h1]
      rw [hp] at hx
      have hxa : x ≠ a := fun e => hx (by simp [e])
      have hxt : x ∉ t := fun e => hx (List.mem_cons_of_mem _ e)
      refine ⟨hxt, ?_⟩
      simp only [ne_eq, AssignPhase.popped.injEq]
      exact fun e => hxa e.symm
  | popped a =>
    simp only
    rw [hs] at hph
    have hxa : x ≠ a := fun e => hph (by rw [e])
    refine ⟨?_, by simp⟩
    rcases s.redis.RPush_cases [a] with ⟨e, h1⟩ | ⟨n, h1⟩
    · rw [h1]; exact hx
    · rw [h1]
      simp only [List.mem_append, List.mem_singleton, not_or]
      exact ⟨hx, hxa⟩

theorem absentFrom_poolStep {x : String} {s : Interleaved} (h : absentFrom x s)
    (step : PoolStep) : absentFrom x (poolStep s step) := by
  cases step with
  | engine => exact absentFrom_engineStep h
  | remove agent =>
    obtain ⟨hx, hph⟩ := h
    refine ⟨?_, hph⟩
    simp only [poolStep]
    rcases handleAgentDeletion_pool_cases s.redis agent with ⟨_, h1⟩ | ⟨_, h1⟩
    · rw [h1]; exact hx
    · rw [h1]
      exact fun e => hx (List.mem_filter.mp e).1

theorem absentFrom_runSchedule (x : String) (sched : List PoolStep) :
    ∀ s : Interleaved, absentFrom x s → absentFrom x (runSchedule s sched) := by
  induction sched with
  | nil => intro s h; exact h
  | cons step rest ih => intro s h; exact ih _ (absentFrom_poolStep h step)

/-- C13, as stated, fails when the delete is processed between the pop and the
push of an assignment: from the pool `["7"]` the engine reads the list and pops
"7"; the synchroniser then processes the delete of "7" without error, finding
nothing to remove; the engine pushes "7" back, and the pool holds "7" although
no create event followed. -/
theorem C13_counterexample_delete_between_pop_and_push :
    (handleAgentDeletion
      (runSchedule { redis := { available_agents := ["7"], faults := [] }, phase := .idle }
        [.engine, .engine]).redis (sampleAgent "7" false)).1 = none ∧
    "7" ∉ (runSchedule { redis := { available_agents := ["7"], faults := [] }, phase := .idle }
      [.engine, .engine, .remove (sampleAgent "7" false)]).redis.available_agents ∧
    "7" ∈ (runSchedule { redis := { available_agents := ["7"], faults := [] }, phase := .idle }
      [.engine, .engine, .remove (sampleAgent "7" false), .engine]).redis.available_agents := by
  decide

/-- C13 (amended): once the synchroniser has processed the delete event for the
agent `x` without error, at a moment when no assignment holds `x` between its
pop and its push, the pool does not contain `x` in any later state reached by
store commands of the assignment engine and further deletions, in every
interleaving and whatever the store answers. -/
theorem C13_deleted_agent_stays_out_unless_mid_assignment (s : Interleaved) (agent : Agent)
    (sched : List PoolStep)
    (hdone : (handleAgentDeletion s.redis agent).1 = none)
    (hphase : s.phase ≠ AssignPhase.popped agent.ID) :
    agent.ID ∉
      (runSchedule (poolStep s (PoolStep.remove agent)) sched).redis.available_agents := by
  have h0 : absentFrom agent.ID (poolStep s (PoolStep.remove agent)) := by
    refine ⟨?_, hphase⟩
    simp only [poolStep]
    rcases handleAgentDeletion_pool_cases s.redis agent with ⟨h1, _⟩ | ⟨_, h1⟩
    · exact absurd hdone h1
    · rw [h1]
      intro e
      have := (List.mem_filter.mp e).2
      simp at this
  exact (absentFrom_runSchedule agent.ID sched _ h0).1

/-- Witness for C13 (amended): the delete of "7" arrives after the engine has
read the list `["7", "8"]` and before its pop; the engine then pops and pushes. -/
theorem C13_witness :
    ((handleAgentDeletion { available_agents := ["7", "8"], faults := [] }
        (sampleAgent "7" false)).1 = none ∧
      ({ redis := { available_agents := ["7", "8"], faults := [] },
         phase := AssignPhase.ranged } : Interleaved).phase
        ≠ AssignPhase.popped (sampleAgent "7" false).ID) ∧
    "7" ∉ (runSchedule
      (poolStep { redis := { available_agents := ["7", "8"], faults := [] },
                  phase := AssignPhase.ranged } (PoolStep.remove (sampleAgent "7" false)))
      [PoolStep.engine, PoolStep.engine, PoolStep.engine]).redis.available_agents :=
  ⟨⟨by decide, by decide⟩,
    C13_deleted_agent_stays_out_unless_mid_assignment
      { redis := { available_agents := ["7", "8"], faults := [] }, phase := AssignPhase.ranged }
      (sampleAgent "7" false) [PoolStep.engine, PoolStep.engine, PoolStep.engine]
      (by decide) (by decide)⟩

/-! ## Delivery bridge -/

/-- With only the assigned-call callback set, a message reaches the callback
exactly when it decodes to an assigned call with a non-empty agent id; every
other message leaves the state as it is. -/
theorem consumeMessage_assigned_only {σ : Type}
    (uA : List UInt8 → Except String AssignedCall)
    (uI : List UInt8 → Except String IncomingCall)
    (f : σ → AssignedCall → GoError × σ) (s : σ) (value : List UInt8) :
    consumerGroupHandler.consumeMessage uA uI none (some f) s value =
      match uA value with
      | .ok ev => if ev.AssignedAgentID ≠ "" then (f s ev).2 else s
      | .error _ => s := by
  have hin : (match uI value with
      | .ok incomingCall =>
        if incomingCall.CallID ≠ "" then
          match (none : Option (σ → IncomingCall → GoError × σ)) with
          | some g => (g s incomingCall).2
          | none => s
        else s
      | .error _ => s) = s := by
    cases uI value with
    | error e => rfl
    | ok ic => by_cases h : ic.CallID ≠ "" <;> simp [h]
  unfold consumerGroupHandler.consumeMessage
  simp only [hin]

/-- One decodable event through the bridge: written to the connection when its
agent id is the bridge's and is not empty, skipped otherwise. -/
theorem deliveryBridge_cons (uA : List UInt8 → Except String AssignedCall)
    (uI : List UInt8 → Except String IncomingCall) (X : String) (c : WsConn)
    (value : List UInt8) (rest : List (List UInt8)) (ev : AssignedCall)
    (hv : uA value = .ok ev) :
    deliveryBridge uA uI X c (value :: rest) =
      deliveryBridge uA uI X
        (if ev.AssignedAgentID = X ∧ ev.AssignedAgentID ≠ ""
          then (c.WriteJSON (WsMessage.new_call ev)).2 else c) rest := by
  unfold deliveryBridge
  simp only [consumerGroupHandler.ConsumeClaim]
  rw [consumeMessage_assigned_only, hv]
  by_cases h1 : ev.AssignedAgentID = ""
  · simp [h1]
  · by_cases h2 : ev.AssignedAgentID = X
    · rw [if_pos (⟨h2, h1⟩ : ev.AssignedAgentID = X ∧ ev.AssignedAgentID ≠ "")]
      simp only [ne_eq, h1, not_false_eq_true, if_true]
      unfold WebSocketHandler.onAssignedCall
      rw [if_pos h2]
      cases hw : (c.WriteJSON (WsMessage.new_call ev)) with
      | mk err c1 => cases err <;> rfl
    · simp [h1, h2, WebSocketHandler.onAssignedCall]

theorem WsConn.WriteJSON_healthy {c : WsConn} (h : c.healthy) (msg : WsMessage) :
    c.WriteJSON msg =
      (none,
        { c with written := c.written ++ [msg],
                 writeLog := c.writeLog ++ [(msg, none)],
                 faults := c.faults.tail }) := by
  have hf : c.faults.head?.join = none := by
    cases hf : c.faults with
    | nil => rfl
    | cons e es =>
      have : e = none := h.2 e (by simp [hf])
      simp [this]
  simp only [WsConn.WriteJSON, h.1, hf]

/-- Every write is logged with its outcome. -/
theorem WsConn.WriteJSON_log (c : WsConn) (msg : WsMessage) :
    (c.WriteJSON msg).2.writeLog = c.writeLog ++ [(msg, (c.WriteJSON msg).1)] := by
  unfold WsConn.WriteJSON
  cases c.writeErr with
  | some e => rfl
  | none =>
    simp only
    cases c.faults.head?.join <;> rfl

/-- A failed write delivers nothing and leaves its error on the connection. -/
theorem WsConn.WriteJSON_failed (c : WsConn) (msg : WsMessage) (e : String)
    (h : (c.WriteJSON msg).1 = some e) :
    (c.WriteJSON msg).2.writeErr = some e ∧ (c.WriteJSON msg).2.written = c.written := by
  unfold WsConn.WriteJSON at h ⊢
  cases hw : c.writeErr with
  | some e0 =>
    rw [hw] at h
    simp only at h ⊢
    exact ⟨h, trivial⟩
  | none =>
    rw [hw] at h
    simp only at h ⊢
    cases hf : c.faults.head?.join with
    | some e1 =>
      rw [hf] at h
      exact ⟨h, rfl⟩
    | none =>
      rw [hf] at h
      cases h

/-- On a connection that keeps a write error every write fails with it and
delivers nothing. -/
theorem WsConn.WriteJSON_latched (c : WsConn) (msg : WsMessage) (e : String)
    (h : c.writeErr = some e) :
    c.WriteJSON msg = (some e, { c with writeLog := c.writeLog ++ [(msg, some e)] }) := by
  simp only [WsConn.WriteJSON, h]

/-- On a connection whose writes succeed, the bridge of a non-empty agent id
writes one `new_call` frame per event of that agent, in stream order, and
nothing else. -/
theorem deliveryBridge_healthy (uA : List UInt8 → Except String AssignedCall)
    (uI : List UInt8 → Except String IncomingCall) (X : String) (hX : X ≠ "") :
    ∀ (values : List (List UInt8)) (events : List AssignedCall) (c : WsConn), c.healthy →
      List.Forall₂ (fun v ev => uA v = .ok ev) values events →
      (deliveryBridge uA uI X c values).written =
        c.written ++ (events.filter (fun ev => ev.AssignedAgentID = X)).map WsMessage.new_call ∧
      (deliveryBridge uA uI X c values).writeLog =
        c.writeLog ++ (events.filter (fun ev => ev.AssignedAgentID = X)).map
          (fun ev => (WsMessage.new_call ev, none)) := by
  intro values
  induction values with
  | nil =>
    intro events c _ hf
    cases hf
    simp [deliveryBridge, consumerGroupHandler.ConsumeClaim]
  | cons v vs ih =>
    intro events c hc hf
    cases hf with
    | cons hv hrest =>
      rename_i ev evs
      rw [deliveryBridge_cons uA uI X c v vs ev hv]
      by_cases h2 : ev.AssignedAgentID = X
      · have h1 : ev.AssignedAgentID ≠ "" := by rw [h2]; exact hX
        rw [if_pos (⟨h2, h1⟩ : ev.AssignedAgentID = X ∧ ev.AssignedAgentID ≠ ""),
          WsConn.WriteJSON_healthy hc]
        have hc1 : WsConn.healthy
            { c with written := c.written ++ [WsMessage.new_call ev],
                     writeLog := c.writeLog ++ [(WsMessage.new_call ev, none)],
                     faults := c.faults.tail } :=
          ⟨hc.1, fun e he => hc.2 e (List.mem_of_mem_tail he)⟩
        obtain ⟨i1, i2⟩ := ih evs _ hc1 hrest
        simp only at i1 i2 ⊢
        rw [i1, i2]
        simp [List.filter_cons, h2]
      · have hn : ¬ (ev.AssignedAgentID = X ∧ ev.AssignedAgentID ≠ "") := fun h => h2 h.1
        rw [if_neg hn]
        obtain ⟨i1, i2⟩ := ih evs c hc hrest
        rw [i1, i2]
        simp [List.filter_cons, h2]

/-- C18, as stated, fails for two connections of the same agent: the consumer
group is named after the agent id alone, so two distinct connections opened for
the agent "7" read in the same group `ws-7`. -/
theorem C18_counterexample_same_agent_same_group :
    ({ conn := 1, agentID := "7" } : BridgeConnection) ≠ { conn := 2, agentID := "7" } ∧
    BridgeConnection.groupID { conn := 1, agentID := "7" } =
      BridgeConnection.groupID { conn := 2, agentID := "7" } ∧
    BridgeConnection.groupID { conn := 1, agentID := "7" } = "ws-7" := by
  decide

/-- C18 (amended): the consumer group of a connection is `ws-` followed by the
agent id, so two connections use different consumer group identifiers exactly
when they are opened for different agent ids; two connections opened for the
same agent id use the same identifier. -/
theorem C18_group_id_is_scoped_to_the_agent (b1 b2 : BridgeConnection) :
    b1.groupID = "ws-" ++ b1.agentID ∧
    (b1.groupID ≠ b2.groupID ↔ b1.agentID ≠ b2.agentID) := by
  refine ⟨rfl, ?_⟩
  unfold BridgeConnection.groupID WebSocketHandler.groupID
  constructor
  · intro h e
    exact h (by rw [e])
  · intro h e
    apply h
    have := congrArg String.data e
    simp only [String.data_append] at this
    exact String.ext (List.append_cancel_left this)

/-- The bridge keeps no state of its own between messages: a stream is consumed
as its first part followed by its second part. -/
theorem deliveryBridge_append (uA : List UInt8 → Except String AssignedCall)
    (uI : List UInt8 → Except String IncomingCall) (X : String)
    (vs1 vs2 : List (List UInt8)) : ∀ c : WsConn,
    deliveryBridge uA uI X c (vs1 ++ vs2) =
      deliveryBridge uA uI X (deliveryBridge uA uI X c vs1) vs2 := by
  induction vs1 with
  | nil => intro c; rfl
  | cons v vs ih =>
    intro c
    have step : ∀ (c0 : WsConn) (l : List (List UInt8)),
        deliveryBridge uA uI X c0 (v :: l) =
          deliveryBridge uA uI X
            (consumerGroupHandler.consumeMessage uA uI none
              (some (WebSocketHandler.onAssignedCall X)) c0 v) l := fun _ _ => rfl
    rw [List.cons_append, step, step, ih]

/-- Messages that decode to events of other agents, or do not decode, leave the
connection untouched. -/
theorem deliveryBridge_skip (uA : List UInt8 → Except String AssignedCall)
    (uI : List UInt8 → Except String IncomingCall) (X : String)
    (vs : List (List UInt8))
    (h : ∀ v ∈ vs, ∀ ev, uA v = .ok ev → ev.AssignedAgentID ≠ X) (c : WsConn) :
    deliveryBridge uA uI X c vs = c := by
  induction vs with
  | nil => rfl
  | cons v vs ih =>
    have hrest : ∀ w ∈ vs, ∀ ev, uA w = .ok ev → ev.AssignedAgentID ≠ X :=
      fun w hw => h w (List.mem_cons_of_mem _ hw)
    cases hv : uA v with
    | ok ev =>
      have hne : ¬ (ev.AssignedAgentID = X ∧ ev.AssignedAgentID ≠ "") :=
        fun hh => h v (List.mem_cons_self _ _) ev hv hh.1
      rw [deliveryBridge_cons uA uI X c v vs ev hv, if_neg hne]
      exact ih hrest
    | error e =>
      have step : deliveryBridge uA uI X c (v :: vs) =
          deliveryBridge uA uI X
            (consumerGroupHandler.consumeMessage uA uI none
              (some (WebSocketHandler.onAssignedCall X)) c v) vs := rfl
      rw [step, consumeMessage_assigned_only, hv]
      exact ih hrest

/-- The callback of the bridge returns nil on every event and every connection. -/
theorem onAssignedCall_returns_nil (X : String) (c : WsConn) (call : AssignedCall) :
    (WebSocketHandler.onAssignedCall X c call).1 = none := by
  unfold WebSocketHandler.onAssignedCall
  by_cases h : call.AssignedAgentID = X
  · rw [if_pos h]
    cases hw : c.WriteJSON (WsMessage.new_call call) with
    | mk err c1 => cases err <;> rfl
  · rw [if_neg h]

/-- C17, as stated, fails in its last part: the connection keeps its first write
error, so after the write of the call "1" for the agent "7" has failed, the
bridge goes on consuming and attempts the write of the later call "3" for the
same agent, but that write fails with the same error, although nothing else
goes wrong on the network, and nothing is written to the connection. -/
theorem C17_counterexample_later_write_fails_too :
    (deliveryBridge sampleUnmarshalAssigned sampleUnmarshalIncoming "7"
      { written := [], writeLog := [], faults := [some "write: broken pipe"], writeErr := none }
      [[1, 7], [2, 8], [3, 7]]).written = [] ∧
    (deliveryBridge sampleUnmarshalAssigned sampleUnmarshalIncoming "7"
      { written := [], writeLog := [], faults := [some "write: broken pipe"], writeErr := none }
      [[1, 7], [2, 8], [3, 7]]).writeLog =
      [(WsMessage.new_call (sampleAssigned "1" "7"), some "write: broken pipe"),
        (WsMessage.new_call (sampleAssigned "3" "7"), some "write: broken pipe")] ∧
    (deliveryBridge sampleUnmarshalAssigned sampleUnmarshalIncoming "7"
      { written := [], writeLog := [], faults := [some "write: broken pipe"], writeErr := none }
      [[1, 7], [2, 8], [3, 7]]).faults = [] := by
  decide

/-- C17 (amended): when the write of an event addressed to the bridge's agent
fails with an error, the callback of the bridge returns nil, the failed write is
the only write attempted for that event and nothing reaches the connection for
it; the bridge goes on consuming, and for a later event addressed to the same
agent, after any number of messages for other agents, one write to the
connection is attempted; that write fails with the same error, which the
connection keeps, and nothing is written. -/
theorem C17_failed_write_is_dropped_and_consuming_goes_on
    (uA : List UInt8 → Except String AssignedCall)
    (uI : List UInt8 → Except String IncomingCall) (X : String) (c : WsConn)
    (v1 v2 : List UInt8) (mid : List (List UInt8)) (e1 e2 : AssignedCall) (err : String)
    (h1 : uA v1 = .ok e1) (h2 : uA v2 = .ok e2)
    (ha1 : e1.AssignedAgentID = X) (ha2 : e2.AssignedAgentID = X)
    (hmid : ∀ v ∈ mid, ∀ ev, uA v = .ok ev → ev.AssignedAgentID ≠ X)
    (hfail : (WsMessage.new_call e1, some err) ∈ bridgeWrites uA uI X c [v1]) :
    (WebSocketHandler.onAssignedCall X c e1).1 = none ∧
    bridgeWrites uA uI X c [v1] = [(WsMessage.new_call e1, some err)] ∧
    (deliveryBridge uA uI X c [v1]).written = c.written ∧
    bridgeWrites uA uI X c ([v1] ++ mid ++ [v2]) =
      [(WsMessage.new_call e1, some err), (WsMessage.new_call e2, some err)] ∧
    (deliveryBridge uA uI X c ([v1] ++ mid ++ [v2])).written = c.written := by
  have hnil : ∀ c0 : WsConn, deliveryBridge uA uI X c0 [] = c0 := fun _ => rfl
  have s1 := deliveryBridge_cons uA uI X c v1 [] e1 h1
  rw [hnil] at s1
  by_cases hcond : e1.AssignedAgentID = X ∧ e1.AssignedAgentID ≠ ""
  · rw [if_pos hcond] at s1
    have hX : X ≠ "" := by rw [← ha1]; exact hcond.2
    have hcond2 : e2.AssignedAgentID = X ∧ e2.AssignedAgentID ≠ "" :=
      ⟨ha2, by rw [ha2]; exact hX⟩
    have hlog := WsConn.WriteJSON_log c (WsMessage.new_call e1)
    have hout : (c.WriteJSON (WsMessage.new_call e1)).1 = some err := by
      unfold bridgeWrites at hfail
      rw [s1, hlog, List.drop_left] at hfail
      exact (congrArg Prod.snd (List.mem_singleton.mp hfail)).symm
    obtain ⟨hlatch, hwritten⟩ := WsConn.WriteJSON_failed c _ err hout
    rw [hout] at hlog
    have s2 : deliveryBridge uA uI X c ([v1] ++ mid ++ [v2]) =
        (WsConn.WriteJSON (deliveryBridge uA uI X c [v1]) (WsMessage.new_call e2)).2 := by
      rw [deliveryBridge_append, deliveryBridge_append,
        deliveryBridge_skip uA uI X mid hmid,
        deliveryBridge_cons uA uI X _ v2 [] e2 h2, if_pos hcond2, hnil]
    have hw2 := WsConn.WriteJSON_latched (deliveryBridge uA uI X c [v1])
      (WsMessage.new_call e2) err (by rw [s1]; exact hlatch)
    refine ⟨onAssignedCall_returns_nil X c e1, ?_, ?_, ?_, ?_⟩
    · unfold bridgeWrites
      rw [s1, hlog, List.drop_left]
    · rw [s1, hwritten]
    · unfold bridgeWrites
      rw [s2, hw2]
      simp only
      rw [s1, hlog, List.append_assoc, List.drop_left]
      rfl
    · rw [s2, hw2]
      simp only
      rw [s1, hwritten]
  · rw [if_neg hcond] at s1
    unfold bridgeWrites at hfail
    rw [s1] at hfail
    simp at hfail

/-- Witness for C17 (amended): the first write to the connection fails; the
bridge of the agent "7" reads an event for "7", one for "8" and another for "7". -/
theorem C17_witness :
    (sampleUnmarshalAssigned [1, 7] = .ok (sampleAssigned "1" "7") ∧
      sampleUnmarshalAssigned [3, 7] = .ok (sampleAssigned "3" "7") ∧
      (sampleAssigned "1" "7").AssignedAgentID = "7" ∧
      (sampleAssigned "3" "7").AssignedAgentID = "7" ∧
      (∀ v ∈ [[2, 8]], ∀ ev, sampleUnmarshalAssigned v = .ok ev → ev.AssignedAgentID ≠ "7") ∧
      (WsMessage.new_call (sampleAssigned "1" "7"), some "write: broken pipe") ∈
        bridgeWrites sampleUnmarshalAssigned sampleUnmarshalIncoming "7"
          { written := [], writeLog := [], faults := [some "write: broken pipe"],
            writeErr := none } [[1, 7]]) ∧
    bridgeWrites sampleUnmarshalAssigned sampleUnmarshalIncoming "7"
      { written := [], writeLog := [], faults := [some "write: broken pipe"], writeErr := none }
      ([[1, 7]] ++ [[2, 8]] ++ [[3, 7]]) =
      [(WsMessage.new_call (sampleAssigned "1" "7"), some "write: broken pipe"),
        (WsMessage.new_call (sampleAssigned "3" "7"), some "write: broken pipe")] :=
  have hmid : ∀ v ∈ [[2, 8]], ∀ ev, sampleUnmarshalAssigned v = .ok ev →
      ev.AssignedAgentID ≠ "7" := by
    intro v hv ev hev
    rw [List.mem_singleton.mp hv] at hev
    have : ev = sampleAssigned "2" "8" := by
      have h := hev
      simp only [sampleUnmarshalAssigned] at h
      exact (Except.ok.inj h).symm
    rw [this]
    decide
  ⟨⟨rfl, rfl, rfl, rfl, hmid, by decide⟩,
    (C17_failed_write_is_dropped_and_consuming_goes_on sampleUnmarshalAssigned
      sampleUnmarshalIncoming "7"
      { written := [], writeLog := [], faults := [some "write: broken pipe"], writeErr := none }
      [1, 7] [3, 7] [[2, 8]] (sampleAssigned "1" "7") (sampleAssigned "3" "7")
      "write: broken pipe" rfl rfl rfl rfl hmid (by decide)).2.2.2.1⟩

/-! ## Redelivery of an inbound call -/

theorem DB.faults_head_of_healthy {d : DB} (h : d.healthy) : d.faults.head?.join = none := by
  cases hf : d.faults with
  | nil => rfl
  | cons e es =>
    have : e = none := h e (by simp [hf])
    simp [this]

/-- An insert on a table that answers: rejected by the unique index when a row
with the same `call_id` exists, accepted otherwise; either way a row with that
`call_id` exists afterwards, the number of such rows is one when the call ids of
the table were distinct, and the table still answers. -/
theorem DB.Create_healthy {d : DB} (h : d.healthy) (now : Nat) (row : AssignedCall)
    (huniq : (d.assigned_calls.map (fun c => c.CallID)).Nodup) :
    (d.Create now row).2.healthy ∧
    ((d.Create now row).2.assigned_calls.any (fun c => c.CallID == row.CallID) = true) ∧
    (((d.Create now row).2.assigned_calls.map (fun c => c.CallID)).Nodup) ∧
    (((d.Create now row).2.assigned_calls.map (fun c => c.CallID)).count row.CallID = 1) ∧
    (d.assigned_calls.any (fun c => c.CallID == row.CallID) = true →
      (d.Create now row).1 = some duplicateKeyError ∧
      (d.Create now row).2.assigned_calls = d.assigned_calls) := by
  have hf := DB.faults_head_of_healthy h
  have htail : ∀ e ∈ d.faults.tail, e = none := fun e he => h e (List.mem_of_mem_tail he)
  unfold DB.Create
  simp only [hf]
  by_cases hdup : d.assigned_calls.any (fun c => c.CallID == row.CallID) = true
  · simp only [hdup, if_true]
    have hmem : row.CallID ∈ d.assigned_calls.map (fun c => c.CallID) := by
      rw [List.any_eq_true] at hdup
      obtain ⟨c, hc, hcc⟩ := hdup
      exact List.mem_map.mpr ⟨c, hc, by simpa using hcc⟩
    exact ⟨htail, trivial, huniq, List.count_eq_one_of_mem huniq hmem, fun _ => ⟨rfl, trivial⟩⟩
  · have hnot : row.CallID ∉ d.assigned_calls.map (fun c => c.CallID) := by
      intro hm
      apply hdup
      obtain ⟨c, hc, hcc⟩ := List.mem_map.mp hm
      exact List.any_eq_true.mpr ⟨c, hc, by simpa using hcc⟩
    simp only [hdup]
    refine ⟨htail, by simp, ?_, ?_, fun hh => absurd hh (by simp)⟩
    · simp only [Bool.false_eq_true, if_false, List.map_append, List.map_cons, List.map_nil]
      exact List.Nodup.append huniq (List.nodup_singleton _) (by simpa using hnot)
    · simp only [Bool.false_eq_true, if_false, List.map_append, List.map_cons, List.map_nil,
        List.count_append, List.count_eq_zero_of_not_mem hnot]
      simp

/-- With an empty pool a call makes no publish attempt. -/
theorem publishAttempts_nil_pool (w : World) (call : IncomingCall)
    (hp : w.redis.available_agents = []) : publishAttempts w call = [] := by
  have h := assignAgent_nil hp
  unfold publishAttempts processIncomingCall
  rcases hr : assignAgent w.redis with ⟨agentID, r1⟩
  rw [hr] at h
  have h1 : agentID = "" := h.1
  simp [h1]

/-- A call whose publish was accepted: the event, what was returned, and the
insert that followed. -/
theorem processIncomingCall_published (w : World) (call : IncomingCall) (m : ProducerMessage)
    (hpub : (m, none) ∈ publishAttempts w call) :
    ∃ h, m = assignedEvent call h w.now ∧
      (processIncomingCall w call).1 = none ∧
      (processIncomingCall w call).2.kafkaProducer.accepted = w.kafkaProducer.accepted ++ [m] ∧
      persistAttempts w call =
        [(newAssignedCall call h w.now, (w.db.Create w.now (newAssignedCall call h w.now)).1)] ∧
      (processIncomingCall w call).2.db =
        (w.db.Create w.now (newAssignedCall call h w.now)).2 ∧
      (processIncomingCall w call).2.now = w.now := by
  cases hp : w.redis.available_agents with
  | nil =>
    rw [publishAttempts_nil_pool w call hp] at hpub
    simp at hpub
  | cons h t =>
    have hnow : (processIncomingCall w call).2.now = w.now := by
      unfold processIncomingCall
      rcases assignAgent w.redis with ⟨agentID, r1⟩
      by_cases h0 : agentID = ""
      · simp [h0]
      · simp only [h0, if_false]
        cases PublishAssignedCall w.kafkaProducer
          { ID := 0, CallID := call.CallID, CustomerNumber := call.CustomerNumber,
            Timestamp := w.now, AssignedAgentID := agentID, Status := "assigned",
            Notes := "", CreatedAt := 0, UpdatedAt := 0, DeletedAt := none } with
        | mk err p1 => cases err <;> rfl
    rcases processIncomingCall_cases w call hp with ⟨_, c2, _⟩ | ⟨e, _, _, c3, _⟩ |
      ⟨c1, c2, c3, c4⟩
    · unfold publishAttempts at hpub
      rw [c2] at hpub
      simp at hpub
    · unfold publishAttempts at hpub
      rw [c3, List.drop_left] at hpub
      have := congrArg Prod.snd (List.mem_singleton.mp hpub)
      simp at this
    · have hm : m = assignedEvent call h w.now := by
        unfold publishAttempts at hpub
        rw [c3, List.drop_left] at hpub
        exact congrArg Prod.fst (List.mem_singleton.mp hpub)
      refine ⟨h, hm, c1, by rw [c2, hm], ?_, c4, hnow⟩
      unfold persistAttempts
      rw [c4, (DB.Create_log _ _ _).1, List.drop_left]

/-- Two processings of the same inbound call whose publishes were both
accepted, on a table that answers and whose call ids are distinct: two events
with the call's `call_id` are on the topic, the insert of the second processing
is rejected by the unique index on `call_id`, the second processing returns nil
all the same, and the table holds exactly one row with that `call_id`. -/
theorem redelivery_of_published_call (w : World) (call : IncomingCall)
    (m1 m2 : ProducerMessage)
    (hdb : w.db.healthy)
    (huniq : (w.db.assigned_calls.map (fun c => c.CallID)).Nodup)
    (hp1 : (m1, none) ∈ publishAttempts w call)
    (hp2 : (m2, none) ∈ publishAttempts (processIncomingCall w call).2 call) :
    (processIncomingCall (processIncomingCall w call).2 call).2.kafkaProducer.accepted =
      w.kafkaProducer.accepted ++ [m1, m2] ∧
    (m1.Value.CallID = call.CallID ∧ m2.Value.CallID = call.CallID) ∧
    persistAttempts (processIncomingCall w call).2 call = [(m2.Value, some duplicateKeyError)] ∧
    (processIncomingCall (processIncomingCall w call).2 call).1 = none ∧
    ((processIncomingCall (processIncomingCall w call).2 call).2.db.assigned_calls.map
      (fun c => c.CallID)).count call.CallID = 1 := by
  obtain ⟨h1, hm1, _, a1, _, d1, n1⟩ := processIncomingCall_published w call m1 hp1
  obtain ⟨h2, hm2, r2, a2, q2, d2, _⟩ :=
    processIncomingCall_published (processIncomingCall w call).2 call m2 hp2
  obtain ⟨k1, k2, k3, k4, _⟩ := DB.Create_healthy hdb w.now (newAssignedCall call h1 w.now) huniq
  rw [← d1] at k1 k2 k3 k4
  have hid1 : (newAssignedCall call h1 w.now).CallID = call.CallID := rfl
  have hid2 : (newAssignedCall call h2 (processIncomingCall w call).2.now).CallID
      = call.CallID := rfl
  rw [hid1] at k2 k4
  obtain ⟨_, _, _, _, j5⟩ := DB.Create_healthy k1 (processIncomingCall w call).2.now
    (newAssignedCall call h2 (processIncomingCall w call).2.now) k3
  rw [hid2] at j5
  obtain ⟨j6, j7⟩ := j5 k2
  refine ⟨by rw [a2, a1]; simp, ⟨by rw [hm1]; rfl, by rw [hm2]; rfl⟩, ?_, r2, ?_⟩
  · rw [q2, j6, hm2]
    rfl
  · rw [d2, j7]
    exact k4

/-- On a healthy store and producer with a non-empty head of the pool, the call
makes one publish attempt, which is accepted. -/
theorem publishAttempts_ok {w : World} (hr : w.redis.healthy) (hk : w.kafkaProducer.healthy)
    {a : String} {t : List String} (hp : w.redis.available_agents = a :: t) (ha : a ≠ "")
    (call : IncomingCall) :
    publishAttempts w call = [(assignedEvent call a w.now, none)] := by
  unfold publishAttempts
  rw [processIncomingCall_ok hr hk hp ha call, List.drop_left]

/-- C19, as stated, fails in two ways.  On a pool that holds the empty id: from
the pool `["", "a2"]` the first processing of the call "c1" obtains the agent "",
which `processIncomingCall` reads as "no agent", and publishes and persists
nothing; the second processing publishes the only event and its insert is
accepted, with no violation of the unique index, although every command and
publish succeeds.  And when the first insert does not reach the table: from the
pool `["a1", "a2"]`, with both publishes accepted and the first insert failing
on the connection, the second insert is accepted and the only row for "c1" names
the agent "a2". -/
theorem C19_counterexample_empty_id_or_failed_insert :
    ((quietWorld ["", "a2"]).redis.healthy ∧ (quietWorld ["", "a2"]).kafkaProducer.healthy ∧
      (quietWorld ["", "a2"]).db.healthy ∧
      (processIncomingCall (processIncomingCall (quietWorld ["", "a2"]) (sampleCall "c1")).2
        (sampleCall "c1")).2.kafkaProducer.accepted =
        [assignedEvent (sampleCall "c1") "a2" 100] ∧
      persistAttempts (processIncomingCall (quietWorld ["", "a2"]) (sampleCall "c1")).2
        (sampleCall "c1") = [(newAssignedCall (sampleCall "c1") "a2" 100, none)]) ∧
    ((processIncomingCall
        (processIncomingCall (scriptedWorld ["a1", "a2"] [] [some "connection refused"])
          (sampleCall "c1")).2
        (sampleCall "c1")).2.kafkaProducer.accepted =
        [assignedEvent (sampleCall "c1") "a1" 100, assignedEvent (sampleCall "c1") "a2" 100] ∧
      persistAttempts
        (processIncomingCall (scriptedWorld ["a1", "a2"] [] [some "connection refused"])
          (sampleCall "c1")).2
        (sampleCall "c1") = [(newAssignedCall (sampleCall "c1") "a2" 100, none)] ∧
      (processIncomingCall
        (processIncomingCall (scriptedWorld ["a1", "a2"] [] [some "connection refused"])
          (sampleCall "c1")).2
        (sampleCall "c1")).2.db.assigned_calls.map (fun c => (c.CallID, c.AssignedAgentID)) =
        [("c1", "a2")]) := by
  decide

/-- C19 (amended): when the same inbound call is processed twice against a
non-empty pool of non-empty agent ids, with every store command and every
publish succeeding and every insert reaching the table (an insert fails on the
unique index only), the table holding no two rows with the same `call_id`
beforehand, then `processIncomingCall` publishes two assigned-call events with
the call's `call_id` (to the first and to the next agent in turn), the insert of
the second processing is rejected by the unique index on `call_id`, the second
processing returns nil all the same, and the table holds exactly one row with
that `call_id`. -/
theorem C19_redelivery_duplicates_the_event_not_the_record (w : World) (call : IncomingCall)
    (a : String) (t : List String)
    (hr : w.redis.healthy) (hk : w.kafkaProducer.healthy) (hdb : w.db.healthy)
    (huniq : (w.db.assigned_calls.map (fun c => c.CallID)).Nodup)
    (hp : w.redis.available_agents = a :: t)
    (hne : ∀ id ∈ w.redis.available_agents, id ≠ "") :
    (processIncomingCall (processIncomingCall w call).2 call).2.kafkaProducer.accepted =
      w.kafkaProducer.accepted ++
        [assignedEvent call a w.now, assignedEvent call ((t ++ [a]).headD a) w.now] ∧
    ((assignedEvent call a w.now).Value.CallID = call.CallID ∧
      (assignedEvent call ((t ++ [a]).headD a) w.now).Value.CallID = call.CallID) ∧
    persistAttempts (processIncomingCall w call).2 call =
      [(newAssignedCall call ((t ++ [a]).headD a) w.now, some duplicateKeyError)] ∧
    (processIncomingCall (processIncomingCall w call).2 call).1 = none ∧
    ((processIncomingCall (processIncomingCall w call).2 call).2.db.assigned_calls.map
      (fun c => c.CallID)).count call.CallID = 1 := by
  have ha : a ≠ "" := hne a (by rw [hp]; exact List.mem_cons_self _ _)
  have s1 := processIncomingCall_ok hr hk hp ha call
  have hp1 := publishAttempts_ok hr hk hp ha call
  have hr1 : (processIncomingCall w call).2.redis.healthy := by
    rw [s1]; exact Redis.healthy_tail3 hr _
  have hk1 : (processIncomingCall w call).2.kafkaProducer.healthy := by
    rw [s1]; exact KafkaProducer.healthy_of_faults_tail hk rfl
  have hnow : (processIncomingCall w call).2.now = w.now := by rw [s1]
  obtain ⟨b, u, hbu⟩ : ∃ b u, t ++ [a] = b :: u := by
    cases t with
    | nil => exact ⟨a, [], rfl⟩
    | cons b u => exact ⟨b, u ++ [a], rfl⟩
  have hb : b ≠ "" := by
    have hmem : b ∈ t ++ [a] := by rw [hbu]; exact List.mem_cons_self _ _
    rcases List.mem_append.mp hmem with h | h
    · exact hne b (by rw [hp]; exact List.mem_cons_of_mem _ h)
    · rw [List.mem_singleton.mp h]; exact ha
  have hpool1 : (processIncomingCall w call).2.redis.available_agents = b :: u := by
    rw [s1]; exact hbu
  have hp2 := publishAttempts_ok hr1 hk1 hpool1 hb call
  rw [hnow] at hp2
  have hhead : (t ++ [a]).headD a = b := by rw [hbu]; rfl
  rw [hhead]
  exact redelivery_of_published_call w call (assignedEvent call a w.now)
    (assignedEvent call b w.now) hdb huniq (by rw [hp1]; exact List.mem_singleton.mpr rfl)
    (by rw [hp2]; exact List.mem_singleton.mpr rfl)

/-- Witness for C19 (amended): the call "c1" is delivered twice to a quiet world
with the pool `["a1", "a2"]`. -/
theorem C19_witness :
    ((quietWorld ["a1", "a2"]).redis.healthy ∧ (quietWorld ["a1", "a2"]).kafkaProducer.healthy ∧
      (quietWorld ["a1", "a2"]).db.healthy ∧
      ((quietWorld ["a1", "a2"]).db.assigned_calls.map (fun c => c.CallID)).Nodup ∧
      (quietWorld ["a1", "a2"]).redis.available_agents = "a1" :: ["a2"] ∧
      (∀ id ∈ (quietWorld ["a1", "a2"]).redis.available_agents, id ≠ "")) ∧
    (processIncomingCall (processIncomingCall (quietWorld ["a1", "a2"]) (sampleCall "c1")).2
      (sampleCall "c1")).2.kafkaProducer.accepted =
      (quietWorld ["a1", "a2"]).kafkaProducer.accepted ++
        [assignedEvent (sampleCall "c1") "a1" 100, assignedEvent (sampleCall "c1") "a2" 100] :=
  ⟨⟨by decide, by decide, by decide, by decide, rfl, by decide⟩,
    (C19_redelivery_duplicates_the_event_not_the_record (quietWorld ["a1", "a2"])
      (sampleCall "c1") "a1" ["a2"] (by decide) (by decide) (by decide) (by decide) rfl
      (by decide)).1⟩

/-! ## Agent-change producer and synchroniser -/

/-- C20: for every agent with id `x`, also when `x` contains `:`, the event that
`CreateAgent` publishes has the key `"create_agent:" ++ x`, the event that
`DeleteAgent` publishes has the key `"delete_agent:" ++ x`, each with the encoded
snapshot as value; and when the decoder returns for that value a snapshot with
the same id, `handleAgentChange` on that key and value is the creation,
respectively the deletion, of that snapshot, so that on a store whose commands
succeed the deletion removes exactly `x` and the creation of an active snapshot
adds `x` if it is absent. -/
theorem C20_agent_change_key_round_trip (marshal : Agent → List UInt8)
    (unmarshal : List UInt8 → Except String Agent) (agent snap : Agent) (x : String)
    (p : RawProducer) (r : Redis)
    (hx : agent.ID = x)
    (hsend : p.faults.head?.join = none)
    (hrt : unmarshal (marshal agent) = .ok snap) (hid : snap.ID = x) :
    (CreateAgent.publish marshal (some p) agent =
        some { p with accepted := p.accepted ++
                        [{ Key := "create_agent:" ++ x, Value := marshal agent }],
                      faults := p.faults.tail } ∧
      DeleteAgent.publish marshal (some p) agent =
        some { p with accepted := p.accepted ++
                        [{ Key := "delete_agent:" ++ x, Value := marshal agent }],
                      faults := p.faults.tail }) ∧
    (handleAgentChange unmarshal r ("create_agent:" ++ x) (marshal agent) =
        handleAgentCreation r snap ∧
      handleAgentChange unmarshal r ("delete_agent:" ++ x) (marshal agent) =
        handleAgentDeletion r snap) ∧
    (r.healthy →
      (handleAgentChange unmarshal r ("delete_agent:" ++ x) (marshal agent)).2.available_agents =
        r.available_agents.filter (fun a => a != x) ∧
      (snap.IsActive = true →
        (handleAgentChange unmarshal r ("create_agent:" ++ x) (marshal agent)).2.available_agents =
          (if x ∈ r.available_agents then r.available_agents else r.available_agents ++ [x]))) := by
  have kc : "create_agent:" ++ x = Action.create.tag ++ ":" ++ x := by
    rw [show Action.create.tag ++ ":" = "create_agent:" from by decide]
  have kd : "delete_agent:" ++ x = Action.delete.tag ++ ":" ++ x := by
    rw [show Action.delete.tag ++ ":" = "delete_agent:" from by decide]
  have dc := handleAgentChange_tag unmarshal r Action.create x (marshal agent) snap hrt
  have dd := handleAgentChange_tag unmarshal r Action.delete x (marshal agent) snap hrt
  rw [← kc] at dc
  rw [← kd] at dd
  simp only at dc dd
  subst hx
  refine ⟨⟨?_, ?_⟩, ⟨dc, dd⟩, ?_⟩
  · simp only [CreateAgent.publish, PublishMessage, hsend]
  · simp only [DeleteAgent.publish, PublishMessage, hsend]
  · intro hr
    rw [dc, dd]
    obtain ⟨_, h2, _⟩ := handleAgentDeletion_healthy hr snap
    refine ⟨by rw [h2, hid], ?_⟩
    intro ha
    obtain ⟨_, h3, _⟩ := handleAgentCreation_active hr snap ha
    rw [h3, hid]

/-- Witness for C20: an agent whose id "12:34" contains the separator. -/
theorem C20_witness :
    ((sampleAgent "12:34" true).ID = "12:34" ∧
      ({ topic := "agent_changes", accepted := [], faults := [] } : RawProducer).faults.head?.join
        = none ∧
      (fun _ : List UInt8 => (Except.ok (sampleAgent "12:34" true) : Except String Agent))
        ((fun _ : Agent => ([7] : List UInt8)) (sampleAgent "12:34" true))
        = .ok (sampleAgent "12:34" true)) ∧
    handleAgentChange (fun _ => .ok (sampleAgent "12:34" true))
        { available_agents := ["7"], faults := [] } ("create_agent:" ++ "12:34")
        ((fun _ : Agent => ([7] : List UInt8)) (sampleAgent "12:34" true)) =
      handleAgentCreation { available_agents := ["7"], faults := [] } (sampleAgent "12:34" true) :=
  ⟨⟨rfl, rfl, rfl⟩,
    (C20_agent_change_key_round_trip (fun _ => [7]) (fun _ => .ok (sampleAgent "12:34" true))
      (sampleAgent "12:34" true) (sampleAgent "12:34" true) "12:34"
      { topic := "agent_changes", accepted := [], faults := [] }
      { available_agents := ["7"], faults := [] } rfl rfl rfl rfl).2.1.1⟩

/-! ## The pool across a call, and the redelivered call -/

/-- The store after `processIncomingCall` is the store after its `assignAgent`,
whatever the publish and the insert did. -/
theorem processIncomingCall_redis (w : World) (call : IncomingCall) :
    (processIncomingCall w call).2.redis = (assignAgent w.redis).2 := by
  unfold processIncomingCall
  rcases assignAgent w.redis with ⟨agentID, r1⟩
  by_cases h0 : agentID = ""
  · simp [h0]
  · simp only [h0, if_false]
    cases PublishAssignedCall w.kafkaProducer
      { ID := 0, CallID := call.CallID, CustomerNumber := call.CustomerNumber,
        Timestamp := w.now, AssignedAgentID := agentID, Status := "assigned",
        Notes := "", CreatedAt := 0, UpdatedAt := 0, DeletedAt := none } with
    | mk err p1 => cases err <;> rfl

/-- C24, as stated, fails when a store command of `assignAgent` fails.  When the
`LRange` fails, the pool `["a1", "a2"]` stays as it is instead of being rotated
and nothing is published.  When the `RPush` that requeues the agent fails (its
result is not looked at), the pool `["a1", "a2"]` becomes `["a2"]`: the event for
"a1" is published and "a1" is no longer pooled. -/
theorem C24_counterexample_store_command_fails :
    (processIncomingCall
      { redis := { available_agents := ["a1", "a2"], faults := [some "connection refused"] },
        kafkaProducer := { accepted := [], sendLog := [], faults := [] },
        db := { assigned_calls := [], createLog := [], nextID := 1, faults := [] },
        now := 100 } (sampleCall "c1")).2.redis.available_agents = ["a1", "a2"] ∧
    (processIncomingCall
      { redis := { available_agents := ["a1", "a2"], faults := [some "connection refused"] },
        kafkaProducer := { accepted := [], sendLog := [], faults := [] },
        db := { assigned_calls := [], createLog := [], nextID := 1, faults := [] },
        now := 100 } (sampleCall "c1")).2.kafkaProducer.accepted = [] ∧
    (processIncomingCall
      { redis := { available_agents := ["a1", "a2"],
                   faults := [none, none, some "connection refused"] },
        kafkaProducer := { accepted := [], sendLog := [], faults := [] },
        db := { assigned_calls := [], createLog := [], nextID := 1, faults := [] },
        now := 100 } (sampleCall "c1")).2.redis.available_agents = ["a2"] ∧
    (processIncomingCall
      { redis := { available_agents := ["a1", "a2"],
                   faults := [none, none, some "connection refused"] },
        kafkaProducer := { accepted := [], sendLog := [], faults := [] },
        db := { assigned_calls := [], createLog := [], nextID := 1, faults := [] },
        now := 100 } (sampleCall "c1")).2.kafkaProducer.accepted =
      [assignedEvent (sampleCall "c1") "a1" 100] := by
  decide

/-- C24 (amended): on a store whose commands succeed, for every pool `p` and
every outcome of the publish and of the insert, the pool after `processIncomingCall` is `p`
rotated left by one place: `p` itself when `p` is empty, `t ++ [a]` when `p` is
`a :: t`.  In particular, when the publish fails, the agent named in the
rejected event is at the tail of the pool. -/
theorem C24_pool_is_rotated_whatever_happens_downstream (w : World) (call : IncomingCall)
    (hr : w.redis.healthy) :
    (processIncomingCall w call).2.redis.available_agents = w.redis.available_agents.rotate 1 ∧
    (w.redis.available_agents = [] →
      (processIncomingCall w call).2.redis.available_agents = []) ∧
    (∀ a t, w.redis.available_agents = a :: t →
      (processIncomingCall w call).2.redis.available_agents = t ++ [a]) ∧
    (∀ m e, (m, some e) ∈ publishAttempts w call →
      (processIncomingCall w call).1 = some e ∧
      (processIncomingCall w call).2.redis.available_agents.getLast? =
        some m.Value.AssignedAgentID) := by
  have hnil : w.redis.available_agents = [] →
      (processIncomingCall w call).2.redis.available_agents = [] := by
    intro hp
    rw [processIncomingCall_redis]
    exact (assignAgent_nil hp).2
  have hcons : ∀ a t, w.redis.available_agents = a :: t →
      (processIncomingCall w call).2.redis.available_agents = t ++ [a] := by
    intro a t hp
    rw [processIncomingCall_redis, assignAgent_cons hr hp]
  refine ⟨?_, hnil, hcons, ?_⟩
  · cases hp : w.redis.available_agents with
    | nil => rw [hnil hp]; rfl
    | cons a t => rw [hcons a t hp]; simp [List.rotate_cons_succ]
  · intro m e hm
    cases hp : w.redis.available_agents with
    | nil =>
      rw [publishAttempts_nil_pool w call hp] at hm
      simp at hm
    | cons a t =>
      rw [hcons a t hp]
      rcases processIncomingCall_logs w call hp with ⟨_, c2, _⟩ | ⟨e1, c1, c2, _⟩ |
        ⟨_, c2, _⟩
      · rw [c2] at hm; simp at hm
      · rw [c2] at hm
        have h1 := List.mem_singleton.mp hm
        have hm1 : m = assignedEvent call a w.now := congrArg Prod.fst h1
        have he1 : some e = some e1 := congrArg Prod.snd h1
        rw [c1, he1, hm1]
        simp [assignedEvent, newAssignedCall]
      · rw [c2] at hm
        have h1 := congrArg Prod.snd (List.mem_singleton.mp hm)
        simp at h1

/-- Witness for C24 (amended): the broker rejects the publish of the call "c1" against the
pool `["a1", "a2"]`; "a1" is at the tail afterwards. -/
theorem C24_witness :
    (scriptedWorld ["a1", "a2"] [some "kafka: broker not available"] []).redis.healthy ∧
    (processIncomingCall (scriptedWorld ["a1", "a2"] [some "kafka: broker not available"] [])
      (sampleCall "c1")).2.redis.available_agents = ["a2"] ++ ["a1"] :=
  ⟨by decide,
    (C24_pool_is_rotated_whatever_happens_downstream
      (scriptedWorld ["a1", "a2"] [some "kafka: broker not available"] []) (sampleCall "c1")
      (by decide)).2.2.1 "a1" ["a2"] rfl⟩

/-- An insert on a table that answers and holds no row with the `call_id`: the
row is stored with a fresh primary key and its times. -/
theorem DB.Create_fresh {d : DB} (h : d.healthy) (now : Nat) (row : AssignedCall)
    (hfresh : ∀ c ∈ d.assigned_calls, c.CallID ≠ row.CallID) :
    d.Create now row =
      (none,
        { assigned_calls :=
            d.assigned_calls ++ [{ row with ID := d.nextID, CreatedAt := now, UpdatedAt := now }],
          createLog := d.createLog ++ [(row, none)],
          nextID := d.nextID + 1,
          faults := d.faults.tail }) := by
  have hf := DB.faults_head_of_healthy h
  have hany : ¬ d.assigned_calls.any (fun c => c.CallID == row.CallID) = true := by
    intro hh
    obtain ⟨c, hc, hcc⟩ := List.any_eq_true.mp hh
    exact hfresh c hc (by simpa using hcc)
  unfold DB.Create
  simp only [hf, hany, Bool.false_eq_true, if_false]

/-- An insert on a table that answers and holds a row with the `call_id`: the
unique index rejects it and the rows stay as they are. -/
theorem DB.Create_duplicate {d : DB} (h : d.healthy) (now : Nat) (row : AssignedCall)
    (hdup : d.assigned_calls.any (fun c => c.CallID == row.CallID) = true) :
    d.Create now row =
      (some duplicateKeyError,
        { d with createLog := d.createLog ++ [(row, some duplicateKeyError)],
                 faults := d.faults.tail }) := by
  have hf := DB.faults_head_of_healthy h
  unfold DB.Create
  simp only [hf, hdup, if_true]
  rfl

/-- C25, as stated, fails when one of the first two pool entries is the empty
id: from the pool `["a1", ""]` the first delivery of the call "c1" is published
for "a1", and the redelivery obtains the agent "", which `processIncomingCall`
reads as "no agent": no second event is published. -/
theorem C25_counterexample_second_entry_empty_id :
    ("a1" : String) ≠ "" ∧
    (quietWorld ["a1", ""]).redis.healthy ∧ (quietWorld ["a1", ""]).kafkaProducer.healthy ∧
    (quietWorld ["a1", ""]).db.healthy ∧
    (processIncomingCall (processIncomingCall (quietWorld ["a1", ""]) (sampleCall "c1")).2
      (sampleCall "c1")).2.kafkaProducer.accepted =
      [assignedEvent (sampleCall "c1") "a1" 100] ∧
    publishAttempts (processIncomingCall (quietWorld ["a1", ""]) (sampleCall "c1")).2
      (sampleCall "c1") = [] := by
  decide

/-- C25 (amended): for every pool whose first two entries are distinct non-empty
ids `a` and `b`, with the store commands, the publishes and the table succeeding
and no record for the call stored before the first delivery, processing the same
inbound call twice in a row publishes a first assigned-call event with
`assigned_agent_id` `a` and a second event with the same `call_id` and
`assigned_agent_id` `b`, while the only row stored for that `call_id` is the one
of the first delivery, which names the agent `a`. -/
theorem C25_redelivery_goes_to_the_next_agent (w : World) (call : IncomingCall)
    (a b : String) (t : List String)
    (hr : w.redis.healthy) (hk : w.kafkaProducer.healthy) (hdb : w.db.healthy)
    (hp : w.redis.available_agents = a :: b :: t)
    (_hab : a ≠ b) (ha : a ≠ "") (hb : b ≠ "")
    (hfresh : ∀ c ∈ w.db.assigned_calls, c.CallID ≠ call.CallID) :
    (processIncomingCall (processIncomingCall w call).2 call).2.kafkaProducer.accepted =
      w.kafkaProducer.accepted ++ [assignedEvent call a w.now, assignedEvent call b w.now] ∧
    ((assignedEvent call a w.now).Value.AssignedAgentID = a ∧
      (assignedEvent call b w.now).Value.AssignedAgentID = b ∧
      (assignedEvent call a w.now).Value.CallID = call.CallID ∧
      (assignedEvent call b w.now).Value.CallID = call.CallID) ∧
    (processIncomingCall (processIncomingCall w call).2 call).2.db.assigned_calls.filter
        (fun c => c.CallID == call.CallID) =
      [{ newAssignedCall call a w.now with
          ID := w.db.nextID, CreatedAt := w.now, UpdatedAt := w.now }] ∧
    (∀ c ∈ (processIncomingCall (processIncomingCall w call).2 call).2.db.assigned_calls,
      c.CallID = call.CallID → c.AssignedAgentID = a) := by
  have s1 := processIncomingCall_ok hr hk hp ha call
  have hc1 := DB.Create_fresh hdb w.now (newAssignedCall call a w.now) hfresh
  rw [hc1] at s1
  have hr1 : (processIncomingCall w call).2.redis.healthy := by
    rw [s1]; exact Redis.healthy_tail3 hr _
  have hk1 : (processIncomingCall w call).2.kafkaProducer.healthy := by
    rw [s1]; exact KafkaProducer.healthy_of_faults_tail hk rfl
  have hp1 : (processIncomingCall w call).2.redis.available_agents = b :: (t ++ [a]) := by
    rw [s1]; rfl
  have hdb1 : (processIncomingCall w call).2.db.healthy := by
    rw [s1]; exact fun e he => hdb e (List.mem_of_mem_tail he)
  have hdup : (processIncomingCall w call).2.db.assigned_calls.any
      (fun c => c.CallID ==
        (newAssignedCall call b (processIncomingCall w call).2.now).CallID) = true := by
    rw [s1]
    simp [newAssignedCall]
  have s2 := processIncomingCall_ok hr1 hk1 hp1 hb call
  rw [DB.Create_duplicate hdb1 _ _ hdup] at s2
  have hrows : (processIncomingCall (processIncomingCall w call).2 call).2.db.assigned_calls =
      w.db.assigned_calls ++
        [{ newAssignedCall call a w.now with
            ID := w.db.nextID, CreatedAt := w.now, UpdatedAt := w.now }] := by
    rw [s2]; simp only; rw [s1]
  have hflt : w.db.assigned_calls.filter (fun c => c.CallID == call.CallID) = [] := by
    rw [List.filter_eq_nil_iff]
    intro c hc
    simpa using hfresh c hc
  refine ⟨?_, ⟨rfl, rfl, rfl, rfl⟩, ?_, ?_⟩
  · rw [s2]; simp only; rw [s1]; simp
  · rw [hrows, List.filter_append, hflt]
    simp [newAssignedCall]
  · intro c hc hcid
    rw [hrows] at hc
    rcases List.mem_append.mp hc with h | h
    · exact absurd hcid (hfresh c h)
    · rw [List.mem_singleton.mp h]
      rfl

/-- Witness for C25 (amended): the call "c1" is delivered twice to a quiet world
with the pool `["a1", "a2"]` and an empty table. -/
theorem C25_witness :
    ((quietWorld ["a1", "a2"]).redis.healthy ∧ (quietWorld ["a1", "a2"]).kafkaProducer.healthy ∧
      (quietWorld ["a1", "a2"]).db.healthy ∧
      (quietWorld ["a1", "a2"]).redis.available_agents = "a1" :: "a2" :: [] ∧
      ("a1" : String) ≠ "a2" ∧ ("a1" : String) ≠ "" ∧ ("a2" : String) ≠ "" ∧
      (∀ c ∈ (quietWorld ["a1", "a2"]).db.assigned_calls, c.CallID ≠ (sampleCall "c1").CallID)) ∧
    (processIncomingCall (processIncomingCall (quietWorld ["a1", "a2"]) (sampleCall "c1")).2
      (sampleCall "c1")).2.db.assigned_calls.filter
        (fun c => c.CallID == (sampleCall "c1").CallID) =
      [{ newAssignedCall (sampleCall "c1") "a1" (quietWorld ["a1", "a2"]).now with
          ID := (quietWorld ["a1", "a2"]).db.nextID,
          CreatedAt := (quietWorld ["a1", "a2"]).now,
          UpdatedAt := (quietWorld ["a1", "a2"]).now }] :=
  ⟨⟨by decide, by decide, by decide, rfl, by decide, by decide, by decide, by decide⟩,
    (C25_redelivery_goes_to_the_next_agent (quietWorld ["a1", "a2"]) (sampleCall "c1")
      "a1" "a2" [] (by decide) (by decide) (by decide) rfl (by decide) (by decide) (by decide)
      (by decide)).2.2.1⟩

/-! ## Completing a call -/

/-- The two answers of `First`: an error, or the first row with the `call_id`
that is not soft-deleted; the rows stay as they are. -/
theorem DB.First_cases (d : DB) (callID : String) :
    ((∃ e, (d.First callID).1 = .error e) ∨
      (∃ old, d.assigned_calls.find? (fun c => c.CallID == callID && c.DeletedAt.isNone)
          = some old ∧ (d.First callID).1 = .ok old)) ∧
    (d.First callID).2 = { d with faults := d.faults.tail } := by
  unfold DB.First
  cases d.faults.head?.join with
  | some e => exact ⟨Or.inl ⟨e, rfl⟩, rfl⟩
  | none =>
    cases hf : d.assigned_calls.find? (fun c => c.CallID == callID && c.DeletedAt.isNone) with
    | none => exact ⟨Or.inl ⟨_, rfl⟩, rfl⟩
    | some old => exact ⟨Or.inr ⟨old, rfl, rfl⟩, rfl⟩

/-- Saving a record that carries the `call_id` of a stored row and no primary
key is rejected, and the rows stay as they are. -/
theorem DB.Save_without_key (d : DB) (now : Nat) (call : AssignedCall) (h0 : call.ID = 0)
    (hdup : d.assigned_calls.any (fun c => c.CallID == call.CallID) = true) :
    (∃ e, (d.Save now call).1 = .error e) ∧
    (d.Save now call).2.assigned_calls = d.assigned_calls := by
  unfold DB.Save DB.Create
  simp only [h0, if_true]
  cases d.faults.head?.join with
  | some e => exact ⟨⟨e, rfl⟩, rfl⟩
  | none =>
    simp only [hdup, if_true]
    exact ⟨⟨_, rfl⟩, trivial⟩

/-- Every way in which `CompleteCall` can end: with an error and the rows as they
were, or with the stored record `old` of that `call_id`, owned by the caller,
rewritten with the new status, the time of the call as timestamp and as update
time. -/
theorem CompleteCall_cases (d : DB) (now : Nat) (callID agentID notes status : String) :
    ((∃ e, (CompleteCall d now callID agentID notes status).1 = .error e) ∧
      (CompleteCall d now callID agentID notes status).2.assigned_calls = d.assigned_calls) ∨
    (∃ old ∈ d.assigned_calls,
      old.CallID = callID ∧ old.AssignedAgentID = agentID ∧ old.DeletedAt = none ∧
      d.assigned_calls.find? (fun c => c.CallID == callID && c.DeletedAt.isNone) = some old ∧
      (CompleteCall d now callID agentID notes status).1 =
        .ok { old with Status := status, Timestamp := now, UpdatedAt := now } ∧
      (CompleteCall d now callID agentID notes status).2.assigned_calls =
        d.assigned_calls.map (fun c =>
          if c.ID = old.ID ∧ c.DeletedAt.isNone
          then { old with Status := status, Timestamp := now, UpdatedAt := now } else c)) := by
  obtain ⟨hfirst, hd1⟩ := DB.First_cases d callID
  unfold CompleteCall
  rcases hfirst with ⟨e, he⟩ | ⟨old, hfind, hok⟩
  · rcases hF : d.First callID with ⟨res, d1⟩
    rw [hF] at he hd1
    simp only at he hd1
    subst he
    left
    exact ⟨⟨_, rfl⟩, by rw [hd1]⟩
  · rcases hF : d.First callID with ⟨res, d1⟩
    rw [hF] at hok hd1
    simp only at hok hd1
    subst hok
    have hmem : old ∈ d.assigned_calls := List.mem_of_find?_eq_some hfind
    have hp := List.find?_some hfind
    simp only [Bool.and_eq_true, beq_iff_eq] at hp
    have hdel : old.DeletedAt = none := by
      cases h : old.DeletedAt with
      | none => rfl
      | some v => rw [h] at hp; simp at hp
    by_cases hag : old.AssignedAgentID = agentID
    · subst hag
      simp only [ne_eq, not_true_eq_false, if_false, ite_self]
      by_cases h0 : old.ID = 0
      · left
        have hdup : d1.assigned_calls.any (fun c => c.CallID ==
            ({ old with Status := status, Timestamp := now } : AssignedCall).CallID) = true := by
          rw [hd1]
          exact List.any_eq_true.mpr ⟨old, hmem, by simp⟩
        obtain ⟨⟨e, he⟩, hrows⟩ := DB.Save_without_key d1 now
          ({ old with Status := status, Timestamp := now } : AssignedCall) h0 hdup
        rcases hS : d1.Save now ({ old with Status := status, Timestamp := now } : AssignedCall)
          with ⟨res, d2⟩
        rw [hS] at he hrows
        simp only at he hrows
        subst he
        exact ⟨⟨_, rfl⟩, by rw [hrows, hd1]⟩
      · unfold DB.Save
        simp only [h0, if_false]
        cases hf : d1.faults.head?.join with
        | some e =>
          left
          exact ⟨⟨e, rfl⟩, by simp only; rw [hd1]⟩
        | none =>
          right
          refine ⟨old, hmem, hp.1, rfl, hdel, hfind, rfl, ?_⟩
          simp only
          rw [hd1]
    · left
      simp only [ne_eq, hag, not_false_eq_true, if_true]
      exact ⟨⟨_, rfl⟩, by rw [hd1]⟩

/-- In a table without two rows of the same `call_id`, the row that `First`
finds for a `call_id` is the stored row with that `call_id`. -/
theorem find_unique_call {rows : List AssignedCall} {callID : String} {old row : AssignedCall}
    (huniq : (rows.map (fun c => c.CallID)).Nodup)
    (hfind : rows.find? (fun c => c.CallID == callID && c.DeletedAt.isNone) = some old)
    (hrow : row ∈ rows) (hid : row.CallID = callID) : old = row := by
  have hmem : old ∈ rows := List.mem_of_find?_eq_some hfind
  have hp := List.find?_some hfind
  simp only [Bool.and_eq_true, beq_iff_eq] at hp
  exact List.inj_on_of_nodup_map huniq hmem hrow (by rw [hp.1, hid])

/-- In a table without two rows of the same primary key, rewriting the row with
the key of `old` rewrites `old` and nothing else. -/
theorem map_by_key_eq {rows : List AssignedCall} {old new : AssignedCall}
    (hkey : (rows.map (fun c => c.ID)).Nodup) (hmem : old ∈ rows)
    (hdel : old.DeletedAt = none) :
    rows.map (fun c => if c.ID = old.ID ∧ c.DeletedAt.isNone then new else c) =
      rows.map (fun c => if c = old then new else c) := by
  apply List.map_congr_left
  intro c hc
  by_cases h : c = old
  · subst h
    simp [hdel]
  · have hid : ¬ c.ID = old.ID := fun e => h (List.inj_on_of_nodup_map hkey hc hmem e)
    simp [h, hid]

/-- C21: on a table that satisfies its primary key and its unique index,
`CompleteCall` by a caller other than the agent of the stored record with that
`call_id` returns an error and leaves the table as it was; it returns an error
when no record has the `call_id`; and when it succeeds, the record returned has
the requested `call_id` and the caller as agent, and every row of the table
keeps its primary key, its `call_id` and its `assigned_agent_id`. -/
theorem C21_complete_call_preserves_ownership (d : DB) (now : Nat)
    (callID agentID notes status : String) (hk : d.wellKeyed) :
    (∀ row ∈ d.assigned_calls, row.CallID = callID → row.AssignedAgentID ≠ agentID →
      (∃ e, (CompleteCall d now callID agentID notes status).1 = .error e) ∧
      (CompleteCall d now callID agentID notes status).2.assigned_calls = d.assigned_calls) ∧
    ((∀ row ∈ d.assigned_calls, row.CallID ≠ callID) →
      (∃ e, (CompleteCall d now callID agentID notes status).1 = .error e) ∧
      (CompleteCall d now callID agentID notes status).2.assigned_calls = d.assigned_calls) ∧
    (∀ saved, (CompleteCall d now callID agentID notes status).1 = .ok saved →
      saved.CallID = callID ∧ saved.AssignedAgentID = agentID ∧
      (∃ old ∈ d.assigned_calls, old.ID = saved.ID ∧ old.CallID = saved.CallID ∧
        old.AssignedAgentID = saved.AssignedAgentID) ∧
      (CompleteCall d now callID agentID notes status).2.assigned_calls.map
          (fun c => (c.ID, c.CallID, c.AssignedAgentID)) =
        d.assigned_calls.map (fun c => (c.ID, c.CallID, c.AssignedAgentID))) := by
  obtain ⟨hkey, huniq⟩ := hk
  refine ⟨?_, ?_, ?_⟩
  · intro row hrow hid hag
    rcases CompleteCall_cases d now callID agentID notes status with h |
      ⟨old, _, _, h2, _, hfind, _, _⟩
    · exact h
    · have := find_unique_call huniq hfind hrow hid
      rw [this] at h2
      exact absurd h2 hag
  · intro hnone
    rcases CompleteCall_cases d now callID agentID notes status with h |
      ⟨old, hmem, h1, _⟩
    · exact h
    · exact absurd h1 (hnone old hmem)
  · intro saved hs
    rcases CompleteCall_cases d now callID agentID notes status with ⟨⟨e, he⟩, _⟩ |
      ⟨old, hmem, h1, h2, hdel, _, hres, hrows⟩
    · rw [he] at hs
      cases hs
    · rw [hres] at hs
      have hsaved := (Except.ok.inj hs).symm
      subst hsaved
      refine ⟨h1, h2, ⟨old, hmem, rfl, rfl, rfl⟩, ?_⟩
      rw [hrows, map_by_key_eq hkey hmem hdel, List.map_map]
      apply List.map_congr_left
      intro c _
      by_cases h : c = old
      · subst h; simp
      · simp [h]

/-- Witness for C21: the agent "a2" tries to complete the call "c1" of the agent
"a1"; nobody can complete the unknown call "c9"; the agent "a1" completes "c1". -/
theorem C21_witness :
    (sampleTable.wellKeyed ∧
      (∃ row ∈ sampleTable.assigned_calls, row.CallID = "c1" ∧ row.AssignedAgentID ≠ "a2") ∧
      (∀ row ∈ sampleTable.assigned_calls, row.CallID ≠ "c9")) ∧
    ((∃ e, (CompleteCall sampleTable 200 "c1" "a2" "" "completed").1 = .error e) ∧
      (CompleteCall sampleTable 200 "c1" "a2" "" "completed").2.assigned_calls =
        sampleTable.assigned_calls) ∧
    ((∃ e, (CompleteCall sampleTable 200 "c9" "a1" "" "completed").1 = .error e) ∧
      (CompleteCall sampleTable 200 "c9" "a1" "" "completed").2.assigned_calls =
        sampleTable.assigned_calls) :=
  ⟨⟨by decide, ⟨_, List.mem_singleton.mpr rfl, rfl, by decide⟩, by decide⟩,
    (C21_complete_call_preserves_ownership sampleTable 200 "c1" "a2" "" "completed"
      (by decide)).1 _ (List.mem_singleton.mpr rfl) rfl (by decide),
    (C21_complete_call_preserves_ownership sampleTable 200 "c9" "a1" "" "completed"
      (by decide)).2.1 (by decide)⟩

/-- C22, as stated, fails for the timestamp: `CompleteCall` sets the timestamp of
the record to the time of the call, so the call "c1", stamped at 100, carries
the timestamp 200 after its owner completed it at time 200. -/
theorem C22_counterexample_timestamp_is_overwritten :
    sampleTable.assigned_calls.map (fun c => (c.CallID, c.Timestamp)) = [("c1", 100)] ∧
    (CompleteCall sampleTable 200 "c1" "a1" "" "completed").1 =
      .ok { ID := 1, CallID := "c1", CustomerNumber := "555", Timestamp := 200,
            AssignedAgentID := "a1", Status := "completed", Notes := "",
            CreatedAt := 100, UpdatedAt := 200, DeletedAt := none } ∧
    (CompleteCall sampleTable 200 "c1" "a1" "" "completed").2.assigned_calls.map
      (fun c => (c.CallID, c.Timestamp)) = [("c1", 200)] :=
  ⟨by decide, rfl, by decide⟩

/-- C22 (amended): on a table that satisfies its primary key, a successful
`CompleteCall` rewrites exactly the stored record with that `call_id`: its
status becomes the requested status, its timestamp and its update time become
the time of the call, and every other field (primary key, `call_id`,
`customer_number`, `assigned_agent_id`, notes, creation time) has the same value
as before; every other row is unchanged. -/
theorem C22_complete_call_changes_status_and_times_only (d : DB) (now : Nat)
    (callID agentID notes status : String) (saved : AssignedCall)
    (hk : d.wellKeyed)
    (hok : (CompleteCall d now callID agentID notes status).1 = .ok saved) :
    ∃ old ∈ d.assigned_calls, old.CallID = callID ∧
      saved = { old with Status := status, Timestamp := now, UpdatedAt := now } ∧
      (saved.ID = old.ID ∧ saved.CallID = old.CallID ∧
        saved.CustomerNumber = old.CustomerNumber ∧
        saved.AssignedAgentID = old.AssignedAgentID ∧ saved.Notes = old.Notes ∧
        saved.CreatedAt = old.CreatedAt ∧ saved.DeletedAt = old.DeletedAt) ∧
      (saved.Status = status ∧ saved.Timestamp = now) ∧
      (CompleteCall d now callID agentID notes status).2.assigned_calls =
        d.assigned_calls.map (fun c => if c = old then saved else c) := by
  rcases CompleteCall_cases d now callID agentID notes status with ⟨⟨e, he⟩, _⟩ |
    ⟨old, hmem, h1, _, hdel, _, hres, hrows⟩
  · rw [he] at hok
    cases hok
  · rw [hres] at hok
    have hsaved := (Except.ok.inj hok).symm
    subst hsaved
    refine ⟨old, hmem, h1, rfl, ⟨rfl, rfl, rfl, rfl, rfl, rfl, rfl⟩, ⟨rfl, rfl⟩, ?_⟩
    rw [hrows, map_by_key_eq hk.1 hmem hdel]

/-- Witness for C22 (amended): the agent "a1" completes the call "c1" at time 200. -/
theorem C22_witness :
    (sampleTable.wellKeyed ∧
      (CompleteCall sampleTable 200 "c1" "a1" "" "completed").1 =
        .ok { ID := 1, CallID := "c1", CustomerNumber := "555", Timestamp := 200,
              AssignedAgentID := "a1", Status := "completed", Notes := "",
              CreatedAt := 100, UpdatedAt := 200, DeletedAt := none }) ∧
    (∃ old ∈ sampleTable.assigned_calls, old.CallID = "c1" ∧
      ({ ID := 1, CallID := "c1", CustomerNumber := "555", Timestamp := 200,
         AssignedAgentID := "a1", Status := "completed", Notes := "",
         CreatedAt := 100, UpdatedAt := 200, DeletedAt := none } : AssignedCall) =
        { old with Status := "completed", Timestamp := 200, UpdatedAt := 200 }) :=
  ⟨⟨by decide, rfl⟩,
    match C22_complete_call_changes_status_and_times_only sampleTable 200 "c1" "a1" ""
      "completed" _ (by decide) rfl with
    | ⟨old, hmem, hid, hsaved, _⟩ => ⟨old, hmem, hid, hsaved⟩⟩

/-! ## Agent ids -/

theorem hexDigit_mem (n : Nat) (h : n < 16) : hexDigit n ∈ "0123456789abcdef".data := by
  interval_cases n <;> decide

/-- What holds of a generated agent id for every UUID: six characters, each a
lower-case hexadecimal digit. -/
theorem generateAgentID_hex (id : UUID) :
    (generateAgentID id).data.length = 6 ∧
    ∀ c ∈ (generateAgentID id).data, c ∈ "0123456789abcdef".data := by
  rcases id with ⟨bytes, hsize⟩
  rcases bytes with _ | ⟨b0, _ | ⟨b1, _ | ⟨b2, _ | ⟨b3, rest⟩⟩⟩⟩
  · simp at hsize
  · simp at hsize
  · simp at hsize
  · simp at hsize
  · have hlt : ∀ b : UInt8, b.toNat / 16 < 16 ∧ b.toNat % 16 < 16 := by
      intro b
      have : b.toNat < 256 := b.toNat_lt
      omega
    have e : (generateAgentID { bytes := b0 :: b1 :: b2 :: b3 :: rest, size := hsize }).data =
        [hexDigit (b0.toNat / 16), hexDigit (b0.toNat % 16), hexDigit (b1.toNat / 16),
          hexDigit (b1.toNat % 16), hexDigit (b2.toNat / 16), hexDigit (b2.toNat % 16)] := by
      simp [generateAgentID, UUID.String, hexEncode]
    rw [e]
    refine ⟨rfl, ?_⟩
    intro c hc
    simp only [List.mem_cons, List.mem_singleton, List.not_mem_nil, or_false] at hc
    rcases hc with h | h | h | h | h | h <;> rw [h]
    · exact hexDigit_mem _ (hlt b0).1
    · exact hexDigit_mem _ (hlt b0).2
    · exact hexDigit_mem _ (hlt b1).1
    · exact hexDigit_mem _ (hlt b1).2
    · exact hexDigit_mem _ (hlt b2).1
    · exact hexDigit_mem _ (hlt b2).2

/-- C23 (the code at the failing input): for the version-4 UUID
`a3f1c2d4-5e6f-4708-9abc-def012345678`, which `uuid.New()` can return,
`generateAgentID` returns "a3f1c2": six characters, of which "a", "f" and "c"
are not decimal digits. -/
theorem C23_generated_id_holds_hex_letters :
    sampleUUID.isV4 = true ∧
    sampleUUID.String = "a3f1c2d4-5e6f-4708-9abc-def012345678" ∧
    generateAgentID sampleUUID = "a3f1c2" ∧
    (generateAgentID sampleUUID).length = 6 ∧
    (generateAgentID sampleUUID).data.filter (fun c => !c.isDigit) = ['a', 'f', 'c'] := by
  decide

/-! ## Delivery to the agent of a connection -/

/-- An agent id that a token can carry is not empty. -/
theorem tokenAgentID_ne_empty {X : String} (h : tokenAgentID X) : X ≠ "" := by
  rcases h with h | ⟨id, h⟩
  · rw [h]; decide
  · intro e
    have hl := (generateAgentID_hex id).1
    rw [← h, e] at hl
    simp at hl

/-- C16: for every agent id X that a connection can be opened for (the id of a
verified token) and every finite stream of assigned-call events, when every
connection write succeeds the delivery bridge for X writes to the connection
exactly the events whose `assigned_agent_id` equals X, each as a `new_call`
frame carrying the event, in stream order, one write per event, and writes
nothing for any other event; for a stream addressed to X, Y, X, Z (Y and Z
other than X) it delivers exactly the two events addressed to X. -/
theorem C16_bridge_delivers_exactly_the_agents_events
    (uA : List UInt8 → Except String AssignedCall)
    (uI : List UInt8 → Except String IncomingCall) (X : String) (c : WsConn)
    (values : List (List UInt8)) (events : List AssignedCall)
    (hX : tokenAgentID X) (hc : c.healthy)
    (hdec : List.Forall₂ (fun v ev => uA v = .ok ev) values events) :
    (deliveryBridge uA uI X c values).written =
      c.written ++ (events.filter (fun ev => ev.AssignedAgentID = X)).map WsMessage.new_call ∧
    bridgeWrites uA uI X c values =
      (events.filter (fun ev => ev.AssignedAgentID = X)).map
        (fun ev => (WsMessage.new_call ev, none)) ∧
    (∀ e1 e2 e3 e4 : AssignedCall, events = [e1, e2, e3, e4] →
      e1.AssignedAgentID = X → e2.AssignedAgentID ≠ X →
      e3.AssignedAgentID = X → e4.AssignedAgentID ≠ X →
      (deliveryBridge uA uI X c values).written =
        c.written ++ [WsMessage.new_call e1, WsMessage.new_call e3]) := by
  obtain ⟨h1, h2⟩ := deliveryBridge_healthy uA uI X (tokenAgentID_ne_empty hX) values events
    c hc hdec
  refine ⟨h1, ?_, ?_⟩
  · unfold bridgeWrites
    rw [h2, List.drop_left]
  · intro e1 e2 e3 e4 he a1 a2 a3 a4
    rw [h1, he]
    simp [List.filter_cons, a1, a2, a3, a4]

/-- Witness for C16: the bridge of the agent whose id "a3f1c2" was generated
from `sampleUUID`, on a stream addressed to that agent, "8", that agent, "9". -/
theorem C16_witness :
    (tokenAgentID (generateAgentID sampleUUID) ∧ quietConn.healthy ∧
      List.Forall₂ (fun v ev => sampleUnmarshalGenerated v = .ok ev)
        [[1, 1], [2, 8], [3, 1], [4, 9]]
        [sampleAssigned "1" "a3f1c2", sampleAssigned "2" "8", sampleAssigned "3" "a3f1c2",
          sampleAssigned "4" "9"]) ∧
    (deliveryBridge sampleUnmarshalGenerated sampleUnmarshalIncoming
      (generateAgentID sampleUUID) quietConn [[1, 1], [2, 8], [3, 1], [4, 9]]).written =
      quietConn.written ++
        [WsMessage.new_call (sampleAssigned "1" "a3f1c2"),
          WsMessage.new_call (sampleAssigned "3" "a3f1c2")] :=
  have hf : List.Forall₂ (fun v ev => sampleUnmarshalGenerated v = .ok ev)
      [[1, 1], [2, 8], [3, 1], [4, 9]]
      [sampleAssigned "1" "a3f1c2", sampleAssigned "2" "8", sampleAssigned "3" "a3f1c2",
        sampleAssigned "4" "9"] :=
    List.Forall₂.cons rfl (List.Forall₂.cons rfl (List.Forall₂.cons rfl
      (List.Forall₂.cons rfl List.Forall₂.nil)))
  ⟨⟨Or.inr ⟨sampleUUID, rfl⟩, by decide, hf⟩,
    (C16_bridge_delivers_exactly_the_agents_events sampleUnmarshalGenerated
      sampleUnmarshalIncoming (generateAgentID sampleUUID) quietConn _ _
      (Or.inr ⟨sampleUUID, rfl⟩) (by decide) hf).2.2
      _ _ _ _ rfl (by decide) (by decide) (by decide) (by decide)⟩

end CallCenter
